import Mathlib

/-!
A shallow embedding of the HTTP/1.1 incremental parser, the response
serializer and the event-loop timer facility of
`src/src/http_server.c` and `src/src/event_loop.c`, together with
theorems settling the frozen claims about them.

Bytes are modelled as `Nat`; C byte buffers become `List Nat`.  C string
functions (`strchr`, `strcmp`, `strtoull`, ...) operate on
NUL-terminated strings, so wherever the source hands a byte region to a
C string function the model truncates the region at the first 0 byte
(`truncNul`), faithfully reproducing the C behaviour on embedded NUL
bytes.  Allocation failure paths (`malloc` returning NULL, status 500)
are modelled as never taken.
-/

namespace WebLib

/-- Compile-time limits from `src/src/http_server.c`. -/
def MAX_REQUEST_LINE_LEN : Nat := 4096

def MAX_HEADER_LINE_LEN : Nat := 8192

def MAX_HEADER_COUNT : Nat := 100

def MAX_HEADER_BYTES : Nat := 16384

def MAX_BODY_BYTES : Nat := 1048576

def MAX_REQUEST_BUFFER : Nat := MAX_BODY_BYTES + MAX_HEADER_BYTES

def MAX_TIMERS : Nat := 64

abbrev Byte := Nat

/-- ASCII bytes of a Lean string literal (used to write C string literals). -/
def bytes (s : String) : List Byte := s.data.map (fun c => c.toNat)

/-- C `isspace` on an unsigned char (C locale). -/
def isspaceB (c : Byte) : Bool :=
  c = 32 || c = 9 || c = 10 || c = 11 || c = 12 || c = 13

/-- C `tolower` on an unsigned char (C locale). -/
def tolowerB (c : Byte) : Byte := if 65 ≤ c ∧ c ≤ 90 then c + 32 else c

/-- `lowercase_dup` in the source: byte-wise `tolower`. -/
def lowercase (s : List Byte) : List Byte := s.map tolowerB

/-- The portion of a byte region a C string function sees: up to the
first NUL byte. -/
def truncNul (s : List Byte) : List Byte := s.takeWhile (fun c => c ≠ 0)

/-- Drop trailing `isspace` bytes (the `while (len > 0 && isspace(..))
len--` trimming loops in the source). -/
def trimRight (s : List Byte) : List Byte := (s.reverse.dropWhile isspaceB).reverse

/-- C `isdigit`. -/
def isdigitB (c : Byte) : Bool := 48 ≤ c && c ≤ 57

/-- C `isxdigit`. -/
def ishexB (c : Byte) : Bool :=
  (48 ≤ c && c ≤ 57) || (97 ≤ c && c ≤ 102) || (65 ≤ c && c ≤ 70)

def hexValB (c : Byte) : Nat :=
  if 48 ≤ c ∧ c ≤ 57 then c - 48
  else if 97 ≤ c ∧ c ≤ 102 then c - 87
  else if 65 ≤ c ∧ c ≤ 70 then c - 55
  else 0

def digitsToNat (ds : List Byte) : Nat := ds.foldl (fun acc d => acc * 10 + (d - 48)) 0

def hexToNat (ds : List Byte) : Nat := ds.foldl (fun acc d => acc * 16 + hexValB d) 0

/-- `ULLONG_MAX` (and `ULONG_MAX`) on the 64-bit targets the source is
built for. -/
def ULLONG_MAX : Nat := 2 ^ 64 - 1

/-- Result clamping of `strtoull`/`strtoul`: overflow saturates at
`ULLONG_MAX`; a leading minus sign negates in the unsigned type. -/
def strtoClamp (neg : Bool) (v : Nat) : Nat :=
  if v > ULLONG_MAX then ULLONG_MAX
  else if neg then (2 ^ 64 - v) % 2 ^ 64
  else v

/-- Optional sign accepted by `strtoull`/`strtoul` ('+' = 43, '-' = 45). -/
def splitSign : List Byte → (Bool × List Byte)
  | 43 :: r => (false, r)
  | 45 :: r => (true, r)
  | s => (false, s)

/-- `strtoull(s, &endptr, 10)`: returns the converted value and the
bytes after the number (`endptr`), or `none` when no conversion was
performed (`endptr == s`). -/
def strtoull10 (s : List Byte) : Option (Nat × List Byte) :=
  let s1 := s.dropWhile isspaceB
  let p := splitSign s1
  let ds := p.2.takeWhile isdigitB
  if ds = [] then none
  else some (strtoClamp p.1 (digitsToNat ds), p.2.drop ds.length)

/-- `strtoul(s, &endptr, 16)` as used for chunk-size lines: the source
only tests `endptr == line`, so just the converted value (or `none` for
no conversion) is needed.  Base-16 `strtoul` accepts an optional `0x`
prefix; a bare `0x` with no hex digit after it converts the leading `0`. -/
def strtoul16 (s : List Byte) : Option Nat :=
  let s1 := s.dropWhile isspaceB
  let p := splitSign s1
  match p.2 with
  | 48 :: x :: r =>
    if x = 120 ∨ x = 88 then
      let ds := r.takeWhile ishexB
      if ds = [] then some (strtoClamp p.1 0)
      else some (strtoClamp p.1 (hexToNat ds))
    else
      some (strtoClamp p.1 (hexToNat ((48 :: x :: r).takeWhile ishexB)))
  | _ =>
    let ds := p.2.takeWhile ishexB
    if ds = [] then none else some (strtoClamp p.1 (hexToNat ds))

/-- `find_crlf`: index of the first CR LF pair, scanning `i` with
`i + 1 < len`. -/
def find_crlf : List Byte → Option Nat
  | [] => none
  | [_] => none
  | a :: b :: rest =>
    if a = 13 ∧ b = 10 then some 0
    else (find_crlf (b :: rest)).map (fun i => i + 1)

/-- `strchr(line, c)` on a NUL-free byte list: index of the first
occurrence. -/
def idxOf (c : Byte) : List Byte → Option Nat
  | [] => none
  | a :: r => if a = c then some 0 else (idxOf c r).map (fun i => i + 1)

/-- `strstr`-style substring test (case sensitive). -/
def hasSub (hay needle : List Byte) : Bool :=
  match hay with
  | [] => needle.isPrefixOf ([] : List Byte)
  | _ :: t => needle.isPrefixOf hay || hasSub t needle

/-- One node of the header list: lower-cased name for lookup, original
casing for serialization, and the value (`http_header_node_t`). -/
structure HeaderEntry where
  name : List Byte
  raw : List Byte
  value : List Byte
deriving DecidableEq, Repr

/-- `header_list_find`: first node whose lower-cased name matches. -/
def header_list_find (hs : List HeaderEntry) (lower : List Byte) : Option HeaderEntry :=
  hs.find? (fun e => e.name = lower)

/-- The replacement branch of `header_list_add`: the first node with
this lower-cased name gets the new value *and* the new raw casing. -/
def replaceFirst : List HeaderEntry → List Byte → List Byte → List Byte → List HeaderEntry
  | [], _, _, _ => []
  | e :: rest, lower, raw, value =>
    if e.name = lower then { e with raw := raw, value := value } :: rest
    else e :: replaceFirst rest lower raw value

/-- `header_list_add(head, name, raw_name, value, replace_existing)`
(all call sites pass a non-NULL `raw_name`). -/
def header_list_add (hs : List HeaderEntry) (name raw value : List Byte)
    (replace : Bool) : List HeaderEntry :=
  if replace ∧ hs.any (fun e => e.name = lowercase name) then
    replaceFirst hs (lowercase name) raw value
  else hs ++ [⟨lowercase name, raw, value⟩]

/-- The seven-verb table of `assign_http_method`. -/
inductive Method where
  | GET | POST | PUT | DELETE | PATCH | HEAD | OPTIONS
deriving DecidableEq, Repr

def methodOf (s : List Byte) : Option Method :=
  if s = bytes ("GET") then some .GET
  else if s = bytes ("POST") then some .POST
  else if s = bytes ("PUT") then some .PUT
  else if s = bytes ("DELETE") then some .DELETE
  else if s = bytes ("PATCH") then some .PATCH
  else if s = bytes ("HEAD") then some .HEAD
  else if s = bytes ("OPTIONS") then some .OPTIONS
  else none

/-- `http_request_t` (the fields the parser fills). -/
structure Request where
  method : Method := .GET
  path : List Byte := []
  query_string : Option (List Byte) := none
  headers : List HeaderEntry := []
  body : List Byte := []
  body_length : Nat := 0
deriving DecidableEq, Repr

/-- `parse_state_t`. -/
inductive PState where
  | REQUEST_LINE | HEADERS | BODY
  | CHUNK_SIZE | CHUNK_DATA | CHUNK_CRLF | CHUNK_TRAILERS
  | COMPLETE | ERROR
deriving DecidableEq, Repr

/-- `http_parser_t`.  `buffer_cap`/`body_capacity` only affect the
out-of-memory path and are omitted. -/
structure Parser where
  state : PState
  req : Request
  buffer : List Byte
  total_bytes : Nat
  header_count : Nat
  content_length : Nat
  body_received : Nat
  chunked : Bool
  current_chunk_size : Nat
  current_chunk_received : Nat
  keep_alive : Bool
  seen_host : Bool
  error_status : Nat
  error_message : String
deriving DecidableEq, Repr

/-- `parser_set_error`. -/
def setError (p : Parser) (status : Nat) (msg : String) : Parser :=
  { p with state := .ERROR, error_status := status, error_message := msg }

/-- `parser_consume`: drop `n` consumed bytes from the front. -/
def parser_consume (p : Parser) (n : Nat) : Parser :=
  { p with buffer := p.buffer.drop n }

/-- `http_parser_init` on a fresh request (`memset` to zero, state
`REQUEST_LINE`; the buffer allocation is assumed to succeed). -/
def http_parser_init : Parser :=
  { state := .REQUEST_LINE
    req := {}
    buffer := []
    total_bytes := 0
    header_count := 0
    content_length := 0
    body_received := 0
    chunked := false
    current_chunk_size := 0
    current_chunk_received := 0
    keep_alive := false
    seen_host := false
    error_status := 0
    error_message := "" }

/-- Result code of the `parse_*` helpers (-1 / 0 / 1). -/
inductive StepRes where
  | error | incomplete | progress
deriving DecidableEq, Repr

/-- Outcome of analysing one request line (the body of
`parse_request_line` after the line is extracted): which error path is
taken, or the fields of a successful parse.  The constructors record
exactly the request fields mutated before each C early return. -/
inductive RLineOut where
  | noSplit
  | badMethod
  | badTarget (m : Method)
  | longTarget (m : Method)
  | badVersion (m : Method) (path : List Byte) (q : Option (List Byte))
  | ok (m : Method) (path : List Byte) (q : Option (List Byte)) (ka : Bool)
deriving DecidableEq, Repr

/-- The pure part of `parse_request_line`, applied to the NUL-truncated
line: split on spaces, match the method, validate the target, split the
query at the first `?`, and match the version. -/
def request_line_analyze (line : List Byte) : RLineOut :=
  match idxOf 32 line with
  | none => .noSplit
  | some i1 =>
    let target0 := (line.drop (i1 + 1)).dropWhile (fun c => c = 32)
    match idxOf 32 target0 with
    | none => .noSplit
    | some i2 =>
      let target := target0.take i2
      let version := (target0.drop (i2 + 1)).dropWhile (fun c => c = 32)
      match methodOf (line.take i1) with
      | none => .badMethod
      | some m =>
        if target.length = 0 ∨ target.head? ≠ some 47 then .badTarget m
        else if target.length > MAX_REQUEST_LINE_LEN then .longTarget m
        else
          let pq : List Byte × Option (List Byte) :=
            match idxOf 63 target with
            | none => (target, none)
            | some qi => (target.take qi, some (target.drop (qi + 1)))
          if version = bytes ("HTTP/1.1") then .ok m pq.1 pq.2 true
          else if version = bytes ("HTTP/1.0") then .ok m pq.1 pq.2 false
          else .badVersion m pq.1 pq.2

/-- Store a parsed method on the request. -/
def withMethod (p : Parser) (m : Method) : Parser :=
  { p with req := { p.req with method := m } }

/-- Store method, path and (if present) query string on the request;
an absent `?` leaves the old query string, as the source only
overwrites `query_string` when a `?` is found. -/
def withReqLine (p : Parser) (m : Method) (path : List Byte)
    (q : Option (List Byte)) : Parser :=
  { p with req := { p.req with
      method := m
      path := path
      query_string := match q with | some s => some s | none => p.req.query_string } }

/-- `parse_request_line`. -/
def parse_request_line (p : Parser) : StepRes × Parser :=
  match find_crlf p.buffer with
  | none => (.incomplete, p)
  | some ci =>
    if ci > MAX_REQUEST_LINE_LEN then (.error, setError p 414 ("Request-URI Too Long"))
    else
      match request_line_analyze (truncNul (p.buffer.take ci)) with
      | .noSplit => (.error, setError p 400 ("Malformed request line"))
      | .badMethod => (.error, setError p 501 ("Unsupported HTTP method"))
      | .badTarget m => (.error, setError (withMethod p m) 400 ("Invalid request target"))
      | .longTarget m => (.error, setError (withMethod p m) 414 ("Request-URI Too Long"))
      | .badVersion m path q =>
        (.error, setError (withReqLine p m path q) 400 ("Unsupported HTTP version"))
      | .ok m path q ka =>
        (.progress,
          { parser_consume (withReqLine p m path q) (ci + 2) with
              state := .HEADERS, keep_alive := ka })

/-- Outcome of analysing one header line (the extraction part of
`parse_header_line`): missing colon, empty name, or the trimmed and
NUL-truncated name/value pair. -/
inductive HLineOut where
  | malformed
  | emptyName
  | entry (name value : List Byte)
deriving DecidableEq, Repr

/-- The pure part of `parse_header_line`: `memchr` for the colon on the
raw region, trim the name's trailing whitespace, skip the value's
leading blanks and trim its trailing whitespace, then truncate both at
the first NUL (the copies are used only as C strings). -/
def header_line_analyze (line : List Byte) : HLineOut :=
  match idxOf 58 line with
  | none => .malformed
  | some ci =>
    let nameRaw := trimRight (line.take ci)
    if nameRaw.length = 0 then .emptyName
    else
      let valueRaw := trimRight ((line.drop (ci + 1)).dropWhile (fun c => c = 32 || c = 9))
      .entry (truncNul nameRaw) (truncNul valueRaw)

/-- The `header_list_add` call of `parse_header_line` (`Set-Cookie`
never replaces). -/
def withHeaderAdded (p : Parser) (name value : List Byte) : Parser :=
  { p with req := { p.req with
      headers := header_list_add p.req.headers name name value
                   (lowercase name ≠ bytes ("set-cookie")) } }

/-- `parse_header_line`: add the header to the list, then apply the
recognized-header side effects (`Content-Length`, `Transfer-Encoding`
via case-sensitive `strstr`, `Connection` via `strcasestr`, `Host`). -/
def parse_header_line (p : Parser) (line : List Byte) : Parser :=
  match header_line_analyze line with
  | .malformed => setError p 400 ("Malformed header line")
  | .emptyName => setError p 400 ("Empty header name")
  | .entry name value =>
    if lowercase name = bytes ("content-length") then
      match strtoull10 value with
      | none => setError (withHeaderAdded p name value) 400 ("Invalid Content-Length header")
      | some vr =>
        if vr.2 ≠ [] then
          setError (withHeaderAdded p name value) 400 ("Invalid Content-Length header")
        else if vr.1 > MAX_BODY_BYTES then
          setError (withHeaderAdded p name value) 413 ("Payload Too Large")
        else { withHeaderAdded p name value with content_length := vr.1 }
    else if lowercase name = bytes ("transfer-encoding") then
      if hasSub value (bytes ("chunked")) then
        { withHeaderAdded p name value with chunked := true, content_length := 0 }
      else withHeaderAdded p name value
    else if lowercase name = bytes ("connection") then
      if hasSub (lowercase value) (bytes ("close")) then
        { withHeaderAdded p name value with keep_alive := false }
      else if hasSub (lowercase value) (bytes ("keep-alive")) then
        { withHeaderAdded p name value with keep_alive := true }
      else withHeaderAdded p name value
    else if lowercase name = bytes ("host") then
      { withHeaderAdded p name value with seen_host := true }
    else withHeaderAdded p name value

theorem parse_header_line_buffer (p : Parser) (line : List Byte) :
    (parse_header_line p line).buffer = p.buffer := by
  unfold parse_header_line
  repeat' split
  all_goals rfl

theorem find_crlf_lt (l : List Byte) (i : Nat) (h : find_crlf l = some i) :
    i + 1 < l.length := by
  induction l generalizing i with
  | nil => simp [find_crlf] at h
  | cons a t ih =>
    match t with
    | [] => simp [find_crlf] at h
    | b :: rest =>
      rw [find_crlf] at h
      split at h
      · cases h
        simp
      · rcases Option.map_eq_some'.mp h with ⟨j, hj, rfl⟩
        have := ih j hj
        simp at this ⊢
        omega

/-- `parse_headers`, one loop iteration per fuel unit: consume complete
header lines until the blank line; with no CRLF in the buffer,
over-long buffered bytes are a 431, otherwise the caller must wait for
more bytes.  Each iteration consumes at least two buffered bytes, so
`buffer.length + 1` fuel (used by `parse_headers` below) never runs
out; `parse_headers_eq` restates the function as the C loop.  The
`keep_alive`/`seen_host`/`chunked`/`content_length` reads in the blank
line case happen after `parser_consume`, which only drops buffered
bytes, so they are read off `p` directly. -/
def parse_headers_fuel : Nat → Parser → StepRes × Parser
  | 0, p => (.incomplete, p)
  | f + 1, p =>
    match find_crlf p.buffer with
    | none =>
      if p.buffer.length > MAX_HEADER_BYTES then
        (.error, setError p 431 ("Request Header Fields Too Large"))
      else (.incomplete, p)
    | some ci =>
      if ci = 0 then
        if p.keep_alive ∧ p.seen_host = false then
          (.error, setError (parser_consume p 2) 400 ("Missing Host header"))
        else if p.chunked then (.progress, { parser_consume p 2 with state := .CHUNK_SIZE })
        else if p.content_length > 0 then (.progress, { parser_consume p 2 with state := .BODY })
        else (.progress, { parser_consume p 2 with state := .COMPLETE })
      else
        if ci > MAX_HEADER_LINE_LEN then (.error, setError p 431 ("Header line too long"))
        else if p.header_count ≥ MAX_HEADER_COUNT then
          (.error, setError p 431 ("Too many headers"))
        else if (parse_header_line p (p.buffer.take ci)).state = .ERROR then
          (.error, parse_header_line p (p.buffer.take ci))
        else
          parse_headers_fuel f (parser_consume
            { parse_header_line p (p.buffer.take ci) with
                header_count := (parse_header_line p (p.buffer.take ci)).header_count + 1 }
            (ci + 2))

/-- `parse_headers` with always-sufficient fuel. -/
def parse_headers (p : Parser) : StepRes × Parser :=
  parse_headers_fuel (p.buffer.length + 1) p

theorem parse_headers_fuel_congr (f g : Nat) (p : Parser)
    (hf : p.buffer.length < f) (hg : p.buffer.length < g) :
    parse_headers_fuel f p = parse_headers_fuel g p := by
  induction f generalizing p g with
  | zero => omega
  | succ f ih =>
    obtain ⟨g, rfl⟩ : ∃ gp, g = gp + 1 := ⟨g - 1, by omega⟩
    show parse_headers_fuel (f + 1) p = parse_headers_fuel (g + 1) p
    simp only [parse_headers_fuel]
    split
    · rfl
    · rename_i ci hcr
      have hci := find_crlf_lt _ _ hcr
      split
      · rfl
      · split
        · rfl
        · split
          · rfl
          · split
            · rfl
            · apply ih
              · simp only [parser_consume, List.length_drop, parse_header_line_buffer]
                omega
              · simp only [parser_consume, List.length_drop, parse_header_line_buffer]
                omega

/-- `parse_headers` satisfies the recursion of the C loop. -/
theorem parse_headers_eq (p : Parser) :
    parse_headers p =
      match find_crlf p.buffer with
      | none =>
        if p.buffer.length > MAX_HEADER_BYTES then
          (.error, setError p 431 ("Request Header Fields Too Large"))
        else (.incomplete, p)
      | some ci =>
        if ci = 0 then
          if p.keep_alive ∧ p.seen_host = false then
            (.error, setError (parser_consume p 2) 400 ("Missing Host header"))
          else if p.chunked then (.progress, { parser_consume p 2 with state := .CHUNK_SIZE })
          else if p.content_length > 0 then (.progress, { parser_consume p 2 with state := .BODY })
          else (.progress, { parser_consume p 2 with state := .COMPLETE })
        else
          if ci > MAX_HEADER_LINE_LEN then (.error, setError p 431 ("Header line too long"))
          else if p.header_count ≥ MAX_HEADER_COUNT then
            (.error, setError p 431 ("Too many headers"))
          else if (parse_header_line p (p.buffer.take ci)).state = .ERROR then
            (.error, parse_header_line p (p.buffer.take ci))
          else
            parse_headers (parser_consume
              { parse_header_line p (p.buffer.take ci) with
                  header_count := (parse_header_line p (p.buffer.take ci)).header_count + 1 }
              (ci + 2)) := by
  show parse_headers_fuel (p.buffer.length + 1) p = _
  simp only [parse_headers_fuel]
  split
  · rfl
  · rename_i ci hcr
    have hci := find_crlf_lt _ _ hcr
    split
    · rfl
    · split
      · rfl
      · split
        · rfl
        · split
          · rfl
          · unfold parse_headers
            apply parse_headers_fuel_congr
            · simp only [parser_consume, List.length_drop, parse_header_line_buffer]
              omega
            · simp only [parser_consume, List.length_drop, parse_header_line_buffer]
              omega

/-- `append_body_data`: cap check then append; also keeps
`req->body_length` in step with `body_received`. -/
def append_body_data (p : Parser) (data : List Byte) : Parser :=
  if p.body_received + data.length > MAX_BODY_BYTES then
    setError p 413 ("Payload Too Large")
  else
    { p with
        req := { p.req with
          body := p.req.body ++ data
          body_length := p.body_received + data.length }
        body_received := p.body_received + data.length }

/-- `parse_chunk_size`: hex size line terminated by CRLF; chunk
extensions after the digits are ignored because only `endptr == line`
is tested. -/
def parse_chunk_size (p : Parser) : StepRes × Parser :=
  match find_crlf p.buffer with
  | none => (.incomplete, p)
  | some ci =>
    match strtoul16 (truncNul (p.buffer.take ci)) with
    | none => (.error, setError p 400 ("Invalid chunk size"))
    | some sz =>
      if sz = 0 then
        (.progress, { parser_consume p (ci + 2) with
                        current_chunk_size := sz
                        current_chunk_received := 0
                        state := .CHUNK_TRAILERS })
      else
        (.progress, { parser_consume p (ci + 2) with
                        current_chunk_size := sz
                        current_chunk_received := 0
                        state := .CHUNK_DATA })

/-- `to_copy` of `parse_chunk_data`: what fits in the buffer, bounded
by the bytes the current chunk still owes. -/
def chunk_to_copy (p : Parser) : Nat :=
  min p.buffer.length (p.current_chunk_size - p.current_chunk_received)

/-- Consuming one `to_copy`-sized slice in `parse_chunk_data`: append
to the body, drop from the buffer, advance the chunk counter. -/
def chunkConsumed (p : Parser) : Parser :=
  { parser_consume (append_body_data p (p.buffer.take (chunk_to_copy p))) (chunk_to_copy p) with
      current_chunk_received := p.current_chunk_received + chunk_to_copy p }

/-- `parse_chunk_data`. -/
def parse_chunk_data (p : Parser) : StepRes × Parser :=
  if p.current_chunk_size - p.current_chunk_received = 0 then
    (.progress, { p with state := .CHUNK_CRLF })
  else if chunk_to_copy p = 0 then (.incomplete, p)
  else if (append_body_data p (p.buffer.take (chunk_to_copy p))).state = .ERROR then
    (.error, append_body_data p (p.buffer.take (chunk_to_copy p)))
  else if (chunkConsumed p).current_chunk_received = (chunkConsumed p).current_chunk_size then
    (.progress, { chunkConsumed p with state := .CHUNK_CRLF })
  else (.progress, chunkConsumed p)

/-- `parse_chunk_crlf`. -/
def parse_chunk_crlf (p : Parser) : StepRes × Parser :=
  if p.buffer.length < 2 then (.incomplete, p)
  else if p.buffer.take 2 = [13, 10] then
    (.progress, { parser_consume p 2 with state := .CHUNK_SIZE })
  else (.error, setError p 400 ("Malformed chunk data"))

/-- `parse_chunk_trailers`: discard trailer lines until the blank line. -/
def parse_chunk_trailers (p : Parser) : StepRes × Parser :=
  match find_crlf p.buffer with
  | none => (.incomplete, p)
  | some 0 =>
    (.progress, { parser_consume p 2 with
                    state := .COMPLETE
                    req := { p.req with body_length := p.body_received } })
  | some ci => (.progress, parser_consume p (ci + 2))

/-- `to_copy` of the `PARSE_STATE_BODY` case. -/
def body_to_copy (p : Parser) : Nat :=
  min p.buffer.length (p.content_length - p.body_received)

/-- Consuming one `to_copy`-sized slice of a fixed-length body. -/
def bodyConsumed (p : Parser) : Parser :=
  parser_consume (append_body_data p (p.buffer.take (body_to_copy p))) (body_to_copy p)

/-- The `PARSE_STATE_BODY` case of `http_parser_execute`'s loop. -/
def parse_body_step (p : Parser) : StepRes × Parser :=
  if body_to_copy p = 0 then (.incomplete, p)
  else if (append_body_data p (p.buffer.take (body_to_copy p))).state = .ERROR then
    (.error, append_body_data p (p.buffer.take (body_to_copy p)))
  else if (bodyConsumed p).body_received = (bodyConsumed p).content_length then
    (.progress, { bodyConsumed p with
                    state := .COMPLETE
                    req := { (bodyConsumed p).req with
                               body_length := (bodyConsumed p).body_received } })
  else (.progress, bodyConsumed p)

/-- One iteration of the `while` loop in `http_parser_execute`
(dispatch on the current state).  `COMPLETE` and `ERROR` never reach
the switch; mapping them to `incomplete` keeps the function total. -/
def step_once (p : Parser) : StepRes × Parser :=
  match p.state with
  | .REQUEST_LINE => parse_request_line p
  | .HEADERS => parse_headers p
  | .BODY => parse_body_step p
  | .CHUNK_SIZE => parse_chunk_size p
  | .CHUNK_DATA => parse_chunk_data p
  | .CHUNK_CRLF => parse_chunk_crlf p
  | .CHUNK_TRAILERS => parse_chunk_trailers p
  | .COMPLETE => (.incomplete, p)
  | .ERROR => (.incomplete, p)

/-- Ranking used to show the parse loop terminates: every iteration
either consumes buffered bytes or moves `CHUNK_DATA → CHUNK_CRLF`. -/
def pRank : PState → Nat
  | .CHUNK_DATA => 1
  | _ => 0

def pMeasure (p : Parser) : Nat := 2 * p.buffer.length + pRank p.state

theorem parse_request_line_progress (p p' : Parser)
    (h : parse_request_line p = (.progress, p')) :
    p'.state = .HEADERS ∧ p'.buffer.length + 2 ≤ p.buffer.length := by
  unfold parse_request_line at h
  split at h
  · simp at h
  · rename_i ci hcr
    have hci := find_crlf_lt _ _ hcr
    split at h
    · simp at h
    · split at h <;> simp only [Prod.mk.injEq, reduceCtorEq, false_and] at h
      obtain ⟨-, rfl⟩ := h
      refine ⟨rfl, ?_⟩
      simp only [parser_consume, withReqLine, List.length_drop]
      omega

theorem append_body_data_buffer (p : Parser) (d : List Byte) :
    (append_body_data p d).buffer = p.buffer := by
  unfold append_body_data
  split <;> rfl

theorem parse_headers_progress (p p' : Parser)
    (h : parse_headers p = (.progress, p')) :
    pRank p'.state = 0 ∧ p'.buffer.length + 2 ≤ p.buffer.length := by
  rw [parse_headers_eq] at h
  split at h
  · split at h <;> simp at h
  · rename_i ci hcr
    have hci := find_crlf_lt _ _ hcr
    split at h
    · rename_i hc0
      split at h
      · simp at h
      · split at h
        · obtain ⟨-, rfl⟩ := Prod.mk.inj h
          refine ⟨rfl, ?_⟩
          simp only [parser_consume, List.length_drop]
          omega
        · split at h
          · obtain ⟨-, rfl⟩ := Prod.mk.inj h
            refine ⟨rfl, ?_⟩
            simp only [parser_consume, List.length_drop]
            omega
          · obtain ⟨-, rfl⟩ := Prod.mk.inj h
            refine ⟨rfl, ?_⟩
            simp only [parser_consume, List.length_drop]
            omega
    · split at h
      · simp at h
      · split at h
        · simp at h
        · split at h
          · simp at h
          · have := parse_headers_progress _ _ h
            simp only [parser_consume, List.length_drop, parse_header_line_buffer] at this
            exact ⟨this.1, by omega⟩
termination_by p.buffer.length
decreasing_by
  simp only [parser_consume, List.length_drop, parse_header_line_buffer]
  omega

theorem parse_chunk_size_progress (p p' : Parser)
    (h : parse_chunk_size p = (.progress, p')) :
    (p'.state = .CHUNK_TRAILERS ∨ p'.state = .CHUNK_DATA) ∧
      p'.buffer.length + 2 ≤ p.buffer.length := by
  unfold parse_chunk_size at h
  split at h
  · simp at h
  · rename_i ci hcr
    have hci := find_crlf_lt _ _ hcr
    split at h
    · simp at h
    · split at h
      · obtain ⟨-, rfl⟩ := Prod.mk.inj h
        exact ⟨Or.inl rfl, by simp only [parser_consume, List.length_drop]; omega⟩
      · obtain ⟨-, rfl⟩ := Prod.mk.inj h
        exact ⟨Or.inr rfl, by simp only [parser_consume, List.length_drop]; omega⟩

theorem parse_chunk_data_progress (p p' : Parser)
    (h : parse_chunk_data p = (.progress, p')) :
    (p'.buffer = p.buffer ∧ p'.state = .CHUNK_CRLF) ∨
      (p'.buffer.length + 1 ≤ p.buffer.length ∧
        (p'.state = .CHUNK_CRLF ∨ p'.state = p.state)) := by
  have htcle : chunk_to_copy p ≤ p.buffer.length := Nat.min_le_left _ _
  unfold parse_chunk_data at h
  split at h
  · obtain ⟨-, rfl⟩ := Prod.mk.inj h
    exact Or.inl ⟨rfl, rfl⟩
  · split at h
    · simp at h
    · rename_i hrem htc
      split at h
      · simp at h
      · rename_i hok
        split at h
        · obtain ⟨-, rfl⟩ := Prod.mk.inj h
          refine Or.inr ⟨?_, Or.inl rfl⟩
          simp only [chunkConsumed, parser_consume, List.length_drop, append_body_data_buffer]
          omega
        · obtain ⟨-, rfl⟩ := Prod.mk.inj h
          refine Or.inr ⟨?_, Or.inr ?_⟩
          · simp only [chunkConsumed, parser_consume, List.length_drop, append_body_data_buffer]
            omega
          · show (append_body_data p _).state = p.state
            unfold append_body_data at hok ⊢
            split at hok
            · simp [setError] at hok
            · rename_i hle
              rw [if_neg hle]

theorem parse_chunk_crlf_progress (p p' : Parser)
    (h : parse_chunk_crlf p = (.progress, p')) :
    p'.state = .CHUNK_SIZE ∧ p'.buffer.length + 2 ≤ p.buffer.length := by
  unfold parse_chunk_crlf at h
  split at h
  · simp at h
  · rename_i hlen
    split at h
    · obtain ⟨-, rfl⟩ := Prod.mk.inj h
      refine ⟨rfl, ?_⟩
      simp only [parser_consume, List.length_drop]
      omega
    · simp at h

theorem parse_chunk_trailers_progress (p p' : Parser)
    (h : parse_chunk_trailers p = (.progress, p')) :
    (p'.state = .COMPLETE ∨ p'.state = p.state) ∧
      p'.buffer.length + 2 ≤ p.buffer.length := by
  unfold parse_chunk_trailers at h
  split at h
  · simp at h
  · rename_i hcr
    have hci := find_crlf_lt _ _ hcr
    obtain ⟨-, rfl⟩ := Prod.mk.inj h
    refine ⟨Or.inl rfl, ?_⟩
    simp only [parser_consume, List.length_drop]
    omega
  · rename_i ci hcr
    have hci := find_crlf_lt _ _ hcr
    obtain ⟨-, rfl⟩ := Prod.mk.inj h
    refine ⟨Or.inr rfl, ?_⟩
    simp only [parser_consume, List.length_drop]
    omega

theorem parse_body_step_progress (p p' : Parser)
    (h : parse_body_step p = (.progress, p')) :
    (p'.state = .COMPLETE ∨ p'.state = p.state) ∧
      p'.buffer.length + 1 ≤ p.buffer.length := by
  have htcle : body_to_copy p ≤ p.buffer.length := Nat.min_le_left _ _
  unfold parse_body_step at h
  split at h
  · simp at h
  · rename_i htc
    split at h
    · simp at h
    · rename_i hok
      split at h
      · obtain ⟨-, rfl⟩ := Prod.mk.inj h
        refine ⟨Or.inl rfl, ?_⟩
        simp only [bodyConsumed, parser_consume, List.length_drop, append_body_data_buffer]
        omega
      · obtain ⟨-, rfl⟩ := Prod.mk.inj h
        refine ⟨Or.inr ?_, ?_⟩
        · show (append_body_data p _).state = p.state
          unfold append_body_data at hok ⊢
          split at hok
          · simp [setError] at hok
          · rename_i hle
            rw [if_neg hle]
        · simp only [bodyConsumed, parser_consume, List.length_drop, append_body_data_buffer]
          omega

theorem step_once_progress_measure (p p' : Parser)
    (h : step_once p = (.progress, p')) : pMeasure p' < pMeasure p := by
  unfold step_once at h
  unfold pMeasure
  split at h <;> rename_i hst <;> rw [hst]
  · obtain ⟨h1, h2⟩ := parse_request_line_progress _ _ h
    rw [h1, show pRank PState.HEADERS = 0 from rfl,
        show pRank PState.REQUEST_LINE = 0 from rfl]
    omega
  · obtain ⟨h1, h2⟩ := parse_headers_progress _ _ h
    rw [h1, show pRank PState.HEADERS = 0 from rfl]
    omega
  · obtain ⟨h1, h2⟩ := parse_body_step_progress _ _ h
    rcases h1 with h1 | h1 <;>
      rw [h1, show pRank PState.BODY = 0 from rfl] <;>
      first
        | (rw [show pRank PState.COMPLETE = 0 from rfl]; omega)
        | (rw [hst, show pRank PState.BODY = 0 from rfl]; omega)
  · obtain ⟨h1, h2⟩ := parse_chunk_size_progress _ _ h
    rw [show pRank PState.CHUNK_SIZE = 0 from rfl]
    rcases h1 with h1 | h1 <;> rw [h1] <;>
      simp only [show pRank PState.CHUNK_TRAILERS = 0 from rfl,
        show pRank PState.CHUNK_DATA = 1 from rfl] <;> omega
  · rw [show pRank PState.CHUNK_DATA = 1 from rfl]
    rcases parse_chunk_data_progress _ _ h with ⟨h1, h2⟩ | ⟨h1, h2⟩
    · rw [h1, h2, show pRank PState.CHUNK_CRLF = 0 from rfl]
      omega
    · rcases h2 with h2 | h2 <;> rw [h2]
      · rw [show pRank PState.CHUNK_CRLF = 0 from rfl]
        omega
      · rw [hst, show pRank PState.CHUNK_DATA = 1 from rfl]
        omega
  · obtain ⟨h1, h2⟩ := parse_chunk_crlf_progress _ _ h
    rw [h1, show pRank PState.CHUNK_SIZE = 0 from rfl,
        show pRank PState.CHUNK_CRLF = 0 from rfl]
    omega
  · obtain ⟨h1, h2⟩ := parse_chunk_trailers_progress _ _ h
    rw [show pRank PState.CHUNK_TRAILERS = 0 from rfl]
    rcases h1 with h1 | h1 <;> rw [h1]
    · rw [show pRank PState.COMPLETE = 0 from rfl]
      omega
    · rw [hst, show pRank PState.CHUNK_TRAILERS = 0 from rfl]
      omega
  · simp at h
  · simp at h

/-- The `while` loop of `http_parser_execute`, one iteration per fuel
unit: run `step_once` until it reports `incomplete` (wait for more
bytes) or the state becomes terminal (`COMPLETE`/`ERROR`).  Every
`progress` iteration strictly decreases `pMeasure`
(`step_once_progress_measure`), so the `pMeasure p + 1` fuel used by
`exec_loop` never runs out; `exec_loop_eq` restates the function as
the C loop. -/
def exec_loop_fuel : Nat → Parser → Parser
  | 0, p => p
  | f + 1, p =>
    if p.state = .ERROR ∨ p.state = .COMPLETE then p
    else
      match step_once p with
      | (.progress, p') => exec_loop_fuel f p'
      | (.incomplete, p') => p'
      | (.error, p') => p'

/-- The parse loop with always-sufficient fuel. -/
def exec_loop (p : Parser) : Parser := exec_loop_fuel (pMeasure p + 1) p

theorem exec_loop_fuel_congr (f g : Nat) (p : Parser)
    (hf : pMeasure p < f) (hg : pMeasure p < g) :
    exec_loop_fuel f p = exec_loop_fuel g p := by
  induction f generalizing p g with
  | zero => omega
  | succ f ih =>
    obtain ⟨g, rfl⟩ : ∃ gp, g = gp + 1 := ⟨g - 1, by omega⟩
    show exec_loop_fuel (f + 1) p = exec_loop_fuel (g + 1) p
    simp only [exec_loop_fuel]
    split
    · rfl
    · split
      · rename_i p' hstep
        have := step_once_progress_measure _ _ hstep
        exact ih _ _ (by omega) (by omega)
      · rfl
      · rfl

/-- `exec_loop` satisfies the recursion of the C loop. -/
theorem exec_loop_eq (p : Parser) :
    exec_loop p =
      if p.state = .ERROR ∨ p.state = .COMPLETE then p
      else
        match step_once p with
        | (.progress, p') => exec_loop p'
        | (.incomplete, p') => p'
        | (.error, p') => p' := by
  show exec_loop_fuel (pMeasure p + 1) p = _
  simp only [exec_loop_fuel]
  split
  · rfl
  · split
    · rename_i p' hstep
      have := step_once_progress_measure _ _ hstep
      unfold exec_loop
      exact exec_loop_fuel_congr _ _ _ (by omega) (by omega)
    · rfl
    · rfl

theorem exec_loop_terminal (p : Parser) (h : p.state = .ERROR ∨ p.state = .COMPLETE) :
    exec_loop p = p := by
  rw [exec_loop_eq, if_pos h]

theorem exec_loop_progress (p p' : Parser)
    (hterm : ¬(p.state = .ERROR ∨ p.state = .COMPLETE))
    (h : step_once p = (.progress, p')) : exec_loop p = exec_loop p' := by
  rw [exec_loop_eq, if_neg hterm, h]

theorem exec_loop_stall (p p' : Parser)
    (hterm : ¬(p.state = .ERROR ∨ p.state = .COMPLETE))
    (h : step_once p = (.incomplete, p')) : exec_loop p = p' := by
  rw [exec_loop_eq, if_neg hterm, h]

theorem exec_loop_err (p p' : Parser)
    (hterm : ¬(p.state = .ERROR ∨ p.state = .COMPLETE))
    (h : step_once p = (.error, p')) : exec_loop p = p' := by
  rw [exec_loop_eq, if_neg hterm, h]

/-- Append freshly received bytes to the parser buffer (the `memcpy`
after a successful `ensure_buffer_capacity`). -/
def bufApp (p : Parser) (data : List Byte) : Parser :=
  { p with buffer := p.buffer ++ data, total_bytes := p.total_bytes + data.length }

/-- `http_parser_execute(parser, data, len)`: a latched error returns
immediately; new bytes are appended subject to the
`MAX_REQUEST_BUFFER` cap (over it: 413); then the state machine runs
over the buffered bytes.  The returned `parser_result_t` is determined
by the final state (`ERROR` / `COMPLETE` / otherwise incomplete). -/
def http_parser_execute (p : Parser) (data : List Byte) : Parser :=
  if p.state = .ERROR then p
  else if data.length > 0 then
    if p.buffer.length + data.length > MAX_REQUEST_BUFFER then
      setError p 413 ("Payload Too Large")
    else exec_loop (bufApp p data)
  else exec_loop p

/-- Feeding a byte sequence one byte per `http_parser_execute` call. -/
def feed_bytes (p : Parser) (data : List Byte) : Parser :=
  data.foldl (fun q b => http_parser_execute q [b]) p

/-!  The event-loop timer facility of `src/src/event_loop.c`.  Time is
one absolute `Nat` (collapsing `struct timeval`; the C expiry test
`now.sec > e.sec || (now.sec == e.sec && now.usec >= e.usec)` becomes
`e ≤ now`).  `event_loop_add_timeout` stores `now + ms` as the expiry;
the model takes the absolute expiry directly.  A callback (function
pointer plus `user_data`) is identified by a `Nat` token; "the
callback was invoked" becomes "its token appears in the fired list".
The fd handler machinery and the backend waits do not affect the timer
bookkeeping and are not modelled. -/

/-- `event_timer_t`. -/
structure EventTimer where
  id : Nat
  expiry : Nat
  cb : Nat
  active : Bool
deriving DecidableEq, Repr

/-- The timer-related fields of `struct event_loop` (`timers`,
`timer_count`, `next_timer_id`). -/
structure EventLoop where
  next_timer_id : Nat
  timers : List EventTimer
deriving DecidableEq, Repr

/-- `event_loop_create`: `next_timer_id = 1`, no timers. -/
def event_loop_create : EventLoop := { next_timer_id := 1, timers := [] }

/-- `event_loop_add_timeout`: fails at `MAX_TIMERS`; otherwise appends
a timer carrying the next id and increments the id counter. -/
def event_loop_add_timeout (loop : EventLoop) (expiry cb : Nat) :
    Option (Nat × EventLoop) :=
  if loop.timers.length ≥ MAX_TIMERS then none
  else some (loop.next_timer_id,
    { next_timer_id := loop.next_timer_id + 1
      timers := loop.timers ++ [{ id := loop.next_timer_id, expiry := expiry,
                                  cb := cb, active := true }] })

/-- The compaction both `event_loop_cancel_timeout` and
`process_timers` use: `timers[i] = timers[count-1]` (when `i` is not
the last slot) then `count--`. -/
def removeAt (ts : List EventTimer) (i : Nat) : List EventTimer :=
  if i + 1 < ts.length then (ts.set i (ts.getLastD ⟨0, 0, 0, false⟩)).dropLast
  else ts.dropLast

theorem removeAt_length (ts : List EventTimer) (i : Nat) :
    (removeAt ts i).length = ts.length - 1 := by
  unfold removeAt
  split <;> simp

/-- The scan of `event_loop_cancel_timeout`: index of the first active
timer with this id. -/
def findTimerIdx : List EventTimer → Nat → Option Nat
  | [], _ => none
  | t :: r, tid =>
    if t.id = tid ∧ t.active then some 0 else (findTimerIdx r tid).map (fun i => i + 1)

/-- `event_loop_cancel_timeout`: deactivate and compact out the first
active timer with the id, or fail with `-1` (`none`). -/
def event_loop_cancel_timeout (loop : EventLoop) (tid : Nat) : Option EventLoop :=
  match findTimerIdx loop.timers tid with
  | none => none
  | some i => some { loop with timers := removeAt loop.timers i }

/-- The scan loop of `process_timers`, one iteration per fuel unit:
fire every active expired timer, compact it out by swapping the last
timer into its slot, and re-check that slot (`i--` in the source);
otherwise advance.  Each iteration decreases `ts.length - i`, so the
`ts.length + 1` fuel used by `process_timers_go` never runs out;
`process_timers_go_eq` restates the function as the C loop.  Returns
the fired `(id, cb)` pairs in firing order and the remaining array. -/
def process_timers_go_fuel (now : Nat) :
    Nat → List EventTimer → Nat → List (Nat × Nat) → List (Nat × Nat) × List EventTimer
  | 0, ts, _, fired => (fired, ts)
  | f + 1, ts, i, fired =>
    if h : i < ts.length then
      if (ts.get ⟨i, h⟩).active ∧ (ts.get ⟨i, h⟩).expiry ≤ now then
        process_timers_go_fuel now f (removeAt ts i) i
          (fired ++ [((ts.get ⟨i, h⟩).id, (ts.get ⟨i, h⟩).cb)])
      else process_timers_go_fuel now f ts (i + 1) fired
    else (fired, ts)

/-- The scan loop with always-sufficient fuel. -/
def process_timers_go (now : Nat) (ts : List EventTimer) (i : Nat)
    (fired : List (Nat × Nat)) : List (Nat × Nat) × List EventTimer :=
  process_timers_go_fuel now (ts.length + 1) ts i fired

theorem process_timers_go_fuel_congr (now : Nat) (f g : Nat) (ts : List EventTimer)
    (i : Nat) (fired : List (Nat × Nat))
    (hf : ts.length - i < f) (hg : ts.length - i < g) :
    process_timers_go_fuel now f ts i fired = process_timers_go_fuel now g ts i fired := by
  induction f generalizing g ts i fired with
  | zero => omega
  | succ f ih =>
    obtain ⟨g, rfl⟩ : ∃ gp, g = gp + 1 := ⟨g - 1, by omega⟩
    show process_timers_go_fuel now (f + 1) ts i fired = _
    simp only [process_timers_go_fuel]
    split
    · rename_i h
      split
      · apply ih
        · rw [removeAt_length]
          omega
        · rw [removeAt_length]
          omega
      · apply ih <;> omega
    · rfl

/-- `process_timers_go` satisfies the recursion of the C loop. -/
theorem process_timers_go_eq (now : Nat) (ts : List EventTimer) (i : Nat)
    (fired : List (Nat × Nat)) :
    process_timers_go now ts i fired =
      if h : i < ts.length then
        if (ts.get ⟨i, h⟩).active ∧ (ts.get ⟨i, h⟩).expiry ≤ now then
          process_timers_go now (removeAt ts i) i
            (fired ++ [((ts.get ⟨i, h⟩).id, (ts.get ⟨i, h⟩).cb)])
        else process_timers_go now ts (i + 1) fired
      else (fired, ts) := by
  show process_timers_go_fuel now (ts.length + 1) ts i fired = _
  simp only [process_timers_go_fuel]
  split
  · rename_i h
    split
    · unfold process_timers_go
      apply process_timers_go_fuel_congr <;> rw [removeAt_length] <;> omega
    · unfold process_timers_go
      apply process_timers_go_fuel_congr <;> omega
  · rfl

/-- `process_timers`. -/
def process_timers (loop : EventLoop) (now : Nat) :
    List (Nat × Nat) × EventLoop :=
  ((process_timers_go now loop.timers 0 []).1,
   { loop with timers := (process_timers_go now loop.timers 0 []).2 })

/-- One timer-facility call on the loop. -/
inductive LoopOp where
  | addTimeout (expiry cb : Nat)
  | cancelTimeout (tid : Nat)
  | runTimers (now : Nat)
deriving DecidableEq, Repr

/-- Run one operation: the new loop, the id a successful add returned,
and the `(id, cb)` pairs fired. -/
def run_op (loop : EventLoop) : LoopOp → EventLoop × Option Nat × List (Nat × Nat)
  | .addTimeout e c =>
    match event_loop_add_timeout loop e c with
    | none => (loop, none, [])
    | some r => (r.2, some r.1, [])
  | .cancelTimeout tid =>
    match event_loop_cancel_timeout loop tid with
    | none => (loop, none, [])
    | some l2 => (l2, none, [])
  | .runTimers now => ((process_timers loop now).2, none, (process_timers loop now).1)

/-- Run a call sequence: final loop, ids returned by successful adds
in call order, and all fired `(id, cb)` pairs in firing order. -/
def run_ops : EventLoop → List LoopOp → EventLoop × List Nat × List (Nat × Nat)
  | loop, [] => (loop, [], [])
  | loop, op :: rest =>
    ((run_ops (run_op loop op).1 rest).1,
     (run_op loop op).2.1.toList ++ (run_ops (run_op loop op).1 rest).2.1,
     (run_op loop op).2.2 ++ (run_ops (run_op loop op).1 rest).2.2)

/-!  The response serializer (`serialize_response`, `send_response`,
`status_reason_phrase`).  `gmtime_r`/`strftime` are modelled by taking
the formatted `Date` value as a parameter (the source skips the header
only when `gmtime_r` fails, which does not happen for valid clock
values).  `snprintf("%zu"/"%d")` of non-negative integers is
`natToDecimal`. -/

/-- `http_response_t` (the fields the writer reads).  `body` is `none`
for a NULL pointer; `body_length` is the separate length field. -/
structure Response where
  status : Nat
  headers : List HeaderEntry
  body : Option (List Byte)
  body_length : Nat
  sent : Bool
deriving DecidableEq, Repr

/-- `http_response_create`: zeroed, then `status = HTTP_OK`. -/
def http_response_create : Response :=
  { status := 200, headers := [], body := none, body_length := 0, sent := false }

/-- `status_reason_phrase`: the fixed table; unknown codes fall back to
`"OK"`. -/
def status_reason_phrase (status : Nat) : String :=
  if status = 200 then "OK"
  else if status = 201 then "Created"
  else if status = 202 then "Accepted"
  else if status = 204 then "No Content"
  else if status = 400 then "Bad Request"
  else if status = 401 then "Unauthorized"
  else if status = 403 then "Forbidden"
  else if status = 404 then "Not Found"
  else if status = 405 then "Method Not Allowed"
  else if status = 500 then "Internal Server Error"
  else if status = 501 then "Not Implemented"
  else if status = 502 then "Bad Gateway"
  else if status = 503 then "Service Unavailable"
  else "OK"

/-- Decimal rendering, one digit per fuel unit (`n + 1` fuel always
suffices since the argument divides by ten each step). -/
def natToDecimalAux : Nat → Nat → List Byte
  | 0, _ => []
  | f + 1, n => if n < 10 then [48 + n] else natToDecimalAux f (n / 10) ++ [48 + n % 10]

def natToDecimal (n : Nat) : List Byte := natToDecimalAux (n + 1) n

def CRLF : List Byte := [13, 10]

/-- `if (res->status == 0) res->status = HTTP_OK`. -/
def effStatus (res : Response) : Nat := if res.status = 0 then 200 else res.status

/-- The three `header_list_add` calls of `serialize_response` (`Date`,
`Content-Length` from `res->body_length`, `Connection` from the
keep-alive flag), each with `replace_existing = true`. -/
def serialized_header_list (res : Response) (keep_alive : Bool)
    (date : List Byte) : List HeaderEntry :=
  header_list_add
    (header_list_add
      (header_list_add res.headers (bytes ("date")) (bytes ("Date")) date true)
      (bytes ("content-length")) (bytes ("Content-Length"))
      (natToDecimal res.body_length) true)
    (bytes ("connection")) (bytes ("Connection"))
    (if keep_alive then bytes ("keep-alive") else bytes ("close")) true

/-- One `"%s: %s\r\n"` line of the serialized header block. -/
def renderHeader (e : HeaderEntry) : List Byte :=
  e.raw ++ bytes (": ") ++ e.value ++ CRLF

def joinHeaders : List HeaderEntry → List Byte
  | [] => []
  | e :: r => renderHeader e ++ joinHeaders r

/-- `"HTTP/1.1 %d %s\r\n"`. -/
def statusLine (status : Nat) : List Byte :=
  bytes ("HTTP/1.1 ") ++ natToDecimal status ++ [32]
    ++ bytes (status_reason_phrase status) ++ CRLF

/-- `serialize_response`: the serialized header block and the response
with its header list (and normalized status) updated. -/
def serialize_response (res : Response) (keep_alive : Bool)
    (date : List Byte) : List Byte × Response :=
  (statusLine (effStatus res) ++ joinHeaders (serialized_header_list res keep_alive date)
     ++ CRLF,
   { res with status := effStatus res
              headers := serialized_header_list res keep_alive date })

/-- The body bytes `send_response` pushes after the header block:
nothing for a NULL body or a zero `body_length`, else exactly
`body_length` bytes of the body buffer (reading past a shorter buffer
would be C undefined behaviour; the model reads what is there). -/
def emitted_body (res : Response) : List Byte :=
  match res.body with
  | none => []
  | some b => if res.body_length > 0 then b.take res.body_length else []

/-- `send_response`: an already-sent response is not re-emitted;
otherwise the bytes on the wire are the serialized header block
followed by the body, and the `sent` latch is set. -/
def send_response (res : Response) (keep_alive : Bool) (date : List Byte) :
    List Byte × Response :=
  if res.sent then ([], res)
  else ((serialize_response res keep_alive date).1 ++ emitted_body res,
        { (serialize_response res keep_alive date).2 with sent := true })

/-! ## Claim theorems -/

set_option maxRecDepth 40000

/-- C6: once the parser is in the `ERROR` state, every further
`http_parser_execute` call — with any byte sequence, empty included —
returns the parser completely unchanged: the same latched
`(error_status, error_message)` pair is reported, no bytes are
appended or consumed, and every field is as before. -/
theorem c6_error_latch (p : Parser) (data : List Byte) (h : p.state = .ERROR) :
    http_parser_execute p data = p := by
  unfold http_parser_execute
  rw [if_pos h]

/-- Witness for `c6_error_latch` at a concrete errored parser and a
concrete non-empty byte sequence. -/
theorem c6_error_latch_witness :
    (setError http_parser_init 414 ("Request-URI Too Long")).state = PState.ERROR ∧
      http_parser_execute (setError http_parser_init 414 ("Request-URI Too Long"))
          (bytes ("GET / HTTP/1.1")) =
        setError http_parser_init 414 ("Request-URI Too Long") :=
  ⟨rfl, c6_error_latch _ _ rfl⟩

/-- C1 counterexample: a request carrying both `Content-Length: 5` and
`Transfer-Encoding: chunked` is not rejected with 400 — it parses in
chunked mode and reaches `COMPLETE`, so the claimed mutual-exclusion
rejection does not exist in the code. -/
theorem c1_counterexample :
    (http_parser_execute http_parser_init
      (bytes ("POST / HTTP/1.1\r\nHost: x\r\nContent-Length: 5\r\nTransfer-Encoding: chunked\r\n\r\n0\r\n\r\n"))).state
      = PState.COMPLETE := by decide

/-- C1 amended: the parser never rejects the Content-Length /
Transfer-Encoding combination.  (1) A `Transfer-Encoding: chunked`
header line switches the parser into chunked mode and resets
`content_length` to 0 without touching the state (no error), whatever
`content_length` a previous `Content-Length` header had set; (2) at
the blank line ending the headers, chunked mode takes precedence: the
parser moves to `CHUNK_SIZE` irrespective of `content_length`. -/
theorem c1_amended :
    (∀ p : Parser,
      (parse_header_line p (bytes ("Transfer-Encoding: chunked"))).chunked = true ∧
      (parse_header_line p (bytes ("Transfer-Encoding: chunked"))).content_length = 0 ∧
      (parse_header_line p (bytes ("Transfer-Encoding: chunked"))).state = p.state) ∧
    (∀ (p : Parser) (rest : List Byte), p.chunked = true →
      ¬(p.keep_alive = true ∧ p.seen_host = false) →
      p.buffer = 13 :: 10 :: rest →
      parse_headers p = (.progress, { parser_consume p 2 with state := .CHUNK_SIZE })) := by
  constructor
  · intro p
    have hana : header_line_analyze (bytes ("Transfer-Encoding: chunked"))
        = HLineOut.entry (bytes ("Transfer-Encoding")) (bytes ("chunked")) := by decide
    unfold parse_header_line
    rw [hana]
    dsimp only
    rw [if_neg (by decide), if_pos (by decide), if_pos (by decide)]
    exact ⟨rfl, rfl, rfl⟩
  · intro p rest hch hka hbuf
    rw [parse_headers_eq, hbuf]
    rw [show find_crlf (13 :: 10 :: rest) = some 0 from rfl]
    dsimp only
    rw [if_pos rfl, if_neg hka, if_pos hch]

/-- Witness for `c1_amended` at a concrete chunked parser sitting on a
blank line. -/
theorem c1_amended_witness :
    parse_headers
        { http_parser_init with
            state := PState.HEADERS
            chunked := true
            buffer := [13, 10] }
      = (.progress,
         { parser_consume
             { http_parser_init with
                 state := PState.HEADERS
                 chunked := true
                 buffer := [13, 10] } 2 with state := PState.CHUNK_SIZE }) :=
  c1_amended.2 _ [] rfl (by decide) rfl

/-- C2 counterexample: the missing-Host 400 is keyed to the effective
keep-alive flag, not the protocol version.  An HTTP/1.1 request with
`Connection: close` and no `Host` parses to `COMPLETE` (the claim says
it must fail with 400 regardless of any Connection header), and an
HTTP/1.0 request with `Connection: keep-alive` and no `Host` fails
with 400 (the claim says HTTP/1.0 is never rejected for missing
Host). -/
theorem c2_counterexample :
    (http_parser_execute http_parser_init
      (bytes ("GET / HTTP/1.1\r\nConnection: close\r\n\r\n"))).state = PState.COMPLETE ∧
    (http_parser_execute http_parser_init
      (bytes ("GET / HTTP/1.0\r\nConnection: keep-alive\r\n\r\n"))).state = PState.ERROR ∧
    (http_parser_execute http_parser_init
      (bytes ("GET / HTTP/1.0\r\nConnection: keep-alive\r\n\r\n"))).error_status = 400 ∧
    (http_parser_execute http_parser_init
      (bytes ("GET / HTTP/1.0\r\nConnection: keep-alive\r\n\r\n"))).error_message
      = "Missing Host header" := by
  refine ⟨by decide, by decide, by decide, by decide⟩

/-- C2 amended: at the blank line ending the header block the request
is rejected 400 "Missing Host header" exactly when the parser's
effective keep-alive flag is set and no Host header was seen; the flag
defaults from the version (1.1 true, 1.0 false) and is overridden by
`Connection` headers.  Otherwise parsing proceeds (to `CHUNK_SIZE`,
`BODY` or `COMPLETE`) with no Host check. -/
theorem c2_amended (p : Parser) (rest : List Byte)
    (hbuf : p.buffer = 13 :: 10 :: rest) :
    (p.keep_alive = true → p.seen_host = false →
      parse_headers p = (.error, setError (parser_consume p 2) 400 ("Missing Host header"))) ∧
    (¬(p.keep_alive = true ∧ p.seen_host = false) →
      parse_headers p = (.progress, { parser_consume p 2 with state :=
        if p.chunked then PState.CHUNK_SIZE
        else if p.content_length > 0 then PState.BODY
        else PState.COMPLETE })) := by
  constructor
  · intro hka hsh
    rw [parse_headers_eq, hbuf]
    rw [show find_crlf (13 :: 10 :: rest) = some 0 from rfl]
    dsimp only
    rw [if_pos rfl, if_pos (And.intro hka hsh)]
  · intro hka
    rw [parse_headers_eq, hbuf]
    rw [show find_crlf (13 :: 10 :: rest) = some 0 from rfl]
    dsimp only
    rw [if_pos rfl, if_neg hka]
    by_cases hch : p.chunked = true
    · rw [if_pos hch, if_pos hch]
    · rw [if_neg hch, if_neg hch]
      by_cases hcl : p.content_length > 0
      · rw [if_pos hcl, if_pos hcl]
      · rw [if_neg hcl, if_neg hcl]

/-- Witness for `c2_amended`: an HTTP/1.1-style parser (keep-alive
set, no Host seen) at the blank line is rejected 400. -/
theorem c2_amended_witness :
    parse_headers
        { http_parser_init with
            state := PState.HEADERS
            keep_alive := true
            buffer := [13, 10] }
      = (.error,
         setError
           (parser_consume
             { http_parser_init with
                 state := PState.HEADERS
                 keep_alive := true
                 buffer := [13, 10] } 2)
           400 ("Missing Host header")) :=
  (c2_amended _ [] rfl).1 rfl rfl

/-- C8 counterexample: two header lines `X-Test: a` then `x-test: b`
collapse into a single entry with the later value, but the stored
original casing is the *second* occurrence's (`x-test`), not the
first's (`X-Test`): `header_list_add` overwrites `raw_name` on
replacement. -/
theorem c8_counterexample :
    (parse_header_line (parse_header_line http_parser_init (bytes ("X-Test: a")))
        (bytes ("x-test: b"))).req.headers
      = [⟨bytes ("x-test"), bytes ("x-test"), bytes ("b")⟩] ∧
    bytes ("x-test") ≠ bytes ("X-Test") := by
  refine ⟨by decide, by decide⟩

theorem replaceFirst_append_self (hs : List HeaderEntry) (lower r0 v0 raw value : List Byte)
    (hno : ∀ e ∈ hs, e.name ≠ lower) :
    replaceFirst (hs ++ [⟨lower, r0, v0⟩]) lower raw value = hs ++ [⟨lower, raw, value⟩] := by
  induction hs with
  | nil => simp [replaceFirst]
  | cons e rest ih =>
    have hne : e.name ≠ lower := hno e (by simp)
    rw [List.cons_append]
    show (if e.name = lower then _ else
      e :: replaceFirst (rest ++ [⟨lower, r0, v0⟩]) lower raw value) = _
    rw [if_neg hne, ih (fun x hx => hno x (by simp [hx])), List.cons_append]

theorem header_list_any_false (hs : List HeaderEntry) (lower : List Byte)
    (hno : ∀ e ∈ hs, e.name ≠ lower) :
    hs.any (fun e => e.name = lower) = false := by
  induction hs with
  | nil => rfl
  | cons e rest ih =>
    simp only [List.any_cons, Bool.or_eq_false_iff]
    constructor
    · simpa using hno e (by simp)
    · exact ih (fun x hx => hno x (by simp [hx]))

theorem header_list_add_of_not_mem (hs : List HeaderEntry) (n raw v : List Byte)
    (rep : Bool) (hno : ∀ e ∈ hs, e.name ≠ lowercase n) :
    header_list_add hs n raw v rep = hs ++ [⟨lowercase n, raw, v⟩] := by
  unfold header_list_add
  rw [header_list_any_false hs (lowercase n) hno, if_neg (by simp)]

/-- C8 amended: on a duplicate non-`Set-Cookie` header name the later
line's value replaces the earlier *and* the stored original casing is
replaced by the later occurrence's raw name; `Set-Cookie` lines are
appended as separate repeated entries.  (1) two `replace` adds with
the same case-insensitive name collapse to one entry holding the later
raw name and the later value; (2) adds with `replace = false` (the
`Set-Cookie` path) always append; (3) at the parse level, a second
`Set-Cookie` line is kept alongside the first. -/
theorem c8_amended :
    (∀ (hs : List HeaderEntry) (n1 v1 n2 v2 : List Byte),
      lowercase n1 = lowercase n2 →
      (∀ e ∈ hs, e.name ≠ lowercase n1) →
      header_list_add (header_list_add hs n1 n1 v1 true) n2 n2 v2 true
        = hs ++ [⟨lowercase n2, n2, v2⟩]) ∧
    (∀ (hs : List HeaderEntry) (n1 v1 n2 v2 : List Byte),
      header_list_add (header_list_add hs n1 n1 v1 false) n2 n2 v2 false
        = hs ++ [⟨lowercase n1, n1, v1⟩, ⟨lowercase n2, n2, v2⟩]) ∧
    (∀ (p : Parser) (line name value : List Byte),
      header_line_analyze line = .entry name value →
      lowercase name = bytes ("set-cookie") →
      (parse_header_line p line).req.headers
        = p.req.headers ++ [⟨bytes ("set-cookie"), name, value⟩]) := by
  refine ⟨?_, ?_, ?_⟩
  · intro hs n1 v1 n2 v2 hlow hno
    rw [header_list_add_of_not_mem hs n1 n1 v1 true hno]
    unfold header_list_add
    rw [if_pos ⟨rfl, by rw [List.any_append, ← hlow]; simp⟩]
    rw [← hlow, replaceFirst_append_self hs (lowercase n1) n1 v1 n2 v2 hno]
  · intro hs n1 v1 n2 v2
    unfold header_list_add
    simp
  · intro p line name value hana hsc
    unfold parse_header_line
    rw [hana]
    dsimp only
    rw [if_neg (by rw [hsc]; decide), if_neg (by rw [hsc]; decide),
        if_neg (by rw [hsc]; decide), if_neg (by rw [hsc]; decide)]
    show (header_list_add p.req.headers name name value (lowercase name ≠ bytes ("set-cookie"))) = _
    unfold header_list_add
    rw [if_neg (by rw [hsc]; simp), hsc]

/-- Witness for `c8_amended`: duplicate `X-Test`/`x-test` adds into an
empty list produce the single later-cased entry. -/
theorem c8_amended_witness :
    header_list_add (header_list_add [] (bytes ("X-Test")) (bytes ("X-Test")) (bytes ("a")) true)
        (bytes ("x-test")) (bytes ("x-test")) (bytes ("b")) true
      = [⟨lowercase (bytes ("x-test")), bytes ("x-test"), bytes ("b")⟩] :=
  c8_amended.1 [] (bytes ("X-Test")) (bytes ("a")) (bytes ("x-test")) (bytes ("b"))
    (by decide) (by intro e he; cases he)

/-- Classification of one timer-facility call: either no id is
returned and the id counter does not decrease, or the call is a
successful add returning exactly the current `next_timer_id` and
bumping the counter by one. -/
theorem run_op_cases (loop : EventLoop) (op : LoopOp) :
    ((run_op loop op).2.1 = none ∧
      loop.next_timer_id ≤ (run_op loop op).1.next_timer_id) ∨
    ((run_op loop op).2.1 = some loop.next_timer_id ∧
      (run_op loop op).1.next_timer_id = loop.next_timer_id + 1) := by
  cases op with
  | addTimeout e c =>
    unfold run_op
    dsimp only
    rcases hadd : event_loop_add_timeout loop e c with _ | r
    · exact Or.inl ⟨rfl, le_refl _⟩
    · unfold event_loop_add_timeout at hadd
      split at hadd
      · cases hadd
      · injection hadd with h2
        rw [← h2]
        exact Or.inr ⟨rfl, rfl⟩
  | cancelTimeout tid =>
    unfold run_op
    dsimp only
    rcases hc : event_loop_cancel_timeout loop tid with _ | l2
    · exact Or.inl ⟨rfl, le_refl _⟩
    · unfold event_loop_cancel_timeout at hc
      split at hc
      · cases hc
      · injection hc with h2
        rw [← h2]
        exact Or.inl ⟨rfl, le_refl _⟩
  | runTimers now =>
    unfold run_op
    dsimp only
    exact Or.inl ⟨rfl, le_refl _⟩

theorem run_ops_ids_invariant (ops : List LoopOp) : ∀ loop : EventLoop,
    (∀ x ∈ (run_ops loop ops).2.1, loop.next_timer_id ≤ x) ∧
    List.Pairwise (fun a b => a < b) (run_ops loop ops).2.1 := by
  induction ops with
  | nil => intro loop; simp [run_ops]
  | cons op rest ih =>
    intro loop
    obtain ⟨h1, h2⟩ := ih (run_op loop op).1
    rcases run_op_cases loop op with ⟨hn, hle⟩ | ⟨hs, hnext⟩
    · rw [run_ops, hn]
      simp only [Option.toList_none, List.nil_append]
      exact ⟨fun x hx => le_trans hle (h1 x hx), h2⟩
    · rw [run_ops, hs]
      simp only [Option.toList_some, List.singleton_append]
      refine ⟨?_, ?_⟩
      · intro x hx
        rcases List.mem_cons.mp hx with rfl | hx
        · exact le_refl _
        · have := h1 x hx
          omega
      · refine List.Pairwise.cons (fun x hx => ?_) h2
        have := h1 x hx
        omega

/-- C10: starting from `event_loop_create`, over any sequence of
`add_timeout` / `cancel_timeout` / `process_timers` calls, the ids
returned by the successful adds are pairwise strictly increasing in
call order, all at least 1, and never repeated — cancellation and
firing never make an id available again because `next_timer_id` only
grows. -/
theorem c10_timer_ids (ops : List LoopOp) :
    List.Pairwise (fun a b => a < b) (run_ops event_loop_create ops).2.1 ∧
    (∀ x ∈ (run_ops event_loop_create ops).2.1, 1 ≤ x) ∧
    (run_ops event_loop_create ops).2.1.Nodup := by
  obtain ⟨h1, h2⟩ := run_ops_ids_invariant ops event_loop_create
  exact ⟨h2, fun x hx => h1 x hx, h2.imp (fun h => Nat.ne_of_lt h)⟩

theorem getLastD_mem (l : List EventTimer) (d : EventTimer) (h : l ≠ []) :
    l.getLastD d ∈ l := by
  induction l generalizing d with
  | nil => exact absurd rfl h
  | cons a t ih =>
    cases t with
    | nil => simp [List.getLastD]
    | cons b t2 =>
      have := ih (d := d) (by simp)
      simp only [List.getLastD] at this ⊢
      exact List.mem_cons_of_mem _ this

theorem removeAt_mem (ts : List EventTimer) (i : Nat) :
    ∀ x ∈ removeAt ts i, x ∈ ts := by
  intro x hx
  unfold removeAt at hx
  split at hx
  · rename_i hlen
    have hx2 := List.dropLast_sublist _ |>.subset hx
    rcases List.mem_or_eq_of_mem_set hx2 with h | rfl
    · exact h
    · exact getLastD_mem ts _ (by intro hnil; rw [hnil] at hlen; simp at hlen)
  · exact List.dropLast_sublist _ |>.subset hx

theorem process_timers_go_result_mem (now : Nat) (ts : List EventTimer) (i : Nat)
    (fired : List (Nat × Nat)) :
    ∀ t ∈ (process_timers_go now ts i fired).2, t ∈ ts := by
  rw [process_timers_go_eq]
  split
  · split
    · intro t ht
      exact removeAt_mem ts i t (process_timers_go_result_mem now (removeAt ts i) i _ t ht)
    · exact process_timers_go_result_mem now ts (i + 1) fired
  · intro t ht
    exact ht
termination_by ts.length - i
decreasing_by
  all_goals first
    | omega
    | (rw [removeAt_length]; omega)

theorem process_timers_go_fired_mem (now : Nat) (ts : List EventTimer) (i : Nat)
    (fired : List (Nat × Nat)) :
    ∀ pr ∈ (process_timers_go now ts i fired).1,
      pr ∈ fired ∨ pr.1 ∈ ts.map EventTimer.id := by
  rw [process_timers_go_eq]
  split
  · rename_i h
    split
    · intro pr hpr
      rcases process_timers_go_fired_mem now (removeAt ts i) i _ pr hpr with hin | hin
      · rcases List.mem_append.mp hin with hin2 | hin2
        · exact Or.inl hin2
        · obtain rfl := List.mem_singleton.mp hin2
          exact Or.inr (List.mem_map_of_mem _ (ts.get_mem _ _))
      · right
        rcases List.mem_map.mp hin with ⟨t, ht, hid⟩
        exact hid ▸ List.mem_map_of_mem _ (removeAt_mem ts i t ht)
    · exact process_timers_go_fired_mem now ts (i + 1) fired
  · intro pr hpr
    exact Or.inl hpr
termination_by ts.length - i
decreasing_by
  all_goals first
    | omega
    | (rw [removeAt_length]; omega)

theorem findTimerIdx_decomp (ts : List EventTimer) (tid i : Nat)
    (h : findTimerIdx ts tid = some i) :
    ∃ A x B, ts = A ++ x :: B ∧ A.length = i ∧ x.id = tid ∧ x.active = true := by
  induction ts generalizing i with
  | nil => cases h
  | cons t r ih =>
    rw [findTimerIdx] at h
    split at h
    · rename_i hcond
      injection h with h0
      subst h0
      exact ⟨[], t, r, rfl, rfl, hcond.1, hcond.2⟩
    · rcases Option.map_eq_some'.mp h with ⟨j, hj, rfl⟩
      obtain ⟨A, x, B, rfl, hAl, hx1, hx2⟩ := ih j hj
      exact ⟨t :: A, x, B, rfl, by simp [hAl], hx1, hx2⟩

theorem set_append_len (A : List EventTimer) (x : EventTimer) (B : List EventTimer)
    (b : EventTimer) : (A ++ x :: B).set A.length b = A ++ b :: B := by
  induction A with
  | nil => rfl
  | cons a t ih =>
    show a :: ((t ++ x :: B).set t.length b) = a :: (t ++ b :: B)
    rw [ih]

/-- What `event_loop_cancel_timeout` does to the timer array: the id
counter is untouched, no timer other than the cancelled one is
dropped, nothing is added, and (with distinct ids) the cancelled id is
gone. -/
theorem cancel_spec (loop : EventLoop) (tid : Nat) (loop2 : EventLoop)
    (hc : event_loop_cancel_timeout loop tid = some loop2) :
    loop2.next_timer_id = loop.next_timer_id ∧
    (∀ t ∈ loop2.timers, t ∈ loop.timers) ∧
    ∃ x, x ∈ loop.timers ∧ x.id = tid ∧ x.active = true ∧
      ((loop.timers.map EventTimer.id).Nodup → tid ∉ loop2.timers.map EventTimer.id) ∧
      (∀ j ∈ loop.timers.map EventTimer.id, j ≠ tid →
        j ∈ loop2.timers.map EventTimer.id) := by
  unfold event_loop_cancel_timeout at hc
  split at hc
  · cases hc
  · rename_i i hidx
    injection hc with hc2
    obtain ⟨A, x, B, hts, hAl, hxid, hxact⟩ := findTimerIdx_decomp _ _ _ hidx
    have htimers : loop2.timers = removeAt loop.timers i := by rw [← hc2]
    have hnext : loop2.next_timer_id = loop.next_timer_id := by rw [← hc2]
    rcases List.eq_nil_or_concat B with rfl | ⟨B0, b, rfl⟩
    · have hrm : removeAt loop.timers i = A := by
        unfold removeAt
        rw [if_neg (by rw [hts, ← hAl]; simp)]
        rw [hts, List.dropLast_concat]
      refine ⟨hnext, ?_, x, by simp [hts], hxid, hxact, ?_, ?_⟩
      · intro t ht
        rw [htimers, hrm] at ht
        rw [hts]
        exact List.mem_append_left _ ht
      · intro hnd hmem
        rw [htimers, hrm] at hmem
        rw [hts] at hnd
        simp only [List.map_append, List.map_cons] at hnd
        have h2 := List.nodup_middle.mp hnd
        rw [List.nodup_cons] at h2
        apply h2.1
        rw [← hxid] at hmem
        simpa using List.mem_append_left ([] : List Nat) hmem
      · intro j hj hne
        rw [htimers, hrm]
        rw [hts] at hj
        simp only [List.map_append, List.map_cons] at hj
        rcases List.mem_append.mp hj with hj2 | hj2
        · exact hj2
        · rcases List.mem_cons.mp hj2 with rfl | hj3
          · exact absurd hxid hne
          · cases hj3
    · have hts2 : loop.timers = (A ++ x :: B0) ++ [b] := by
        rw [hts]
        simp
      have hrm : removeAt loop.timers i = A ++ b :: B0 := by
        unfold removeAt
        rw [if_pos (by rw [hts, ← hAl]; simp)]
        rw [hts2, List.getLastD_concat]
        rw [show (A ++ x :: B0) ++ [b] = A ++ x :: (B0 ++ [b]) by simp]
        rw [← hAl, set_append_len]
        rw [show A ++ b :: (B0 ++ [b]) = (A ++ b :: B0) ++ [b] by simp]
        exact List.dropLast_concat
      refine ⟨hnext, ?_, x, by simp [hts], hxid, hxact, ?_, ?_⟩
      · intro t ht
        rw [htimers, hrm] at ht
        rw [hts]
        rcases List.mem_append.mp ht with h1 | h2
        · exact List.mem_append_left _ h1
        · rcases List.mem_cons.mp h2 with rfl | h3
          · exact List.mem_append_right _ (by simp)
          · exact List.mem_append_right _ (by simp [h3])
      · intro hnd hmem
        rw [htimers, hrm] at hmem
        rw [hts] at hnd
        simp only [List.map_append, List.map_cons] at hnd hmem
        have h2 := List.nodup_middle.mp hnd
        rw [List.nodup_cons] at h2
        apply h2.1
        rw [← hxid] at hmem
        rcases List.mem_append.mp hmem with h3 | h3
        · exact List.mem_append_left _ h3
        · apply List.mem_append_right
          rcases List.mem_cons.mp h3 with h4 | h4
          · simp [h4]
          · simp [h4]
      · intro j hj hne
        rw [htimers, hrm]
        rw [hts] at hj
        simp only [List.map_append, List.map_cons] at hj ⊢
        rcases List.mem_append.mp hj with h3 | h3
        · exact List.mem_append_left _ h3
        · apply List.mem_append_right
          rcases List.mem_cons.mp h3 with rfl | h4
          · exact absurd hxid hne
          · rw [List.concat_eq_append] at h4
            simp only [List.map_append, List.map_cons, List.map_nil] at h4
            rcases List.mem_append.mp h4 with h5 | h5
            · exact List.mem_cons_of_mem _ h5
            · rcases List.mem_cons.mp h5 with rfl | h6
              · exact List.mem_cons_self _ _
              · simp at h6

theorem run_op_preserves_absent (tid : Nat) (loop : EventLoop) (op : LoopOp)
    (h1 : tid ∉ loop.timers.map EventTimer.id) (h2 : tid < loop.next_timer_id) :
    tid ∉ (run_op loop op).1.timers.map EventTimer.id ∧
    tid < (run_op loop op).1.next_timer_id ∧
    ∀ pr ∈ (run_op loop op).2.2, pr.1 ≠ tid := by
  cases op with
  | addTimeout e c =>
    unfold run_op
    dsimp only
    rcases hadd : event_loop_add_timeout loop e c with _ | r
    · exact ⟨h1, h2, by intro pr hpr; cases hpr⟩
    · unfold event_loop_add_timeout at hadd
      split at hadd
      · cases hadd
      · injection hadd with h3
        rw [← h3]
        refine ⟨?_, by dsimp only; omega, by intro pr hpr; cases hpr⟩
        dsimp only
        rw [List.map_append]
        intro hmem
        rcases List.mem_append.mp hmem with h4 | h4
        · exact h1 h4
        · rw [List.map_cons, List.map_nil, List.mem_singleton] at h4
          dsimp only at h4
          omega
  | cancelTimeout tid2 =>
    unfold run_op
    dsimp only
    rcases hc : event_loop_cancel_timeout loop tid2 with _ | l2
    · exact ⟨h1, h2, by intro pr hpr; cases hpr⟩
    · obtain ⟨hnext, hsub, -⟩ := cancel_spec loop tid2 l2 hc
      refine ⟨?_, by rw [hnext]; exact h2, by intro pr hpr; cases hpr⟩
      intro hmem
      rcases List.mem_map.mp hmem with ⟨t, ht, hid⟩
      exact h1 (hid ▸ List.mem_map_of_mem _ (hsub t ht))
  | runTimers now =>
    unfold run_op
    dsimp only
    unfold process_timers
    dsimp only
    refine ⟨?_, h2, ?_⟩
    · intro hmem
      rcases List.mem_map.mp hmem with ⟨t, ht, hid⟩
      exact h1 (hid ▸ List.mem_map_of_mem _
        (process_timers_go_result_mem now loop.timers 0 [] t ht))
    · intro pr hpr
      rcases process_timers_go_fired_mem now loop.timers 0 [] pr hpr with hin | hin
      · cases hin
      · intro hpr2
        exact h1 (hpr2 ▸ hin)

theorem absent_never_fired (tid : Nat) (loop : EventLoop) (ops : List LoopOp)
    (h1 : tid ∉ loop.timers.map EventTimer.id) (h2 : tid < loop.next_timer_id) :
    ∀ pr ∈ (run_ops loop ops).2.2, pr.1 ≠ tid := by
  induction ops generalizing loop with
  | nil => intro pr hpr; cases hpr
  | cons op rest ih =>
    obtain ⟨g1, g2, g3⟩ := run_op_preserves_absent tid loop op h1 h2
    intro pr hpr
    rw [run_ops] at hpr
    rcases List.mem_append.mp hpr with hin | hin
    · exact g3 pr hin
    · exact ih (run_op loop op).1 g1 g2 pr hin

/-- C9, counterexample to the original claim: cancellation DOES reorder
the firing of other registered timers.  Four timers with the same
expiry fire in the order 1, 4, 3, 2 (the swap-with-last compaction of
`process_timers` reverses the tail after each firing); cancelling
timer 2 first moves timer 4 into slot 1, so the remaining timers fire
in the order 1, 3, 4 — the relative firing order of timers 3 and 4 is
flipped by the cancellation. -/
theorem c9_counterexample :
    (run_ops event_loop_create
      [.addTimeout 10 101, .addTimeout 10 102, .addTimeout 10 103,
       .addTimeout 10 104, .runTimers 10]).2.2 =
      [(1, 101), (4, 104), (3, 103), (2, 102)] ∧
    (run_ops event_loop_create
      [.addTimeout 10 101, .addTimeout 10 102, .addTimeout 10 103,
       .addTimeout 10 104, .cancelTimeout 2, .runTimers 10]).2.2 =
      [(1, 101), (3, 103), (4, 104)] := by
  constructor <;> rfl

/-- C9 (amended): if `event_loop_cancel_timeout` succeeds for id `tid`
on a loop whose timer ids are distinct and below `next_timer_id` (as
they are for loops built by the API), then the id counter is
unchanged, every remaining timer entry (id, expiry, callback) is one
of the original entries, `tid` is gone, no OTHER id is removed, and no
subsequent sequence of add/cancel/process calls ever fires `tid`'s
callback.  (The firing ORDER of the remaining timers may change: see
the counterexample.) -/
theorem c9_amended (loop : EventLoop) (tid : Nat) (loop2 : EventLoop)
    (ops : List LoopOp)
    (hnd : (loop.timers.map EventTimer.id).Nodup)
    (hwf : ∀ t ∈ loop.timers, t.id < loop.next_timer_id)
    (hc : event_loop_cancel_timeout loop tid = some loop2) :
    loop2.next_timer_id = loop.next_timer_id ∧
    (∀ t ∈ loop2.timers, t ∈ loop.timers) ∧
    tid ∉ loop2.timers.map EventTimer.id ∧
    (∀ j ∈ loop.timers.map EventTimer.id, j ≠ tid →
      j ∈ loop2.timers.map EventTimer.id) ∧
    (∀ pr ∈ (run_ops loop2 ops).2.2, pr.1 ≠ tid) := by
  obtain ⟨hnext, hsub, x, hxmem, hxid, -, habs, hpres⟩ :=
    cancel_spec loop tid loop2 hc
  have htidlt : tid < loop2.next_timer_id := by
    rw [hnext, ← hxid]
    exact hwf x hxmem
  exact ⟨hnext, hsub, habs hnd, hpres,
    absent_never_fired tid loop2 ops (habs hnd) htidlt⟩

theorem c9_amended_witness :
    event_loop_cancel_timeout
      { next_timer_id := 3,
        timers := [{ id := 1, expiry := 5, cb := 11, active := true },
                   { id := 2, expiry := 5, cb := 22, active := true }] } 1 =
      some { next_timer_id := 3,
             timers := [{ id := 2, expiry := 5, cb := 22, active := true }] } ∧
    (1 : Nat) ∉
      ([{ id := 2, expiry := 5, cb := 22, active := true }] :
        List EventTimer).map EventTimer.id ∧
    ∀ pr ∈ (run_ops
        { next_timer_id := 3,
          timers := [{ id := 2, expiry := 5, cb := 22, active := true }] }
        [LoopOp.runTimers 100]).2.2, pr.1 ≠ 1 := by
  have h := c9_amended
    { next_timer_id := 3,
      timers := [{ id := 1, expiry := 5, cb := 11, active := true },
                 { id := 2, expiry := 5, cb := 22, active := true }] } 1
    { next_timer_id := 3,
      timers := [{ id := 2, expiry := 5, cb := 22, active := true }] }
    [LoopOp.runTimers 100] (by decide) (by decide) (by decide)
  exact ⟨by decide, h.2.2.1, h.2.2.2.2⟩

theorem replaceFirst_mem (hs : List HeaderEntry) (lower raw value : List Byte)
    (h : ∃ e ∈ hs, e.name = lower) :
    (⟨lower, raw, value⟩ : HeaderEntry) ∈ replaceFirst hs lower raw value := by
  induction hs with
  | nil => obtain ⟨e, he, -⟩ := h; cases he
  | cons e rest ih =>
    rw [replaceFirst]
    split
    · rename_i heq
      rw [show ({ e with raw := raw, value := value } : HeaderEntry) =
        ⟨e.name, raw, value⟩ from rfl, heq]
      exact List.mem_cons_self _ _
    · rename_i hne
      right
      apply ih
      obtain ⟨f, hf, hfn⟩ := h
      rcases List.mem_cons.mp hf with rfl | hf2
      · exact absurd hfn hne
      · exact ⟨f, hf2, hfn⟩

theorem header_list_add_mem (hs : List HeaderEntry) (name raw value : List Byte) :
    (⟨lowercase name, raw, value⟩ : HeaderEntry) ∈
      header_list_add hs name raw value true := by
  unfold header_list_add
  split
  · rename_i hcond
    apply replaceFirst_mem
    obtain ⟨e, he, hen⟩ := List.any_eq_true.mp hcond.2
    exact ⟨e, he, of_decide_eq_true hen⟩
  · exact List.mem_append_right _ (List.mem_singleton.mpr rfl)

theorem mem_replaceFirst_ne (hs : List HeaderEntry) (lower raw value : List Byte)
    (e : HeaderEntry) (he : e ∈ hs) (hne : e.name ≠ lower) :
    e ∈ replaceFirst hs lower raw value := by
  induction hs with
  | nil => cases he
  | cons f rest ih =>
    rw [replaceFirst]
    split
    · rename_i hfn
      rcases List.mem_cons.mp he with rfl | h2
      · exact absurd hfn hne
      · exact List.mem_cons_of_mem _ h2
    · rcases List.mem_cons.mp he with rfl | h2
      · exact List.mem_cons_self _ _
      · exact List.mem_cons_of_mem _ (ih h2)

theorem mem_header_list_add_ne (hs : List HeaderEntry) (name raw value : List Byte)
    (rep : Bool) (e : HeaderEntry) (he : e ∈ hs) (hne : e.name ≠ lowercase name) :
    e ∈ header_list_add hs name raw value rep := by
  unfold header_list_add
  split
  · exact mem_replaceFirst_ne hs (lowercase name) raw value e he hne
  · exact List.mem_append_left _ he

theorem joinHeaders_decomp (hs : List HeaderEntry) (e : HeaderEntry) (he : e ∈ hs) :
    ∃ u v, joinHeaders hs = u ++ (renderHeader e ++ v) := by
  induction hs with
  | nil => cases he
  | cons f rest ih =>
    rcases List.mem_cons.mp he with rfl | h2
    · exact ⟨[], joinHeaders rest, rfl⟩
    · obtain ⟨u, v, huv⟩ := ih h2
      refine ⟨renderHeader f ++ u, v, ?_⟩
      rw [joinHeaders, huv, List.append_assoc]

/-- C7: for every response whose body fields are consistent (a NULL
body with length 0, or a buffer with `body_length` its byte length —
what `http_response_send_text` and the parser establish) and every
keep-alive flag, the serialized output contains a `Content-Length`
header line whose value is the decimal byte length of the body
`send_response` emits, a `Date` header line with the formatted date,
and a `Connection` header line reading `keep-alive` or `close`
according to the flag; a status outside the fixed reason table gets
reason phrase `"OK"`. -/
theorem c7_serialized_headers (res : Response) (keep_alive : Bool) (date : List Byte)
    (hb : (res.body = none ∧ res.body_length = 0) ∨
          ∃ b, res.body = some b ∧ res.body_length = b.length) :
    (∃ u v, (serialize_response res keep_alive date).1 =
        u ++ (renderHeader ⟨bytes ("date"), bytes ("Date"), date⟩ ++ v)) ∧
    (∃ u v, (serialize_response res keep_alive date).1 =
        u ++ (renderHeader ⟨bytes ("content-length"), bytes ("Content-Length"),
          natToDecimal (emitted_body res).length⟩ ++ v)) ∧
    (∃ u v, (serialize_response res keep_alive date).1 =
        u ++ (renderHeader ⟨bytes ("connection"), bytes ("Connection"),
          if keep_alive then bytes ("keep-alive") else bytes ("close")⟩ ++ v)) ∧
    (res.status ∉ ([200, 201, 202, 204, 400, 401, 403, 404, 405, 500,
        501, 502, 503] : List Nat) →
      status_reason_phrase (effStatus res) = "OK") := by
  have hlen : (emitted_body res).length = res.body_length := by
    rcases hb with ⟨hn, h0⟩ | ⟨b, hsome, hbl⟩
    · simp [emitted_body, hn, h0]
    · simp only [emitted_body, hsome]
      split
      · simp [hbl]
      · rw [List.length_nil]
        omega
  have hdate : (⟨bytes ("date"), bytes ("Date"), date⟩ : HeaderEntry) ∈
      serialized_header_list res keep_alive date := by
    unfold serialized_header_list
    apply mem_header_list_add_ne
    · apply mem_header_list_add_ne
      · exact header_list_add_mem res.headers (bytes ("date")) (bytes ("Date")) date
      · exact (by decide : bytes ("date") ≠ lowercase (bytes ("content-length")))
    · exact (by decide : bytes ("date") ≠ lowercase (bytes ("connection")))
  have hcl : (⟨bytes ("content-length"), bytes ("Content-Length"),
      natToDecimal res.body_length⟩ : HeaderEntry) ∈
      serialized_header_list res keep_alive date := by
    unfold serialized_header_list
    apply mem_header_list_add_ne
    · exact header_list_add_mem _ (bytes ("content-length"))
        (bytes ("Content-Length")) (natToDecimal res.body_length)
    · exact (by decide : bytes ("content-length") ≠ lowercase (bytes ("connection")))
  have hconn : (⟨bytes ("connection"), bytes ("Connection"),
      if keep_alive then bytes ("keep-alive") else bytes ("close")⟩ : HeaderEntry) ∈
      serialized_header_list res keep_alive date := by
    unfold serialized_header_list
    exact header_list_add_mem _ (bytes ("connection")) (bytes ("Connection")) _
  refine ⟨?_, ?_, ?_, ?_⟩
  · obtain ⟨u, v, huv⟩ := joinHeaders_decomp _ _ hdate
    refine ⟨statusLine (effStatus res) ++ u, v ++ CRLF, ?_⟩
    show statusLine (effStatus res)
        ++ joinHeaders (serialized_header_list res keep_alive date) ++ CRLF = _
    rw [huv]
    simp [List.append_assoc]
  · rw [hlen]
    obtain ⟨u, v, huv⟩ := joinHeaders_decomp _ _ hcl
    refine ⟨statusLine (effStatus res) ++ u, v ++ CRLF, ?_⟩
    show statusLine (effStatus res)
        ++ joinHeaders (serialized_header_list res keep_alive date) ++ CRLF = _
    rw [huv]
    simp [List.append_assoc]
  · obtain ⟨u, v, huv⟩ := joinHeaders_decomp _ _ hconn
    refine ⟨statusLine (effStatus res) ++ u, v ++ CRLF, ?_⟩
    show statusLine (effStatus res)
        ++ joinHeaders (serialized_header_list res keep_alive date) ++ CRLF = _
    rw [huv]
    simp [List.append_assoc]
  · intro hnot
    simp only [List.mem_cons, List.not_mem_nil, or_false, not_or] at hnot
    obtain ⟨n200, n201, n202, n204, n400, n401, n403, n404, n405, n500,
      n501, n502, n503⟩ := hnot
    unfold effStatus
    split
    · rfl
    · unfold status_reason_phrase
      rw [if_neg n200, if_neg n201, if_neg n202, if_neg n204, if_neg n400,
        if_neg n401, if_neg n403, if_neg n404, if_neg n405, if_neg n500,
        if_neg n501, if_neg n502, if_neg n503]

/-- Witness for `c7_serialized_headers` at a concrete response with an
out-of-table status and a two-byte body. -/
theorem c7_serialized_headers_witness :
    (∃ b,
      ({ status := 299,
         headers := [],
         body := some (bytes ("hi")),
         body_length := 2,
         sent := false } : Response).body = some b ∧
      ({ status := 299,
         headers := [],
         body := some (bytes ("hi")),
         body_length := 2,
         sent := false } : Response).body_length = b.length) ∧
    status_reason_phrase (effStatus
      { status := 299,
        headers := [],
        body := some (bytes ("hi")),
        body_length := 2,
        sent := false }) = "OK" := by
  have h := c7_serialized_headers
    { status := 299,
      headers := [],
      body := some (bytes ("hi")),
      body_length := 2,
      sent := false } true (bytes ("Thu, 01 Jan 1970 00:00:00 GMT"))
    (Or.inr ⟨bytes ("hi"), rfl, rfl⟩)
  exact ⟨⟨bytes ("hi"), rfl, rfl⟩, h.2.2.2 (by decide)⟩

/-- C5: the `MAX_BODY_BYTES` = 1048576 body cap.  (1) A
`Content-Length` header whose decimal value exceeds the cap is
rejected at the header line with 413; (2) a value within the cap
(1048576 itself included) is stored as the expected body length;
(3) `append_body_data` — the single accumulation point for
fixed-length and chunked bodies alike — errors with 413 `Payload Too
Large` as soon as the received bytes would exceed the cap by at least
one byte, and (4) within the cap appends the bytes; (5) a fixed-length
body whose buffered bytes fill `content_length` exactly completes the
parse with the full body; (6) a chunk slice filling the announced
chunk size within the cap is appended and the parser awaits the chunk
CRLF; (7) the terminating `0 CRLF CRLF` of a chunked body reaches
`COMPLETE`. -/
theorem c5_body_limit :
    (∀ p line name value v,
      header_line_analyze line = HLineOut.entry name value →
      lowercase name = bytes ("content-length") →
      strtoull10 value = some (v, []) →
      MAX_BODY_BYTES < v →
      (parse_header_line p line).state = PState.ERROR ∧
      (parse_header_line p line).error_status = 413) ∧
    (∀ p line name value v,
      header_line_analyze line = HLineOut.entry name value →
      lowercase name = bytes ("content-length") →
      strtoull10 value = some (v, []) →
      v ≤ MAX_BODY_BYTES →
      (parse_header_line p line).content_length = v ∧
      (parse_header_line p line).state = p.state) ∧
    (∀ p data, MAX_BODY_BYTES < p.body_received + List.length data →
      append_body_data p data = setError p 413 ("Payload Too Large")) ∧
    (∀ p data, p.body_received + List.length data ≤ MAX_BODY_BYTES →
      (append_body_data p data).state = p.state ∧
      (append_body_data p data).body_received = p.body_received + List.length data ∧
      (append_body_data p data).req.body = p.req.body ++ data) ∧
    (∀ p, p.state = PState.BODY →
      p.body_received + p.buffer.length = p.content_length →
      p.content_length ≤ MAX_BODY_BYTES →
      0 < p.buffer.length →
      (parse_body_step p).1 = StepRes.progress ∧
      (parse_body_step p).2.state = PState.COMPLETE ∧
      (parse_body_step p).2.body_received = p.content_length ∧
      (parse_body_step p).2.req.body = p.req.body ++ p.buffer) ∧
    (∀ p, p.state = PState.CHUNK_DATA →
      p.current_chunk_size - p.current_chunk_received = p.buffer.length →
      p.body_received + p.buffer.length ≤ MAX_BODY_BYTES →
      0 < p.buffer.length →
      (parse_chunk_data p).1 = StepRes.progress ∧
      (parse_chunk_data p).2.state = PState.CHUNK_CRLF ∧
      (parse_chunk_data p).2.body_received = p.body_received + p.buffer.length ∧
      (parse_chunk_data p).2.req.body = p.req.body ++ p.buffer) ∧
    (∀ p rest, p.buffer = 48 :: 13 :: 10 :: 13 :: 10 :: rest →
      ∃ q, parse_chunk_size p = (StepRes.progress, q) ∧
        q.state = PState.CHUNK_TRAILERS ∧
        ∃ r, parse_chunk_trailers q = (StepRes.progress, r) ∧
          r.state = PState.COMPLETE ∧ r.req.body_length = p.body_received) := by
  refine ⟨?_, ?_, ?_, ?_, ?_, ?_, ?_⟩
  · intro p line name value v hline hname hval hgt
    unfold parse_header_line
    rw [hline]
    dsimp only
    rw [if_pos hname, hval]
    dsimp only
    rw [if_neg (by simp), if_pos hgt]
    exact ⟨rfl, rfl⟩
  · intro p line name value v hline hname hval hle
    unfold parse_header_line
    rw [hline]
    dsimp only
    rw [if_pos hname, hval]
    dsimp only
    rw [if_neg (by simp), if_neg (by omega)]
    exact ⟨rfl, rfl⟩
  · intro p data hgt
    unfold append_body_data
    rw [if_pos hgt]
  · intro p data hle
    unfold append_body_data
    rw [if_neg (by omega)]
    exact ⟨rfl, rfl, rfl⟩
  · intro p hstate hfill hcap hpos
    have htc : body_to_copy p = p.buffer.length := by
      unfold body_to_copy
      omega
    have happ : append_body_data p (p.buffer.take (body_to_copy p)) =
        { p with
            req := { p.req with
              body := p.req.body ++ p.buffer
              body_length := p.body_received + p.buffer.length }
            body_received := p.body_received + p.buffer.length } := by
      rw [htc, List.take_length]
      unfold append_body_data
      rw [if_neg (by omega)]
    have hst : (append_body_data p (p.buffer.take (body_to_copy p))).state = p.state := by
      rw [happ]
    have hbr : (bodyConsumed p).body_received = p.body_received + p.buffer.length := by
      unfold bodyConsumed
      rw [happ]
      rfl
    have hcl : (bodyConsumed p).content_length = p.content_length := by
      unfold bodyConsumed
      rw [happ]
      rfl
    have hbody : (bodyConsumed p).req.body = p.req.body ++ p.buffer := by
      unfold bodyConsumed
      rw [happ]
      rfl
    unfold parse_body_step
    split
    · omega
    · split
      · rename_i hne herr
        rw [hst, hstate] at herr
        exact absurd herr (by decide)
      · split
        · refine ⟨rfl, rfl, ?_, ?_⟩
          · exact hbr.trans (by omega)
          · exact hbody
        · rename_i hne herr hnotdone
          exact absurd (hbr.trans ((by omega : p.body_received + p.buffer.length
              = p.content_length).trans hcl.symm)) hnotdone
  · intro p hstate hr hcap hpos
    have htc : chunk_to_copy p = p.buffer.length := by
      unfold chunk_to_copy
      omega
    have happ : append_body_data p (p.buffer.take (chunk_to_copy p)) =
        { p with
            req := { p.req with
              body := p.req.body ++ p.buffer
              body_length := p.body_received + p.buffer.length }
            body_received := p.body_received + p.buffer.length } := by
      rw [htc, List.take_length]
      unfold append_body_data
      rw [if_neg (by omega)]
    have hst : (append_body_data p (p.buffer.take (chunk_to_copy p))).state = p.state := by
      rw [happ]
    have hrecv : (chunkConsumed p).current_chunk_received
        = p.current_chunk_received + chunk_to_copy p := by
      unfold chunkConsumed
      rw [happ]
    have hsz : (chunkConsumed p).current_chunk_size = p.current_chunk_size := by
      unfold chunkConsumed
      rw [happ]
      rfl
    have hbr : (chunkConsumed p).body_received = p.body_received + p.buffer.length := by
      unfold chunkConsumed
      rw [happ]
      rfl
    have hbody : (chunkConsumed p).req.body = p.req.body ++ p.buffer := by
      unfold chunkConsumed
      rw [happ]
      rfl
    unfold parse_chunk_data
    split
    · omega
    · split
      · omega
      · split
        · rename_i hne hne2 herr
          rw [hst, hstate] at herr
          exact absurd herr (by decide)
        · split
          · refine ⟨rfl, rfl, ?_, ?_⟩
            · exact hbr
            · exact hbody
          · rename_i hne hne2 herr hnotdone
            exact absurd (hrecv.trans ((by omega : p.current_chunk_received
                + chunk_to_copy p = p.current_chunk_size).trans hsz.symm)) hnotdone
  · intro p rest hbuf
    have hcr : find_crlf p.buffer = some 1 := by
      rw [hbuf]
      rfl
    have hs0 : strtoul16 (truncNul (p.buffer.take 1)) = some 0 := by
      rw [hbuf]
      rfl
    have h1 : parse_chunk_size p =
        (StepRes.progress, { parser_consume p (1 + 2) with
            current_chunk_size := 0
            current_chunk_received := 0
            state := PState.CHUNK_TRAILERS }) := by
      unfold parse_chunk_size
      rw [hcr]
      dsimp only
      rw [hs0]
      dsimp only
      rw [if_pos rfl]
    refine ⟨_, h1, rfl, ?_⟩
    have hqb : ({ parser_consume p (1 + 2) with
        current_chunk_size := 0
        current_chunk_received := 0
        state := PState.CHUNK_TRAILERS } : Parser).buffer = 13 :: 10 :: rest := by
      show p.buffer.drop (1 + 2) = 13 :: 10 :: rest
      rw [hbuf]
      rfl
    have h2 : parse_chunk_trailers
        { parser_consume p (1 + 2) with
            current_chunk_size := 0
            current_chunk_received := 0
            state := PState.CHUNK_TRAILERS } =
        (StepRes.progress, { parser_consume
            ({ parser_consume p (1 + 2) with
                current_chunk_size := 0
                current_chunk_received := 0
                state := PState.CHUNK_TRAILERS } : Parser) 2 with
            state := PState.COMPLETE
            req := { ({ parser_consume p (1 + 2) with
                current_chunk_size := 0
                current_chunk_received := 0
                state := PState.CHUNK_TRAILERS } : Parser).req with
              body_length := ({ parser_consume p (1 + 2) with
                current_chunk_size := 0
                current_chunk_received := 0
                state := PState.CHUNK_TRAILERS } : Parser).body_received } }) := by
      unfold parse_chunk_trailers
      rw [hqb]
      rfl
    exact ⟨_, h2, rfl, rfl⟩

/-- Witness for `c5_body_limit`: an over-cap `Content-Length` line is a
413, the cap value itself is stored, one byte past the cap in
`append_body_data` is a 413, an exactly-full fixed body completes, an
exactly-full chunk advances to the chunk CRLF, and `0 CRLF CRLF`
completes a chunked parse. -/
theorem c5_body_limit_witness :
    (parse_header_line http_parser_init
      (bytes ("Content-Length: 1048577"))).error_status = 413 ∧
    (parse_header_line http_parser_init
      (bytes ("Content-Length: 1048576"))).content_length = 1048576 ∧
    append_body_data { http_parser_init with body_received := 1048576 } [65] =
      setError { http_parser_init with body_received := 1048576 } 413
        ("Payload Too Large") ∧
    (append_body_data http_parser_init [65]).body_received = 1 ∧
    (parse_body_step { http_parser_init with
      state := PState.BODY
      content_length := 3
      buffer := [97, 98, 99] }).2.state = PState.COMPLETE ∧
    (parse_chunk_data { http_parser_init with
      state := PState.CHUNK_DATA
      current_chunk_size := 3
      buffer := [97, 98, 99] }).2.state = PState.CHUNK_CRLF ∧
    (∃ q, parse_chunk_size { http_parser_init with
          buffer := [48, 13, 10, 13, 10] } = (StepRes.progress, q) ∧
      q.state = PState.CHUNK_TRAILERS ∧
      ∃ r, parse_chunk_trailers q = (StepRes.progress, r) ∧
        r.state = PState.COMPLETE ∧
        r.req.body_length = ({ http_parser_init with
          buffer := [48, 13, 10, 13, 10] } : Parser).body_received) := by
  have h := c5_body_limit
  refine ⟨?_, ?_, ?_, ?_, ?_, ?_, ?_⟩
  · exact (h.1 http_parser_init (bytes ("Content-Length: 1048577"))
      (bytes ("Content-Length")) (bytes ("1048577")) 1048577
      (by decide) (by decide) (by decide) (by decide)).2
  · exact (h.2.1 http_parser_init (bytes ("Content-Length: 1048576"))
      (bytes ("Content-Length")) (bytes ("1048576")) 1048576
      (by decide) (by decide) (by decide) (by decide)).1
  · exact h.2.2.1 { http_parser_init with body_received := 1048576 } [65] (by decide)
  · exact (h.2.2.2.1 http_parser_init [65] (by decide)).2.1
  · exact (h.2.2.2.2.1 { http_parser_init with
        state := PState.BODY
        content_length := 3
        buffer := [97, 98, 99] } (by decide) (by decide) (by decide) (by decide)).2.1
  · exact (h.2.2.2.2.2.1 { http_parser_init with
        state := PState.CHUNK_DATA
        current_chunk_size := 3
        buffer := [97, 98, 99] } (by decide) (by decide) (by decide) (by decide)).2.1
  · exact h.2.2.2.2.2.2 { http_parser_init with
        buffer := [48, 13, 10, 13, 10] } [] (by decide)

theorem append_cons_ne_nil (l : List Byte) (a : Byte) (r : List Byte) :
    l ++ a :: r ≠ [] := by
  cases l with
  | nil => exact List.cons_ne_nil a r
  | cons x t => exact List.cons_ne_nil x (t ++ a :: r)

theorem find_crlf_cons_ne (a : Byte) (l : List Byte) (ha : a ≠ 13) (hl : l ≠ []) :
    find_crlf (a :: l) = (find_crlf l).map (fun i => i + 1) := by
  cases l with
  | nil => exact absurd rfl hl
  | cons b t =>
    show (if a = 13 ∧ b = 10 then some 0 else (find_crlf (b :: t)).map (fun i => i + 1)) = _
    rw [if_neg (fun h => ha h.1)]

theorem find_crlf_replicate (n : Nat) (rest : List Byte) :
    find_crlf (List.replicate n 97 ++ 13 :: 10 :: rest) = some n := by
  induction n with
  | zero => rfl
  | succ m ih =>
    rw [List.replicate_succ, List.cons_append,
      find_crlf_cons_ne 97 (List.replicate m 97 ++ 13 :: 10 :: rest) (by decide)
        (append_cons_ne_nil _ _ _),
      ih]
    rfl

theorem find_crlf_replicate_none (n : Nat) : find_crlf (List.replicate n 97) = none := by
  induction n with
  | zero => rfl
  | succ m ih =>
    cases m with
    | zero => rfl
    | succ k =>
      rw [List.replicate_succ,
        find_crlf_cons_ne 97 (List.replicate (k + 1) 97) (by decide) (by simp),
        ih]
      rfl

/-- C4, counterexample to the original claim: a request whose header
block is EXACTLY `MAX_HEADER_BYTES` = 16384 bytes
(`"A: "` + 16377 × `a` + CRLF + CRLF, after the request line) does not
succeed — it dies with 431 `Header line too long`, because the per-line
cap `MAX_HEADER_LINE_LEN` = 8192 fires first.  The 16384-byte figure
in the code caps only the bytes buffered while NO complete line is
available (see the amended claim), not the size of the header
block. -/
theorem c4_counterexample :
    (bytes ("A: ") ++ (List.replicate 16377 97 ++ 13 :: 10 :: 13 :: 10 :: [])).length
      = MAX_HEADER_BYTES ∧
    (http_parser_execute http_parser_init
      (bytes ("GET / HTTP/1.1\r\nA: ") ++ (List.replicate 16377 97 ++ 13 :: 10 :: 13 :: 10 :: []))).state = PState.ERROR ∧
    (http_parser_execute http_parser_init
      (bytes ("GET / HTTP/1.1\r\nA: ") ++ (List.replicate 16377 97 ++ 13 :: 10 :: 13 :: 10 :: []))).error_status = 431 := by
  have hstep0 : step_once (bufApp http_parser_init
      (bytes ("GET / HTTP/1.1\r\nA: ") ++ (List.replicate 16377 97 ++ 13 :: 10 :: 13 :: 10 :: []))) =
      (StepRes.progress, { bufApp http_parser_init
        (bytes ("GET / HTTP/1.1\r\nA: ") ++
          (List.replicate 16377 97 ++ 13 :: 10 :: 13 :: 10 :: [])) with
      state := PState.HEADERS
      keep_alive := true
      buffer := 65 :: 58 :: 32 :: (List.replicate 16377 97 ++ 13 :: 10 :: 13 :: 10 :: [])
      req := { method := Method.GET
               path := [47]
               query_string := none
               headers := []
               body := []
               body_length := 0 } }) := rfl
  have hterm0 : ¬((bufApp http_parser_init
      (bytes ("GET / HTTP/1.1\r\nA: ") ++ (List.replicate 16377 97 ++ 13 :: 10 :: 13 :: 10 :: []))).state = PState.ERROR ∨
      (bufApp http_parser_init
        (bytes ("GET / HTTP/1.1\r\nA: ") ++ (List.replicate 16377 97 ++ 13 :: 10 :: 13 :: 10 :: []))).state = PState.COMPLETE) := by
    rw [show (bufApp http_parser_init
      (bytes ("GET / HTTP/1.1\r\nA: ") ++ (List.replicate 16377 97 ++ 13 :: 10 :: 13 :: 10 :: []))).state = PState.REQUEST_LINE from rfl]
    decide
  have hf2 : find_crlf (65 :: 58 :: 32 ::
      (List.replicate 16377 97 ++ 13 :: 10 :: 13 :: 10 :: [])) = some 16380 := by
    rw [find_crlf_cons_ne 65 _ (by decide) (List.cons_ne_nil _ _),
      find_crlf_cons_ne 58 _ (by decide) (List.cons_ne_nil _ _),
      find_crlf_cons_ne 32 _ (by decide) (append_cons_ne_nil _ _ _),
      find_crlf_replicate 16377 (13 :: 10 :: [])]
    rfl
  have hterm1 : ¬(({ bufApp http_parser_init
        (bytes ("GET / HTTP/1.1\r\nA: ") ++
          (List.replicate 16377 97 ++ 13 :: 10 :: 13 :: 10 :: [])) with
      state := PState.HEADERS
      keep_alive := true
      buffer := 65 :: 58 :: 32 :: (List.replicate 16377 97 ++ 13 :: 10 :: 13 :: 10 :: [])
      req := { method := Method.GET
               path := [47]
               query_string := none
               headers := []
               body := []
               body_length := 0 } } : Parser).state = PState.ERROR ∨
      ({ bufApp http_parser_init
        (bytes ("GET / HTTP/1.1\r\nA: ") ++
          (List.replicate 16377 97 ++ 13 :: 10 :: 13 :: 10 :: [])) with
      state := PState.HEADERS
      keep_alive := true
      buffer := 65 :: 58 :: 32 :: (List.replicate 16377 97 ++ 13 :: 10 :: 13 :: 10 :: [])
      req := { method := Method.GET
               path := [47]
               query_string := none
               headers := []
               body := []
               body_length := 0 } } : Parser).state = PState.COMPLETE) := by
    rw [show ({ bufApp http_parser_init
        (bytes ("GET / HTTP/1.1\r\nA: ") ++
          (List.replicate 16377 97 ++ 13 :: 10 :: 13 :: 10 :: [])) with
      state := PState.HEADERS
      keep_alive := true
      buffer := 65 :: 58 :: 32 :: (List.replicate 16377 97 ++ 13 :: 10 :: 13 :: 10 :: [])
      req := { method := Method.GET
               path := [47]
               query_string := none
               headers := []
               body := []
               body_length := 0 } } : Parser).state = PState.HEADERS from rfl]
    decide
  have hstep1 : step_once { bufApp http_parser_init
        (bytes ("GET / HTTP/1.1\r\nA: ") ++
          (List.replicate 16377 97 ++ 13 :: 10 :: 13 :: 10 :: [])) with
      state := PState.HEADERS
      keep_alive := true
      buffer := 65 :: 58 :: 32 :: (List.replicate 16377 97 ++ 13 :: 10 :: 13 :: 10 :: [])
      req := { method := Method.GET
               path := [47]
               query_string := none
               headers := []
               body := []
               body_length := 0 } } =
      (StepRes.error, setError { bufApp http_parser_init
        (bytes ("GET / HTTP/1.1\r\nA: ") ++
          (List.replicate 16377 97 ++ 13 :: 10 :: 13 :: 10 :: [])) with
      state := PState.HEADERS
      keep_alive := true
      buffer := 65 :: 58 :: 32 :: (List.replicate 16377 97 ++ 13 :: 10 :: 13 :: 10 :: [])
      req := { method := Method.GET
               path := [47]
               query_string := none
               headers := []
               body := []
               body_length := 0 } } 431 ("Header line too long")) := by
    show parse_headers { bufApp http_parser_init
        (bytes ("GET / HTTP/1.1\r\nA: ") ++
          (List.replicate 16377 97 ++ 13 :: 10 :: 13 :: 10 :: [])) with
      state := PState.HEADERS
      keep_alive := true
      buffer := 65 :: 58 :: 32 :: (List.replicate 16377 97 ++ 13 :: 10 :: 13 :: 10 :: [])
      req := { method := Method.GET
               path := [47]
               query_string := none
               headers := []
               body := []
               body_length := 0 } } = _
    rw [parse_headers_eq]
    rw [show ({ bufApp http_parser_init
        (bytes ("GET / HTTP/1.1\r\nA: ") ++
          (List.replicate 16377 97 ++ 13 :: 10 :: 13 :: 10 :: [])) with
      state := PState.HEADERS
      keep_alive := true
      buffer := 65 :: 58 :: 32 :: (List.replicate 16377 97 ++ 13 :: 10 :: 13 :: 10 :: [])
      req := { method := Method.GET
               path := [47]
               query_string := none
               headers := []
               body := []
               body_length := 0 } } : Parser).buffer = 65 :: 58 :: 32 ::
      (List.replicate 16377 97 ++ 13 :: 10 :: 13 :: 10 :: []) from rfl]
    rw [hf2]
    dsimp only
    rw [if_neg (by decide : ¬((16380 : Nat) = 0)),
      if_pos (by decide : (16380 : Nat) > MAX_HEADER_LINE_LEN)]
  have hE : exec_loop (bufApp http_parser_init
      (bytes ("GET / HTTP/1.1\r\nA: ") ++ (List.replicate 16377 97 ++ 13 :: 10 :: 13 :: 10 :: []))) =
      setError { bufApp http_parser_init
        (bytes ("GET / HTTP/1.1\r\nA: ") ++
          (List.replicate 16377 97 ++ 13 :: 10 :: 13 :: 10 :: [])) with
      state := PState.HEADERS
      keep_alive := true
      buffer := 65 :: 58 :: 32 :: (List.replicate 16377 97 ++ 13 :: 10 :: 13 :: 10 :: [])
      req := { method := Method.GET
               path := [47]
               query_string := none
               headers := []
               body := []
               body_length := 0 } } 431 ("Header line too long") := by
    rw [exec_loop_progress _ _ hterm0 hstep0]
    exact exec_loop_err _ _ hterm1 hstep1
  have hL : (bytes ("GET / HTTP/1.1\r\nA: ") ++ (List.replicate 16377 97 ++ 13 :: 10 :: 13 :: 10 :: [])).length = 16400 := by
    rw [List.length_append, List.length_append, List.length_replicate]
    rfl
  have hexec : http_parser_execute http_parser_init
      (bytes ("GET / HTTP/1.1\r\nA: ") ++ (List.replicate 16377 97 ++ 13 :: 10 :: 13 :: 10 :: [])) =
      setError { bufApp http_parser_init
        (bytes ("GET / HTTP/1.1\r\nA: ") ++
          (List.replicate 16377 97 ++ 13 :: 10 :: 13 :: 10 :: [])) with
      state := PState.HEADERS
      keep_alive := true
      buffer := 65 :: 58 :: 32 :: (List.replicate 16377 97 ++ 13 :: 10 :: 13 :: 10 :: [])
      req := { method := Method.GET
               path := [47]
               query_string := none
               headers := []
               body := []
               body_length := 0 } } 431 ("Header line too long") := by
    unfold http_parser_execute
    split
    · rename_i h
      exact absurd h (by decide)
    · split
      · split
        · rename_i hbig
          rw [show http_parser_init.buffer = ([] : List Byte) from rfl,
            List.length_nil, hL] at hbig
          exact absurd hbig (by decide)
        · exact hE
      · rename_i hnotpos
        exfalso
        apply hnotpos
        rw [hL]
        decide
  refine ⟨?_, ?_, ?_⟩
  · rw [List.length_append, List.length_append, List.length_replicate]
    rfl
  · rw [hexec]
    rfl
  · rw [hexec]
    rfl

/-- C4 (amended): the `MAX_HEADER_BYTES` = 16384 cap in the code
measures the bytes buffered while NO complete header line is
available, not the header block: in the `HEADERS` state with no CRLF
among the buffered bytes, more than 16384 buffered bytes give 431
`Request Header Fields Too Large`, and up to 16384 bytes (16384
included) leave the parser waiting unchanged for more input.
(Individual header lines are separately capped at
`MAX_HEADER_LINE_LEN` = 8192 bytes, which is what a 16384-byte header
block actually hits — see the counterexample.) -/
theorem c4_amended (p : Parser) (hstate : p.state = PState.HEADERS)
    (hcr : find_crlf p.buffer = none) :
    (MAX_HEADER_BYTES < p.buffer.length →
      step_once p = (StepRes.error,
        setError p 431 ("Request Header Fields Too Large"))) ∧
    (p.buffer.length ≤ MAX_HEADER_BYTES →
      step_once p = (StepRes.incomplete, p)) := by
  have hso : step_once p = parse_headers p := by
    unfold step_once
    rw [hstate]
  rw [hso, parse_headers_eq, hcr]
  constructor
  · intro h
    dsimp only
    rw [if_pos (by omega : p.buffer.length > MAX_HEADER_BYTES)]
  · intro h
    dsimp only
    rw [if_neg (by omega : ¬(p.buffer.length > MAX_HEADER_BYTES))]

/-- Witness for `c4_amended`: 16385 buffered bytes with no CRLF are a
431, one buffered byte waits for more input. -/
theorem c4_amended_witness :
    find_crlf (List.replicate 16385 97) = none ∧
    step_once { http_parser_init with
        state := PState.HEADERS
        buffer := List.replicate 16385 97 } =
      (StepRes.error, setError { http_parser_init with
        state := PState.HEADERS
        buffer := List.replicate 16385 97 } 431
        ("Request Header Fields Too Large")) ∧
    step_once { http_parser_init with
        state := PState.HEADERS
        buffer := [65] } =
      (StepRes.incomplete, { http_parser_init with
        state := PState.HEADERS
        buffer := [65] }) := by
  refine ⟨find_crlf_replicate_none 16385, ?_, ?_⟩
  · refine (c4_amended { http_parser_init with
        state := PState.HEADERS
        buffer := List.replicate 16385 97 } rfl
      (find_crlf_replicate_none 16385)).1 ?_
    rw [show ({ http_parser_init with
        state := PState.HEADERS
        buffer := List.replicate 16385 97 } : Parser).buffer
      = List.replicate 16385 97 from rfl, List.length_replicate]
    decide
  · exact (c4_amended _ rfl (by decide)).2 (by decide)

theorem bufApp_nil (p : Parser) : bufApp p [] = p := by
  simp [bufApp]

theorem bufApp_bufApp (p : Parser) (a b : List Byte) :
    bufApp (bufApp p a) b = bufApp p (a ++ b) := by
  simp [bufApp, List.append_assoc]
  omega

theorem parser_ext (p q : Parser)
    (h1 : p.state = q.state) (h2 : p.req = q.req) (h3 : p.buffer = q.buffer)
    (h4 : p.total_bytes = q.total_bytes) (h5 : p.header_count = q.header_count)
    (h6 : p.content_length = q.content_length) (h7 : p.body_received = q.body_received)
    (h8 : p.chunked = q.chunked) (h9 : p.current_chunk_size = q.current_chunk_size)
    (h10 : p.current_chunk_received = q.current_chunk_received)
    (h11 : p.keep_alive = q.keep_alive) (h12 : p.seen_host = q.seen_host)
    (h13 : p.error_status = q.error_status) (h14 : p.error_message = q.error_message) :
    p = q := by
  cases p
  cases q
  simp_all

theorem find_crlf_append (b : List Byte) (i : Nat) (v : List Byte)
    (h : find_crlf b = some i) : find_crlf (b ++ v) = some i := by
  induction b generalizing i with
  | nil => cases h
  | cons a t ih =>
    cases t with
    | nil => cases h
    | cons c r =>
      rw [find_crlf] at h
      rw [List.cons_append, List.cons_append, find_crlf]
      split at h
      · rename_i hc
        cases h
        rw [if_pos hc]
      · rename_i hc
        rw [if_neg hc]
        rcases Option.map_eq_some'.mp h with ⟨j, hj, rfl⟩
        have h2 := ih j hj
        rw [List.cons_append] at h2
        rw [h2]
        rfl

theorem find_crlf_none_bound (b v : List Byte) :
    ∀ i, find_crlf b = none → find_crlf (b ++ v) = some i → b.length ≤ i + 1 := by
  induction b with
  | nil =>
    intro i _ _
    simp
  | cons a t ih =>
    intro i hb h
    cases t with
    | nil => simp
    | cons c r =>
      rw [find_crlf] at hb
      rw [List.cons_append, List.cons_append, find_crlf] at h
      split at hb
      · cases hb
      · rename_i hc
        rw [if_neg hc] at h
        rcases Option.map_eq_some'.mp h with ⟨j, hj, rfl⟩
        have hb2 : find_crlf (c :: r) = none := by
          rcases hfc : find_crlf (c :: r) with _ | k
          · rfl
          · rw [hfc] at hb
            cases hb
        have h3 := ih j hb2 (by rw [List.cons_append]; exact hj)
        simp only [List.length_cons] at h3 ⊢
        omega

theorem drop_append_of_le (n : Nat) (b v : List Byte) (h : n ≤ b.length) :
    (b ++ v).drop n = b.drop n ++ v := by
  rw [List.drop_append_eq_append_drop, show n - b.length = 0 from by omega, List.drop_zero]

theorem take_append_of_le (n : Nat) (b v : List Byte) (h : n ≤ b.length) :
    (b ++ v).take n = b.take n := by
  rw [List.take_append_eq_append_take, show n - b.length = 0 from by omega, List.take_zero,
    List.append_nil]

theorem parse_header_line_bufApp (p : Parser) (v line : List Byte) :
    parse_header_line (bufApp p v) line = bufApp (parse_header_line p line) v := by
  unfold parse_header_line
  repeat' split
  all_goals rfl

theorem append_body_data_bufApp (p : Parser) (v d : List Byte) :
    append_body_data (bufApp p v) d = bufApp (append_body_data p d) v := by
  unfold append_body_data
  rw [show (bufApp p v).body_received = p.body_received from rfl]
  split
  · rfl
  · rfl

theorem parse_request_line_append (p : Parser) (v : List Byte) (r : StepRes) (p' : Parser)
    (h : parse_request_line p = (r, p')) (hr : r ≠ StepRes.incomplete) :
    parse_request_line (bufApp p v) = (r, bufApp p' v) := by
  unfold parse_request_line at h ⊢
  rcases hcr : find_crlf p.buffer with _ | ci
  · rw [hcr] at h
    cases h
    exact absurd rfl hr
  · have hci := find_crlf_lt _ _ hcr
    rw [hcr] at h
    rw [show (bufApp p v).buffer = p.buffer ++ v from rfl,
      find_crlf_append _ _ _ hcr]
    dsimp only at h ⊢
    rw [take_append_of_le ci p.buffer v (by omega)]
    split at h
    · cases h
      split
      · rfl
      · omega
    · rename_i hbig
      rw [if_neg hbig]
      split at h
      case _ heq =>
        cases h
        rfl
      case _ heq =>
        cases h
        rfl
      case _ m heq =>
        cases h
        rfl
      case _ m heq =>
        cases h
        rfl
      case _ m path q heq =>
        cases h
        rfl
      case _ m path q ka heq =>
        cases h
        rw [Prod.mk.injEq]
        refine ⟨rfl, ?_⟩
        apply parser_ext <;> try rfl
        show (p.buffer ++ v).drop (ci + 2) = p.buffer.drop (ci + 2) ++ v
        exact drop_append_of_le (ci + 2) p.buffer v (by omega)


theorem parse_chunk_size_append (p : Parser) (v : List Byte) (r : StepRes) (p' : Parser)
    (h : parse_chunk_size p = (r, p')) (hr : r ≠ StepRes.incomplete) :
    parse_chunk_size (bufApp p v) = (r, bufApp p' v) := by
  unfold parse_chunk_size at h ⊢
  rcases hcr : find_crlf p.buffer with _ | ci
  · rw [hcr] at h
    cases h
    exact absurd rfl hr
  · have hci := find_crlf_lt _ _ hcr
    rw [hcr] at h
    rw [show (bufApp p v).buffer = p.buffer ++ v from rfl, find_crlf_append _ _ _ hcr]
    dsimp only at h ⊢
    rw [take_append_of_le ci p.buffer v (by omega)]
    split at h
    case _ heq =>
      cases h
      rfl
    case _ sz heq =>
      split at h
      · rename_i hz
        cases h
        rw [if_pos hz, Prod.mk.injEq]
        refine ⟨rfl, ?_⟩
        apply parser_ext <;> try rfl
        show (p.buffer ++ v).drop (ci + 2) = p.buffer.drop (ci + 2) ++ v
        exact drop_append_of_le (ci + 2) p.buffer v (by omega)
      · rename_i hz
        cases h
        rw [if_neg hz, Prod.mk.injEq]
        refine ⟨rfl, ?_⟩
        apply parser_ext <;> try rfl
        show (p.buffer ++ v).drop (ci + 2) = p.buffer.drop (ci + 2) ++ v
        exact drop_append_of_le (ci + 2) p.buffer v (by omega)

theorem parse_chunk_crlf_append (p : Parser) (v : List Byte) (r : StepRes) (p' : Parser)
    (h : parse_chunk_crlf p = (r, p')) (hr : r ≠ StepRes.incomplete) :
    parse_chunk_crlf (bufApp p v) = (r, bufApp p' v) := by
  unfold parse_chunk_crlf at h ⊢
  rw [show (bufApp p v).buffer = p.buffer ++ v from rfl]
  split at h
  · cases h
    exact absurd rfl hr
  · rename_i hlen
    rw [if_neg (show ¬((p.buffer ++ v).length < 2) from by
      rw [List.length_append]
      omega)]
    rw [take_append_of_le 2 p.buffer v (by omega)]
    split at h
    · rename_i htk
      cases h
      rw [if_pos htk, Prod.mk.injEq]
      refine ⟨rfl, ?_⟩
      apply parser_ext <;> try rfl
      show (p.buffer ++ v).drop 2 = p.buffer.drop 2 ++ v
      exact drop_append_of_le 2 p.buffer v (by omega)
    · rename_i htk
      cases h
      rw [if_neg htk]
      rfl

theorem parse_chunk_trailers_append (p : Parser) (v : List Byte) (r : StepRes) (p' : Parser)
    (h : parse_chunk_trailers p = (r, p')) (hr : r ≠ StepRes.incomplete) :
    parse_chunk_trailers (bufApp p v) = (r, bufApp p' v) := by
  unfold parse_chunk_trailers at h ⊢
  rcases hcr : find_crlf p.buffer with _ | ci
  · rw [hcr] at h
    cases h
    exact absurd rfl hr
  · have hci := find_crlf_lt _ _ hcr
    rw [hcr] at h
    rw [show (bufApp p v).buffer = p.buffer ++ v from rfl, find_crlf_append _ _ _ hcr]
    cases ci with
    | zero =>
      dsimp only at h ⊢
      cases h
      rw [Prod.mk.injEq]
      refine ⟨rfl, ?_⟩
      apply parser_ext <;> try rfl
      show (p.buffer ++ v).drop 2 = p.buffer.drop 2 ++ v
      exact drop_append_of_le 2 p.buffer v (by omega)
    | succ k =>
      dsimp only at h ⊢
      cases h
      rw [Prod.mk.injEq]
      refine ⟨rfl, ?_⟩
      apply parser_ext <;> try rfl
      show (p.buffer ++ v).drop (k + 1 + 2) = p.buffer.drop (k + 1 + 2) ++ v
      exact drop_append_of_le (k + 1 + 2) p.buffer v (by omega)


theorem parser_consume_bufApp (q : Parser) (v : List Byte) (n : Nat)
    (h : n ≤ q.buffer.length) :
    parser_consume (bufApp q v) n = bufApp (parser_consume q n) v := by
  apply parser_ext <;> try rfl
  show (q.buffer ++ v).drop n = q.buffer.drop n ++ v
  exact drop_append_of_le n q.buffer v h

theorem parse_headers_append_aux (n : Nat) : ∀ p, p.buffer.length < n → ∀ v : List Byte,
    (match parse_headers p with
      | (StepRes.progress, p') => parse_headers (bufApp p v) = (StepRes.progress, bufApp p' v)
      | (StepRes.error, _) =>
          ∃ q, parse_headers (bufApp p v) = (StepRes.error, q) ∧ q.state = PState.ERROR
      | (StepRes.incomplete, p') =>
          parse_headers (bufApp p v) = parse_headers (bufApp p' v)) := by
  induction n with
  | zero =>
    intro p hn
    omega
  | succ n ih =>
    intro p hn v
    have hMB : MAX_HEADER_BYTES = 16384 := rfl
    have hML : MAX_HEADER_LINE_LEN = 8192 := rfl
    rw [parse_headers_eq]
    rcases hcr : find_crlf p.buffer with _ | ci
    · by_cases hbig : p.buffer.length > MAX_HEADER_BYTES
      · rw [if_pos hbig]
        dsimp only
        rcases hcr2 : find_crlf (p.buffer ++ v) with _ | i
        · rw [parse_headers_eq, show (bufApp p v).buffer = p.buffer ++ v from rfl, hcr2]
          dsimp only
          rw [if_pos (by rw [List.length_append]; omega)]
          exact ⟨_, rfl, rfl⟩
        · have hib := find_crlf_none_bound p.buffer v i hcr hcr2
          rw [parse_headers_eq, show (bufApp p v).buffer = p.buffer ++ v from rfl, hcr2]
          dsimp only
          rw [if_neg (by omega : ¬(i = 0)), if_pos (by omega : i > MAX_HEADER_LINE_LEN)]
          exact ⟨_, rfl, rfl⟩
      · rw [if_neg hbig]
    · have hci := find_crlf_lt _ _ hcr
      dsimp only
      by_cases hc0 : ci = 0
      · rw [if_pos hc0]
        by_cases hmh : p.keep_alive = true ∧ p.seen_host = false
        · rw [if_pos hmh]
          dsimp only
          rw [parse_headers_eq, show (bufApp p v).buffer = p.buffer ++ v from rfl,
                find_crlf_append _ _ _ hcr]
          dsimp only
          rw [if_pos hc0,
            show (bufApp p v).keep_alive = p.keep_alive from rfl,
            show (bufApp p v).seen_host = p.seen_host from rfl,
            if_pos hmh]
          exact ⟨_, rfl, rfl⟩
        · rw [if_neg hmh]
          by_cases hch : p.chunked = true
          · rw [if_pos hch]
            dsimp only
            rw [parse_headers_eq, show (bufApp p v).buffer = p.buffer ++ v from rfl,
                find_crlf_append _ _ _ hcr]
            dsimp only
            rw [if_pos hc0,
              show (bufApp p v).keep_alive = p.keep_alive from rfl,
              show (bufApp p v).seen_host = p.seen_host from rfl,
              if_neg hmh,
              show (bufApp p v).chunked = p.chunked from rfl,
              if_pos hch, Prod.mk.injEq]
            refine ⟨rfl, ?_⟩
            apply parser_ext <;> try rfl
            show (p.buffer ++ v).drop 2 = p.buffer.drop 2 ++ v
            exact drop_append_of_le 2 p.buffer v (by omega)
          · rw [if_neg hch]
            by_cases hcl : p.content_length > 0
            · rw [if_pos hcl]
              dsimp only
              rw [parse_headers_eq, show (bufApp p v).buffer = p.buffer ++ v from rfl,
                find_crlf_append _ _ _ hcr]
              dsimp only
              rw [if_pos hc0,
                show (bufApp p v).keep_alive = p.keep_alive from rfl,
                show (bufApp p v).seen_host = p.seen_host from rfl,
                if_neg hmh,
                show (bufApp p v).chunked = p.chunked from rfl,
                if_neg hch,
                show (bufApp p v).content_length = p.content_length from rfl,
                if_pos hcl, Prod.mk.injEq]
              refine ⟨rfl, ?_⟩
              apply parser_ext <;> try rfl
              show (p.buffer ++ v).drop 2 = p.buffer.drop 2 ++ v
              exact drop_append_of_le 2 p.buffer v (by omega)
            · rw [if_neg hcl]
              dsimp only
              rw [parse_headers_eq, show (bufApp p v).buffer = p.buffer ++ v from rfl,
                find_crlf_append _ _ _ hcr]
              dsimp only
              rw [if_pos hc0,
                show (bufApp p v).keep_alive = p.keep_alive from rfl,
                show (bufApp p v).seen_host = p.seen_host from rfl,
                if_neg hmh,
                show (bufApp p v).chunked = p.chunked from rfl,
                if_neg hch,
                show (bufApp p v).content_length = p.content_length from rfl,
                if_neg hcl, Prod.mk.injEq]
              refine ⟨rfl, ?_⟩
              apply parser_ext <;> try rfl
              show (p.buffer ++ v).drop 2 = p.buffer.drop 2 ++ v
              exact drop_append_of_le 2 p.buffer v (by omega)
      · rw [if_neg hc0]
        by_cases hlong : ci > MAX_HEADER_LINE_LEN
        · rw [if_pos hlong]
          dsimp only
          rw [parse_headers_eq, show (bufApp p v).buffer = p.buffer ++ v from rfl,
                find_crlf_append _ _ _ hcr]
          dsimp only
          rw [if_neg hc0, if_pos hlong]
          exact ⟨_, rfl, rfl⟩
        · rw [if_neg hlong]
          by_cases hcount : p.header_count ≥ MAX_HEADER_COUNT
          · rw [if_pos hcount]
            dsimp only
            rw [parse_headers_eq, show (bufApp p v).buffer = p.buffer ++ v from rfl,
                find_crlf_append _ _ _ hcr]
            dsimp only
            rw [if_neg hc0, if_neg hlong,
              show (bufApp p v).header_count = p.header_count from rfl,
              if_pos hcount]
            exact ⟨_, rfl, rfl⟩
          · rw [if_neg hcount]
            by_cases hphl : (parse_header_line p (p.buffer.take ci)).state = PState.ERROR
            · rw [if_pos hphl]
              dsimp only
              rw [parse_headers_eq, show (bufApp p v).buffer = p.buffer ++ v from rfl,
                find_crlf_append _ _ _ hcr]
              dsimp only
              rw [if_neg hc0, if_neg hlong,
                show (bufApp p v).header_count = p.header_count from rfl,
                if_neg hcount,
                take_append_of_le ci p.buffer v (by omega),
                parse_header_line_bufApp,
                if_pos (show (bufApp (parse_header_line p (p.buffer.take ci)) v).state
                  = PState.ERROR from hphl)]
              exact ⟨_, rfl, hphl⟩
            · rw [if_neg hphl]
              have hkey : parse_headers (bufApp p v) =
                  parse_headers (bufApp (parser_consume
                    { parse_header_line p (p.buffer.take ci) with
                        header_count := (parse_header_line p (p.buffer.take ci)).header_count + 1 }
                    (ci + 2)) v) := by
                rw [parse_headers_eq, show (bufApp p v).buffer = p.buffer ++ v from rfl,
                find_crlf_append _ _ _ hcr]
                dsimp only
                rw [if_neg hc0, if_neg hlong,
                  show (bufApp p v).header_count = p.header_count from rfl,
                  if_neg hcount,
                  take_append_of_le ci p.buffer v (by omega),
                  parse_header_line_bufApp,
                  if_neg (show ¬((bufApp (parse_header_line p (p.buffer.take ci)) v).state
                    = PState.ERROR) from hphl)]
                rw [show ({ bufApp (parse_header_line p (p.buffer.take ci)) v with
                    header_count :=
                      (bufApp (parse_header_line p (p.buffer.take ci)) v).header_count + 1 }
                    : Parser)
                  = bufApp { parse_header_line p (p.buffer.take ci) with
                      header_count :=
                        (parse_header_line p (p.buffer.take ci)).header_count + 1 } v from rfl]
                rw [parser_consume_bufApp _ v (ci + 2) (by
                  show ci + 2 ≤ (parse_header_line p (p.buffer.take ci)).buffer.length
                  rw [parse_header_line_buffer]
                  omega)]
              have hQ := ih (parser_consume
                  { parse_header_line p (p.buffer.take ci) with
                      header_count := (parse_header_line p (p.buffer.take ci)).header_count + 1 }
                  (ci + 2))
                (by
                  simp only [parser_consume, List.length_drop, parse_header_line_buffer]
                  omega) v
              rcases hres : parse_headers (parser_consume
                  { parse_header_line p (p.buffer.take ci) with
                      header_count := (parse_header_line p (p.buffer.take ci)).header_count + 1 }
                  (ci + 2)) with ⟨rq, q2⟩
              rw [hres] at hQ
              cases rq with
              | progress =>
                dsimp only at hQ ⊢
                rw [hkey, hQ]
              | incomplete =>
                dsimp only at hQ ⊢
                rw [hkey, hQ]
              | error =>
                dsimp only at hQ ⊢
                obtain ⟨q3, hq3, hs3⟩ := hQ
                exact ⟨q3, hkey.trans hq3, hs3⟩


theorem parse_header_line_state (p : Parser) (line : List Byte) :
    (parse_header_line p line).state = PState.ERROR ∨
    (parse_header_line p line).state = p.state := by
  unfold parse_header_line
  repeat' split
  all_goals first
    | exact Or.inl rfl
    | exact Or.inr rfl

theorem parse_headers_error_state (n : Nat) : ∀ p q, p.buffer.length < n →
    parse_headers p = (StepRes.error, q) → q.state = PState.ERROR := by
  induction n with
  | zero =>
    intro p q hn
    omega
  | succ n ih =>
    intro p q hn h
    rw [parse_headers_eq] at h
    rcases hcr : find_crlf p.buffer with _ | ci
    · rw [hcr] at h
      dsimp only at h
      split at h
      · cases h
        rfl
      · cases h
    · have hci := find_crlf_lt _ _ hcr
      rw [hcr] at h
      dsimp only at h
      split at h
      · split at h
        · cases h
          rfl
        · split at h
          · cases h
          · split at h
            · cases h
            · cases h
      · split at h
        · cases h
          rfl
        · split at h
          · cases h
            rfl
          · split at h
            · rename_i hphl
              cases h
              exact hphl
            · exact ih _ _ (by
                simp only [parser_consume, List.length_drop, parse_header_line_buffer]
                omega) h

theorem parse_headers_incomplete_state (n : Nat) : ∀ p q, p.buffer.length < n →
    parse_headers p = (StepRes.incomplete, q) → q.state = p.state := by
  induction n with
  | zero =>
    intro p q hn
    omega
  | succ n ih =>
    intro p q hn h
    rw [parse_headers_eq] at h
    rcases hcr : find_crlf p.buffer with _ | ci
    · rw [hcr] at h
      dsimp only at h
      split at h
      · cases h
      · cases h
        rfl
    · have hci := find_crlf_lt _ _ hcr
      rw [hcr] at h
      dsimp only at h
      split at h
      · split at h
        · cases h
        · split at h
          · cases h
          · split at h
            · cases h
            · cases h
      · split at h
        · cases h
        · split at h
          · cases h
          · split at h
            · cases h
            · rename_i hphl
              have h2 := ih _ _ (by
                simp only [parser_consume, List.length_drop, parse_header_line_buffer]
                omega) h
              rw [h2]
              show (parse_header_line p (p.buffer.take ci)).state = p.state
              rcases parse_header_line_state p (p.buffer.take ci) with h3 | h3
              · exact absurd h3 hphl
              · exact h3

theorem step_once_error_state (p q : Parser)
    (h : step_once p = (StepRes.error, q)) : q.state = PState.ERROR := by
  unfold step_once at h
  rcases hst : p.state with _ | _ | _ | _ | _ | _ | _ | _ | _
  all_goals rw [hst] at h
  all_goals dsimp only at h
  · unfold parse_request_line at h
    repeat' split at h
    all_goals cases h
    all_goals rfl
  · exact parse_headers_error_state (p.buffer.length + 1) p q (by omega) h
  · unfold parse_body_step at h
    repeat' split at h
    all_goals cases h
    rename_i herr
    exact herr
  · unfold parse_chunk_size at h
    repeat' split at h
    all_goals cases h
    rfl
  · unfold parse_chunk_data at h
    repeat' split at h
    all_goals cases h
    rename_i herr
    exact herr
  · unfold parse_chunk_crlf at h
    repeat' split at h
    all_goals cases h
    rfl
  · unfold parse_chunk_trailers at h
    repeat' split at h
    all_goals cases h
  · cases h
  · cases h

theorem step_once_incomplete (p q : Parser)
    (h : step_once p = (StepRes.incomplete, q)) :
    q.state = p.state ∧ (p.state ≠ PState.HEADERS → q = p) := by
  unfold step_once at h
  rcases hst : p.state with _ | _ | _ | _ | _ | _ | _ | _ | _
  all_goals rw [hst] at h
  all_goals dsimp only at h
  · unfold parse_request_line at h
    repeat' split at h
    all_goals cases h
    exact ⟨hst, fun _ => rfl⟩
  · exact ⟨(parse_headers_incomplete_state (p.buffer.length + 1) p q (by omega) h).trans hst,
      fun hne => absurd rfl hne⟩
  · unfold parse_body_step at h
    repeat' split at h
    all_goals cases h
    exact ⟨hst, fun _ => rfl⟩
  · unfold parse_chunk_size at h
    repeat' split at h
    all_goals cases h
    exact ⟨hst, fun _ => rfl⟩
  · unfold parse_chunk_data at h
    repeat' split at h
    all_goals cases h
    exact ⟨hst, fun _ => rfl⟩
  · unfold parse_chunk_crlf at h
    repeat' split at h
    all_goals cases h
    exact ⟨hst, fun _ => rfl⟩
  · unfold parse_chunk_trailers at h
    repeat' split at h
    all_goals cases h
    exact ⟨hst, fun _ => rfl⟩
  · cases h
    exact ⟨hst, fun _ => rfl⟩
  · cases h
    exact ⟨hst, fun _ => rfl⟩


theorem step_once_progress_append (p p' : Parser) (v : List Byte)
    (h : step_once p = (StepRes.progress, p'))
    (hstate : p.state = PState.REQUEST_LINE ∨ p.state = PState.HEADERS ∨
      p.state = PState.CHUNK_SIZE ∨ p.state = PState.CHUNK_CRLF ∨
      p.state = PState.CHUNK_TRAILERS) :
    step_once (bufApp p v) = (StepRes.progress, bufApp p' v) := by
  have hbs : (bufApp p v).state = p.state := rfl
  unfold step_once at h ⊢
  rcases hstate with hst | hst | hst | hst | hst
  all_goals rw [hst] at h
  all_goals rw [hbs, hst]
  all_goals dsimp only at h ⊢
  · exact parse_request_line_append p v _ p' h (by intro hx; cases hx)
  · have hQ := parse_headers_append_aux (p.buffer.length + 1) p (by omega) v
    rw [h] at hQ
    exact hQ
  · exact parse_chunk_size_append p v _ p' h (by intro hx; cases hx)
  · exact parse_chunk_crlf_append p v _ p' h (by intro hx; cases hx)
  · exact parse_chunk_trailers_append p v _ p' h (by intro hx; cases hx)

theorem body_to_copy_bufApp_ge (p : Parser) (v : List Byte) :
    body_to_copy p ≤ body_to_copy (bufApp p v) := by
  unfold body_to_copy
  rw [show (bufApp p v).buffer = p.buffer ++ v from rfl,
    show (bufApp p v).content_length = p.content_length from rfl,
    show (bufApp p v).body_received = p.body_received from rfl,
    List.length_append]
  omega

theorem chunk_to_copy_bufApp_ge (p : Parser) (v : List Byte) :
    chunk_to_copy p ≤ chunk_to_copy (bufApp p v) := by
  unfold chunk_to_copy
  rw [show (bufApp p v).buffer = p.buffer ++ v from rfl,
    show (bufApp p v).current_chunk_size = p.current_chunk_size from rfl,
    show (bufApp p v).current_chunk_received = p.current_chunk_received from rfl,
    List.length_append]
  omega

theorem step_once_error_append (p q : Parser) (v : List Byte)
    (h : step_once p = (StepRes.error, q)) :
    ∃ q2, step_once (bufApp p v) = (StepRes.error, q2) := by
  have hbs : (bufApp p v).state = p.state := rfl
  unfold step_once at h ⊢
  rcases hst : p.state with _ | _ | _ | _ | _ | _ | _ | _ | _
  all_goals rw [hst] at h
  all_goals rw [hbs, hst]
  all_goals dsimp only at h ⊢
  · exact ⟨bufApp q v, parse_request_line_append p v _ q h (by intro hx; cases hx)⟩
  · have hQ := parse_headers_append_aux (p.buffer.length + 1) p (by omega) v
    rw [h] at hQ
    dsimp only at hQ
    obtain ⟨q2, hq2, -⟩ := hQ
    exact ⟨q2, hq2⟩
  · unfold parse_body_step at h
    split at h
    · cases h
    · split at h
      · rename_i hne herr
        cases h
        have hcap : MAX_BODY_BYTES <
            p.body_received + (p.buffer.take (body_to_copy p)).length := by
          unfold append_body_data at herr
          split at herr
          · rename_i hc
            exact hc
          · have h2 : p.state = PState.ERROR := herr
            rw [hst] at h2
            cases h2
        have htl : (p.buffer.take (body_to_copy p)).length = body_to_copy p := by
          rw [List.length_take]
          unfold body_to_copy
          omega
        have hge := body_to_copy_bufApp_ge p v
        unfold parse_body_step
        rw [if_neg (by omega : ¬(body_to_copy (bufApp p v) = 0))]
        have herr2 : (append_body_data (bufApp p v)
            ((bufApp p v).buffer.take (body_to_copy (bufApp p v)))).state
            = PState.ERROR := by
          unfold append_body_data
          rw [if_pos (by
            rw [show (bufApp p v).body_received = p.body_received from rfl,
              List.length_take]
            have hb2 : body_to_copy (bufApp p v) ≤ (bufApp p v).buffer.length := by
              unfold body_to_copy
              omega
            omega)]
          rfl
        rw [if_pos herr2]
        exact ⟨_, rfl⟩
      · split at h
        · cases h
        · cases h
  · exact ⟨bufApp q v, parse_chunk_size_append p v _ q h (by intro hx; cases hx)⟩
  · unfold parse_chunk_data at h
    split at h
    · cases h
    · split at h
      · cases h
      · split at h
        · rename_i hne0 hne herr
          cases h
          have hcap : MAX_BODY_BYTES <
              p.body_received + (p.buffer.take (chunk_to_copy p)).length := by
            unfold append_body_data at herr
            split at herr
            · rename_i hc
              exact hc
            · have h2 : p.state = PState.ERROR := herr
              rw [hst] at h2
              cases h2
          have htl : (p.buffer.take (chunk_to_copy p)).length = chunk_to_copy p := by
            rw [List.length_take]
            unfold chunk_to_copy
            omega
          have hge := chunk_to_copy_bufApp_ge p v
          unfold parse_chunk_data
          rw [if_neg (show ¬((bufApp p v).current_chunk_size
              - (bufApp p v).current_chunk_received = 0) from hne0)]
          rw [if_neg (by omega : ¬(chunk_to_copy (bufApp p v) = 0))]
          have herr2 : (append_body_data (bufApp p v)
              ((bufApp p v).buffer.take (chunk_to_copy (bufApp p v)))).state
              = PState.ERROR := by
            unfold append_body_data
            rw [if_pos (by
              rw [show (bufApp p v).body_received = p.body_received from rfl,
                List.length_take]
              have hb2 : chunk_to_copy (bufApp p v) ≤ (bufApp p v).buffer.length := by
                unfold chunk_to_copy
                omega
              omega)]
            rfl
          rw [if_pos herr2]
          exact ⟨_, rfl⟩
        · split at h
          · cases h
          · cases h
  · exact ⟨bufApp q v, parse_chunk_crlf_append p v _ q h (by intro hx; cases hx)⟩
  · exact ⟨bufApp q v, parse_chunk_trailers_append p v _ q h (by intro hx; cases hx)⟩
  · cases h
  · cases h


theorem parse_headers_buffer_le (n : Nat) : ∀ p r q, p.buffer.length < n →
    parse_headers p = (r, q) → q.buffer.length ≤ p.buffer.length := by
  induction n with
  | zero =>
    intro p r q hn
    omega
  | succ n ih =>
    intro p r q hn h
    rw [parse_headers_eq] at h
    rcases hcr : find_crlf p.buffer with _ | ci
    · rw [hcr] at h
      dsimp only at h
      split at h
      · cases h
        exact Nat.le_refl _
      · cases h
        exact Nat.le_refl _
    · have hci := find_crlf_lt _ _ hcr
      rw [hcr] at h
      dsimp only at h
      split at h
      · split at h
        · cases h
          simp only [setError, parser_consume, List.length_drop]
          omega
        · split at h
          · cases h
            simp only [parser_consume, List.length_drop]
            omega
          · split at h
            · cases h
              simp only [parser_consume, List.length_drop]
              omega
            · cases h
              simp only [parser_consume, List.length_drop]
              omega
      · split at h
        · cases h
          exact Nat.le_refl _
        · split at h
          · cases h
            exact Nat.le_refl _
          · split at h
            · cases h
              rw [parse_header_line_buffer]
            · have h2 := ih _ _ _ (by
                simp only [parser_consume, List.length_drop, parse_header_line_buffer]
                omega) h
              simp only [parser_consume, List.length_drop, parse_header_line_buffer] at h2
              omega

theorem step_once_buffer_le (p : Parser) (r : StepRes) (q : Parser)
    (h : step_once p = (r, q)) : q.buffer.length ≤ p.buffer.length := by
  unfold step_once at h
  rcases hst : p.state with _ | _ | _ | _ | _ | _ | _ | _ | _
  all_goals rw [hst] at h
  all_goals dsimp only at h
  · unfold parse_request_line at h
    repeat' split at h
    all_goals cases h
    all_goals first
      | omega
      | (simp only [setError, withMethod, withReqLine, parser_consume, List.length_drop]
         omega)
  · exact parse_headers_buffer_le (p.buffer.length + 1) p r q (by omega) h
  · unfold parse_body_step bodyConsumed at h
    repeat' split at h
    all_goals cases h
    all_goals first
      | omega
      | (simp only [setError, parser_consume, List.length_drop, append_body_data_buffer]
         omega)
  · unfold parse_chunk_size at h
    repeat' split at h
    all_goals cases h
    all_goals first
      | omega
      | (simp only [setError, parser_consume, List.length_drop]
         omega)
  · unfold parse_chunk_data chunkConsumed at h
    repeat' split at h
    all_goals cases h
    all_goals first
      | omega
      | (simp only [setError, parser_consume, List.length_drop, append_body_data_buffer]
         omega)
  · unfold parse_chunk_crlf at h
    repeat' split at h
    all_goals cases h
    all_goals first
      | omega
      | (simp only [setError, parser_consume, List.length_drop]
         omega)
  · unfold parse_chunk_trailers at h
    repeat' split at h
    all_goals cases h
    all_goals first
      | omega
      | (simp only [parser_consume, List.length_drop]
         omega)
  · cases h
    exact Nat.le_refl _
  · cases h
    exact Nat.le_refl _

theorem exec_loop_buffer_le_aux (n : Nat) : ∀ p, pMeasure p < n →
    (exec_loop p).buffer.length ≤ p.buffer.length := by
  induction n with
  | zero =>
    intro p hn
    omega
  | succ n ih =>
    intro p hn
    rw [exec_loop_eq]
    split
    · exact Nat.le_refl _
    · rename_i hterm
      rcases hs : step_once p with ⟨r, q⟩
      have hble := step_once_buffer_le p r q hs
      cases r with
      | progress =>
        have hm := step_once_progress_measure p q hs
        exact Nat.le_trans (ih q (by omega)) hble
      | incomplete => exact hble
      | error => exact hble

theorem exec_loop_buffer_le (p : Parser) :
    (exec_loop p).buffer.length ≤ p.buffer.length :=
  exec_loop_buffer_le_aux (pMeasure p + 1) p (by omega)


theorem append_body_data_ok (X : Parser) (d : List Byte)
    (hcap : ¬(MAX_BODY_BYTES < X.body_received + d.length)) :
    append_body_data X d =
      { X with
          req := { X.req with
            body := X.req.body ++ d
            body_length := X.body_received + d.length }
          body_received := X.body_received + d.length } := by
  unfold append_body_data
  rw [if_neg hcap]

theorem append_body_data_state_ok (X : Parser) (d : List Byte)
    (hcap : ¬(MAX_BODY_BYTES < X.body_received + d.length)) :
    (append_body_data X d).state = X.state := by
  rw [append_body_data_ok X d hcap]

theorem bodyConsumed_eq (X : Parser)
    (hcap : ¬(MAX_BODY_BYTES < X.body_received + (X.buffer.take (body_to_copy X)).length)) :
    bodyConsumed X =
      { X with
          req := { X.req with
            body := X.req.body ++ X.buffer.take (body_to_copy X)
            body_length := X.body_received + (X.buffer.take (body_to_copy X)).length }
          body_received := X.body_received + (X.buffer.take (body_to_copy X)).length
          buffer := X.buffer.drop (body_to_copy X) } := by
  unfold bodyConsumed
  rw [append_body_data_ok X _ hcap]
  apply parser_ext <;> rfl

theorem chunkConsumed_eq (X : Parser)
    (hcap : ¬(MAX_BODY_BYTES < X.body_received + (X.buffer.take (chunk_to_copy X)).length)) :
    chunkConsumed X =
      { X with
          req := { X.req with
            body := X.req.body ++ X.buffer.take (chunk_to_copy X)
            body_length := X.body_received + (X.buffer.take (chunk_to_copy X)).length }
          body_received := X.body_received + (X.buffer.take (chunk_to_copy X)).length
          buffer := X.buffer.drop (chunk_to_copy X)
          current_chunk_received := X.current_chunk_received + chunk_to_copy X } := by
  unfold chunkConsumed
  rw [append_body_data_ok X _ hcap]
  apply parser_ext <;> rfl

theorem parse_body_step_append_exact (p p1 : Parser) (v : List Byte)
    (hfull : p.content_length - p.body_received ≤ p.buffer.length)
    (h : parse_body_step p = (StepRes.progress, p1)) :
    parse_body_step (bufApp p v) = (StepRes.progress, bufApp p1 v) := by
  have htc : body_to_copy (bufApp p v) = body_to_copy p := by
    unfold body_to_copy
    rw [show (bufApp p v).buffer = p.buffer ++ v from rfl,
      show (bufApp p v).content_length = p.content_length from rfl,
      show (bufApp p v).body_received = p.body_received from rfl,
      List.length_append]
    omega
  have htcle : body_to_copy p ≤ p.buffer.length := by
    unfold body_to_copy
    omega
  have hbc : bodyConsumed (bufApp p v) = bufApp (bodyConsumed p) v := by
    unfold bodyConsumed
    rw [htc, show (bufApp p v).buffer = p.buffer ++ v from rfl,
      take_append_of_le (body_to_copy p) p.buffer v htcle,
      append_body_data_bufApp,
      parser_consume_bufApp _ v (body_to_copy p) (by rw [append_body_data_buffer]; exact htcle)]
  unfold parse_body_step at h ⊢
  rw [htc, show (bufApp p v).buffer = p.buffer ++ v from rfl,
    take_append_of_le (body_to_copy p) p.buffer v htcle,
    append_body_data_bufApp, hbc]
  split at h
  · cases h
  · rename_i hne
    rw [if_neg hne]
    split at h
    · cases h
    · rename_i herr
      rw [if_neg (show ¬((bufApp (append_body_data p (p.buffer.take (body_to_copy p))) v).state
        = PState.ERROR) from herr)]
      split at h
      · rename_i hdone
        cases h
        rw [if_pos (show (bufApp (bodyConsumed p) v).body_received
          = (bufApp (bodyConsumed p) v).content_length from hdone)]
        rfl
      · rename_i hdone
        cases h
        rw [if_neg (show ¬((bufApp (bodyConsumed p) v).body_received
          = (bufApp (bodyConsumed p) v).content_length) from hdone)]

theorem parse_chunk_data_append_exact (p p1 : Parser) (v : List Byte)
    (hfull : p.current_chunk_size - p.current_chunk_received ≤ p.buffer.length)
    (h : parse_chunk_data p = (StepRes.progress, p1)) :
    parse_chunk_data (bufApp p v) = (StepRes.progress, bufApp p1 v) := by
  have htc : chunk_to_copy (bufApp p v) = chunk_to_copy p := by
    unfold chunk_to_copy
    rw [show (bufApp p v).buffer = p.buffer ++ v from rfl,
      show (bufApp p v).current_chunk_size = p.current_chunk_size from rfl,
      show (bufApp p v).current_chunk_received = p.current_chunk_received from rfl,
      List.length_append]
    omega
  have htcle : chunk_to_copy p ≤ p.buffer.length := by
    unfold chunk_to_copy
    omega
  have hbc : chunkConsumed (bufApp p v) = bufApp (chunkConsumed p) v := by
    unfold chunkConsumed
    rw [htc, show (bufApp p v).buffer = p.buffer ++ v from rfl,
      take_append_of_le (chunk_to_copy p) p.buffer v htcle,
      append_body_data_bufApp,
      parser_consume_bufApp _ v (chunk_to_copy p) (by rw [append_body_data_buffer]; exact htcle)]
    apply parser_ext <;> rfl
  unfold parse_chunk_data at h ⊢
  rw [htc, show (bufApp p v).buffer = p.buffer ++ v from rfl,
    take_append_of_le (chunk_to_copy p) p.buffer v htcle,
    append_body_data_bufApp, hbc]
  split at h
  · rename_i hz
    cases h
    rw [if_pos (show (bufApp p v).current_chunk_size
      - (bufApp p v).current_chunk_received = 0 from hz)]
    rfl
  · rename_i hz
    rw [if_neg (show ¬((bufApp p v).current_chunk_size
      - (bufApp p v).current_chunk_received = 0) from hz)]
    split at h
    · cases h
    · rename_i hne
      rw [if_neg hne]
      split at h
      · cases h
      · rename_i herr
        rw [if_neg (show ¬((bufApp (append_body_data p (p.buffer.take (chunk_to_copy p))) v).state
          = PState.ERROR) from herr)]
        split at h
        · rename_i hdone
          cases h
          rw [if_pos (show (bufApp (chunkConsumed p) v).current_chunk_received
            = (bufApp (chunkConsumed p) v).current_chunk_size from hdone)]
          rfl
        · rename_i hdone
          cases h
          rw [if_neg (show ¬((bufApp (chunkConsumed p) v).current_chunk_received
            = (bufApp (chunkConsumed p) v).current_chunk_size) from hdone)]


theorem request_ext (a b : Request)
    (h1 : a.method = b.method) (h2 : a.path = b.path)
    (h3 : a.query_string = b.query_string) (h4 : a.headers = b.headers)
    (h5 : a.body = b.body) (h6 : a.body_length = b.body_length) : a = b := by
  cases a
  cases b
  simp_all

set_option maxHeartbeats 1000000 in
theorem exec_body_stall_append (p p1 : Parser) (v w : List Byte)
    (hst : p.state = PState.BODY)
    (h : step_once p = (StepRes.progress, p1))
    (hfull : ¬(p.content_length - p.body_received ≤ p.buffer.length))
    (hC : (exec_loop (bufApp p (v ++ w))).state = PState.COMPLETE) :
    exec_loop p = p1 ∧ exec_loop (bufApp p1 v) = exec_loop (bufApp p v) := by
  have hterm : ¬(p.state = PState.ERROR ∨ p.state = PState.COMPLETE) := by
    rw [hst]
    intro hx
    rcases hx with hx | hx <;> cases hx
  have hbody : parse_body_step p = (StepRes.progress, p1) := by
    unfold step_once at h
    rw [hst] at h
    exact h
  unfold parse_body_step at hbody
  split at hbody
  · cases hbody
  rename_i htc0
  split at hbody
  · cases hbody
  rename_i herr
  have hcapP : ¬(MAX_BODY_BYTES < p.body_received + (p.buffer.take (body_to_copy p)).length) := by
    intro hx
    apply herr
    unfold append_body_data
    rw [if_pos hx]
    rfl
  have htcL : body_to_copy p = p.buffer.length := by
    unfold body_to_copy
    omega
  have htakeLen : (p.buffer.take (body_to_copy p)).length = body_to_copy p := by
    rw [List.length_take]
    omega
  split at hbody
  · rename_i hdone
    exfalso
    rw [bodyConsumed_eq p hcapP] at hdone
    have hd2 : p.body_received + (p.buffer.take (body_to_copy p)).length = p.content_length :=
      hdone
    rw [htakeLen, htcL] at hd2
    omega
  rename_i hdone
  cases hbody
  have hbcfields := bodyConsumed_eq p hcapP
  have hfbuf : (bodyConsumed p).buffer = [] := by
    rw [hbcfields]
    show p.buffer.drop (body_to_copy p) = []
    rw [htcL]
    exact List.drop_length p.buffer
  have hfstate : (bodyConsumed p).state = PState.BODY := by
    rw [hbcfields]
    exact hst
  have hfbr : (bodyConsumed p).body_received = p.body_received + p.buffer.length := by
    rw [hbcfields]
    show p.body_received + (p.buffer.take (body_to_copy p)).length = _
    rw [htakeLen, htcL]
  have hfcl : (bodyConsumed p).content_length = p.content_length := by
    rw [hbcfields]
  have hftb : (bodyConsumed p).total_bytes = p.total_bytes := by
    rw [hbcfields]
  have hfbody : (bodyConsumed p).req.body = p.req.body ++ p.buffer := by
    rw [hbcfields]
    show p.req.body ++ p.buffer.take (body_to_copy p) = _
    rw [htcL, List.take_length]
  have hterm2 : ¬((bodyConsumed p).state = PState.ERROR ∨
      (bodyConsumed p).state = PState.COMPLETE) := by
    rw [hfstate]
    intro hx
    rcases hx with hx | hx <;> cases hx
  have hstall : step_once (bodyConsumed p) = (StepRes.incomplete, bodyConsumed p) := by
    unfold step_once
    rw [hfstate]
    dsimp only
    unfold parse_body_step
    rw [if_pos (show body_to_copy (bodyConsumed p) = 0 from by
      unfold body_to_copy
      rw [hfbuf, List.length_nil]
      omega)]
  have hpstep : step_once p = (StepRes.progress, bodyConsumed p) := by
    unfold step_once
    rw [hst]
    dsimp only
    unfold parse_body_step
    rw [if_neg htc0, if_neg herr, if_neg hdone]
  have hexecp : exec_loop p = bodyConsumed p := by
    rw [exec_loop_progress p (bodyConsumed p) hterm hpstep]
    exact exec_loop_stall (bodyConsumed p) (bodyConsumed p) hterm2 hstall
  refine ⟨hexecp, ?_⟩
  by_cases hv : v = []
  · subst hv
    rw [bufApp_nil, bufApp_nil, hexecp]
    exact exec_loop_stall (bodyConsumed p) (bodyConsumed p) hterm2 hstall
  · have hvpos : 0 < v.length := List.length_pos.mpr hv
    have hbufL : (bufApp (bodyConsumed p) v).buffer = v := by
      show (bodyConsumed p).buffer ++ v = v
      rw [hfbuf]
      rfl
    have htR : body_to_copy (bufApp p v)
        = p.buffer.length + body_to_copy (bufApp (bodyConsumed p) v) := by
      unfold body_to_copy
      rw [show (bufApp p v).buffer = p.buffer ++ v from rfl, List.length_append,
        show (bufApp p v).content_length = p.content_length from rfl,
        show (bufApp p v).body_received = p.body_received from rfl,
        show (bufApp (bodyConsumed p) v).content_length = (bodyConsumed p).content_length
          from rfl,
        show (bufApp (bodyConsumed p) v).body_received = (bodyConsumed p).body_received
          from rfl,
        show (bufApp (bodyConsumed p) v).buffer = (bodyConsumed p).buffer ++ v from rfl,
        hfbuf, List.nil_append, hfcl, hfbr]
      omega
    have htRle : body_to_copy (bufApp p v) ≤ (bufApp p v).buffer.length := by
      unfold body_to_copy
      omega
    have htRlen : (bufApp p v).buffer.length = p.buffer.length + v.length := by
      show (p.buffer ++ v).length = _
      rw [List.length_append]
    have htakeR : ((bufApp p v).buffer.take (body_to_copy (bufApp p v))).length
        = body_to_copy (bufApp p v) := by
      rw [List.length_take]
      omega
    have htRpos : 0 < body_to_copy (bufApp p v) := by
      have : body_to_copy (bufApp p v) = min (p.buffer.length + v.length)
          (p.content_length - p.body_received) := by
        unfold body_to_copy
        rw [show (bufApp p v).buffer = p.buffer ++ v from rfl, List.length_append]
        rfl
      omega
    by_cases hcapR : MAX_BODY_BYTES < p.body_received + body_to_copy (bufApp p v)
    · exfalso
      have herrR : (append_body_data (bufApp p v)
          ((bufApp p v).buffer.take (body_to_copy (bufApp p v)))).state = PState.ERROR := by
        unfold append_body_data
        rw [if_pos (by
          rw [show (bufApp p v).body_received = p.body_received from rfl, htakeR]
          exact hcapR)]
        rfl
      have hstepR : step_once (bufApp p v) = (StepRes.error,
          append_body_data (bufApp p v)
            ((bufApp p v).buffer.take (body_to_copy (bufApp p v)))) := by
        unfold step_once
        rw [show (bufApp p v).state = p.state from rfl, hst]
        dsimp only
        unfold parse_body_step
        rw [if_neg (by omega : ¬(body_to_copy (bufApp p v) = 0)), if_pos herrR]
      obtain ⟨q2, hq2⟩ := step_once_error_append (bufApp p v) _ w hstepR
      rw [bufApp_bufApp] at hq2
      have hq2s := step_once_error_state _ _ hq2
      rw [exec_loop_err (bufApp p (v ++ w)) q2 (by
        rw [show (bufApp p (v ++ w)).state = p.state from rfl, hst]
        intro hx
        rcases hx with hx | hx <;> cases hx) hq2] at hC
      rw [hq2s] at hC
      cases hC
    · have htLle : body_to_copy (bufApp (bodyConsumed p) v)
          ≤ (bufApp (bodyConsumed p) v).buffer.length := by
        unfold body_to_copy
        omega
      have htLlen : (bufApp (bodyConsumed p) v).buffer.length = v.length := by
        rw [hbufL]
      have htakeL : ((bufApp (bodyConsumed p) v).buffer.take
          (body_to_copy (bufApp (bodyConsumed p) v))).length
          = body_to_copy (bufApp (bodyConsumed p) v) := by
        rw [List.length_take]
        omega
      have hcapR2 : ¬(MAX_BODY_BYTES < (bufApp p v).body_received +
          ((bufApp p v).buffer.take (body_to_copy (bufApp p v))).length) := by
        rw [show (bufApp p v).body_received = p.body_received from rfl, htakeR]
        exact hcapR
      have hcapL2 : ¬(MAX_BODY_BYTES < (bufApp (bodyConsumed p) v).body_received +
          ((bufApp (bodyConsumed p) v).buffer.take
            (body_to_copy (bufApp (bodyConsumed p) v))).length) := by
        rw [show (bufApp (bodyConsumed p) v).body_received = (bodyConsumed p).body_received
          from rfl, htakeL, hfbr]
        omega
      have hbceq : bodyConsumed (bufApp p v) = bodyConsumed (bufApp (bodyConsumed p) v) := by
        rw [bodyConsumed_eq _ hcapR2, bodyConsumed_eq _ hcapL2]
        apply parser_ext
        · show p.state = (bodyConsumed p).state
          rw [hfstate, hst]
        · apply request_ext
          · show p.req.method = (bodyConsumed p).req.method
            rw [hbcfields]
          · show p.req.path = (bodyConsumed p).req.path
            rw [hbcfields]
          · show p.req.query_string = (bodyConsumed p).req.query_string
            rw [hbcfields]
          · show p.req.headers = (bodyConsumed p).req.headers
            rw [hbcfields]
          · show p.req.body ++ (p.buffer ++ v).take (body_to_copy (bufApp p v))
              = (bodyConsumed p).req.body ++
                ((bodyConsumed p).buffer ++ v).take (body_to_copy (bufApp (bodyConsumed p) v))
            rw [hfbody, hfbuf, List.nil_append, List.take_append_eq_append_take,
              List.take_of_length_le (by omega :
                p.buffer.length ≤ body_to_copy (bufApp p v)),
              show body_to_copy (bufApp p v) - p.buffer.length
                = body_to_copy (bufApp (bodyConsumed p) v) from by omega,
              List.append_assoc]
          · rw [htakeR, htakeL]
            show p.body_received + body_to_copy (bufApp p v)
              = (bodyConsumed p).body_received + body_to_copy (bufApp (bodyConsumed p) v)
            rw [hfbr, htR]
            omega
        · show (p.buffer ++ v).drop (body_to_copy (bufApp p v))
            = ((bodyConsumed p).buffer ++ v).drop (body_to_copy (bufApp (bodyConsumed p) v))
          rw [hfbuf, List.nil_append, List.drop_append_eq_append_drop,
            List.drop_eq_nil_of_le (by omega :
              p.buffer.length ≤ body_to_copy (bufApp p v)),
            show body_to_copy (bufApp p v) - p.buffer.length
              = body_to_copy (bufApp (bodyConsumed p) v) from by omega,
            List.nil_append]
        · show (bufApp p v).total_bytes = (bufApp (bodyConsumed p) v).total_bytes
          show p.total_bytes + v.length = (bodyConsumed p).total_bytes + v.length
          rw [hftb]
        · show p.header_count = (bodyConsumed p).header_count
          rw [hbcfields]
        · show p.content_length = (bodyConsumed p).content_length
          rw [hfcl]
        · rw [htakeR, htakeL]
          show p.body_received + body_to_copy (bufApp p v)
            = (bodyConsumed p).body_received + body_to_copy (bufApp (bodyConsumed p) v)
          rw [hfbr, htR]
          omega
        · show p.chunked = (bodyConsumed p).chunked
          rw [hbcfields]
        · show p.current_chunk_size = (bodyConsumed p).current_chunk_size
          rw [hbcfields]
        · show p.current_chunk_received = (bodyConsumed p).current_chunk_received
          rw [hbcfields]
        · show p.keep_alive = (bodyConsumed p).keep_alive
          rw [hbcfields]
        · show p.seen_host = (bodyConsumed p).seen_host
          rw [hbcfields]
        · show p.error_status = (bodyConsumed p).error_status
          rw [hbcfields]
        · show p.error_message = (bodyConsumed p).error_message
          rw [hbcfields]
      have herrRok : ¬((append_body_data (bufApp p v)
          ((bufApp p v).buffer.take (body_to_copy (bufApp p v)))).state = PState.ERROR) := by
        rw [append_body_data_state_ok _ _ hcapR2,
          show (bufApp p v).state = p.state from rfl, hst]
        intro hx
        cases hx
      have herrLok : ¬((append_body_data (bufApp (bodyConsumed p) v)
          ((bufApp (bodyConsumed p) v).buffer.take
            (body_to_copy (bufApp (bodyConsumed p) v)))).state = PState.ERROR) := by
        rw [append_body_data_state_ok _ _ hcapL2,
          show (bufApp (bodyConsumed p) v).state = (bodyConsumed p).state from rfl, hfstate]
        intro hx
        cases hx
      have htLpos : 0 < body_to_copy (bufApp (bodyConsumed p) v) := by
        have : body_to_copy (bufApp (bodyConsumed p) v) = min v.length
            ((bodyConsumed p).content_length - (bodyConsumed p).body_received) := by
          unfold body_to_copy
          rw [show (bufApp (bodyConsumed p) v).buffer = (bodyConsumed p).buffer ++ v from rfl,
            hfbuf, List.nil_append]
          rfl
        rw [hfcl, hfbr] at this
        omega
      have hL1 : ¬((bufApp p v).state = PState.ERROR ∨ (bufApp p v).state = PState.COMPLETE) := by
        rw [show (bufApp p v).state = p.state from rfl, hst]
        intro hx
        rcases hx with hx | hx <;> cases hx
      have hL2 : ¬((bufApp (bodyConsumed p) v).state = PState.ERROR ∨
          (bufApp (bodyConsumed p) v).state = PState.COMPLETE) := by
        rw [show (bufApp (bodyConsumed p) v).state = (bodyConsumed p).state from rfl, hfstate]
        intro hx
        rcases hx with hx | hx <;> cases hx
      by_cases hdoneR : (bodyConsumed (bufApp p v)).body_received
          = (bodyConsumed (bufApp p v)).content_length
      · have hdoneL : (bodyConsumed (bufApp (bodyConsumed p) v)).body_received
            = (bodyConsumed (bufApp (bodyConsumed p) v)).content_length := by
          rw [← hbceq]
          exact hdoneR
        have hsR : step_once (bufApp p v) = (StepRes.progress,
            { bodyConsumed (bufApp p v) with
                state := PState.COMPLETE
                req := { (bodyConsumed (bufApp p v)).req with
                  body_length := (bodyConsumed (bufApp p v)).body_received } }) := by
          unfold step_once
          rw [show (bufApp p v).state = p.state from rfl, hst]
          dsimp only
          unfold parse_body_step
          rw [if_neg (by omega : ¬(body_to_copy (bufApp p v) = 0)), if_neg herrRok,
            if_pos hdoneR]
        have hsL : step_once (bufApp (bodyConsumed p) v) = (StepRes.progress,
            { bodyConsumed (bufApp (bodyConsumed p) v) with
                state := PState.COMPLETE
                req := { (bodyConsumed (bufApp (bodyConsumed p) v)).req with
                  body_length := (bodyConsumed (bufApp (bodyConsumed p) v)).body_received } }) := by
          unfold step_once
          rw [show (bufApp (bodyConsumed p) v).state = (bodyConsumed p).state from rfl, hfstate]
          dsimp only
          unfold parse_body_step
          rw [if_neg (by omega : ¬(body_to_copy (bufApp (bodyConsumed p) v) = 0)),
            if_neg herrLok, if_pos hdoneL]
        rw [exec_loop_progress _ _ hL1 hsR, exec_loop_progress _ _ hL2 hsL, hbceq]
      · have hdoneL : ¬((bodyConsumed (bufApp (bodyConsumed p) v)).body_received
            = (bodyConsumed (bufApp (bodyConsumed p) v)).content_length) := by
          rw [← hbceq]
          exact hdoneR
        have hsR : step_once (bufApp p v)
            = (StepRes.progress, bodyConsumed (bufApp p v)) := by
          unfold step_once
          rw [show (bufApp p v).state = p.state from rfl, hst]
          dsimp only
          unfold parse_body_step
          rw [if_neg (by omega : ¬(body_to_copy (bufApp p v) = 0)), if_neg herrRok,
            if_neg hdoneR]
        have hsL : step_once (bufApp (bodyConsumed p) v)
            = (StepRes.progress, bodyConsumed (bufApp (bodyConsumed p) v)) := by
          unfold step_once
          rw [show (bufApp (bodyConsumed p) v).state = (bodyConsumed p).state from rfl, hfstate]
          dsimp only
          unfold parse_body_step
          rw [if_neg (by omega : ¬(body_to_copy (bufApp (bodyConsumed p) v) = 0)),
            if_neg herrLok, if_neg hdoneL]
        rw [exec_loop_progress _ _ hL1 hsR, exec_loop_progress _ _ hL2 hsL, hbceq]


set_option maxHeartbeats 1000000 in
theorem exec_chunk_stall_append (p p1 : Parser) (v w : List Byte)
    (hst : p.state = PState.CHUNK_DATA)
    (h : step_once p = (StepRes.progress, p1))
    (hfull : ¬(p.current_chunk_size - p.current_chunk_received ≤ p.buffer.length))
    (hC : (exec_loop (bufApp p (v ++ w))).state = PState.COMPLETE) :
    exec_loop p = p1 ∧ exec_loop (bufApp p1 v) = exec_loop (bufApp p v) := by
  have hterm : ¬(p.state = PState.ERROR ∨ p.state = PState.COMPLETE) := by
    rw [hst]
    intro hx
    rcases hx with hx | hx <;> cases hx
  have hbody : parse_chunk_data p = (StepRes.progress, p1) := by
    unfold step_once at h
    rw [hst] at h
    exact h
  unfold parse_chunk_data at hbody
  split at hbody
  · rename_i hz
    exfalso
    omega
  rename_i hz
  split at hbody
  · cases hbody
  rename_i htc0
  split at hbody
  · cases hbody
  rename_i herr
  have hcapP : ¬(MAX_BODY_BYTES < p.body_received + (p.buffer.take (chunk_to_copy p)).length) := by
    intro hx
    apply herr
    unfold append_body_data
    rw [if_pos hx]
    rfl
  have htcL : chunk_to_copy p = p.buffer.length := by
    unfold chunk_to_copy
    omega
  have htakeLen : (p.buffer.take (chunk_to_copy p)).length = chunk_to_copy p := by
    rw [List.length_take]
    omega
  split at hbody
  · rename_i hdone
    exfalso
    rw [chunkConsumed_eq p hcapP] at hdone
    have hd2 : p.current_chunk_received + chunk_to_copy p = p.current_chunk_size := hdone
    rw [htcL] at hd2
    omega
  rename_i hdone
  cases hbody
  have hbcfields := chunkConsumed_eq p hcapP
  have hfbuf : (chunkConsumed p).buffer = [] := by
    rw [hbcfields]
    show p.buffer.drop (chunk_to_copy p) = []
    rw [htcL]
    exact List.drop_length p.buffer
  have hfstate : (chunkConsumed p).state = PState.CHUNK_DATA := by
    rw [hbcfields]
    exact hst
  have hfbr : (chunkConsumed p).body_received = p.body_received + p.buffer.length := by
    rw [hbcfields]
    show p.body_received + (p.buffer.take (chunk_to_copy p)).length = _
    rw [htakeLen, htcL]
  have hfcr : (chunkConsumed p).current_chunk_received
      = p.current_chunk_received + p.buffer.length := by
    rw [hbcfields]
    show p.current_chunk_received + chunk_to_copy p = _
    rw [htcL]
  have hfcs : (chunkConsumed p).current_chunk_size = p.current_chunk_size := by
    rw [hbcfields]
  have hftb : (chunkConsumed p).total_bytes = p.total_bytes := by
    rw [hbcfields]
  have hfbody : (chunkConsumed p).req.body = p.req.body ++ p.buffer := by
    rw [hbcfields]
    show p.req.body ++ p.buffer.take (chunk_to_copy p) = _
    rw [htcL, List.take_length]
  have hterm2 : ¬((chunkConsumed p).state = PState.ERROR ∨
      (chunkConsumed p).state = PState.COMPLETE) := by
    rw [hfstate]
    intro hx
    rcases hx with hx | hx <;> cases hx
  have hstall : step_once (chunkConsumed p) = (StepRes.incomplete, chunkConsumed p) := by
    unfold step_once
    rw [hfstate]
    dsimp only
    unfold parse_chunk_data
    rw [if_neg (show ¬((chunkConsumed p).current_chunk_size
        - (chunkConsumed p).current_chunk_received = 0) from by
      rw [hfcs, hfcr]
      omega)]
    rw [if_pos (show chunk_to_copy (chunkConsumed p) = 0 from by
      unfold chunk_to_copy
      rw [hfbuf, List.length_nil]
      omega)]
  have hpstep : step_once p = (StepRes.progress, chunkConsumed p) := by
    unfold step_once
    rw [hst]
    dsimp only
    unfold parse_chunk_data
    rw [if_neg hz, if_neg htc0, if_neg herr, if_neg hdone]
  have hexecp : exec_loop p = chunkConsumed p := by
    rw [exec_loop_progress p (chunkConsumed p) hterm hpstep]
    exact exec_loop_stall (chunkConsumed p) (chunkConsumed p) hterm2 hstall
  refine ⟨hexecp, ?_⟩
  by_cases hv : v = []
  · subst hv
    rw [bufApp_nil, bufApp_nil, hexecp]
    exact exec_loop_stall (chunkConsumed p) (chunkConsumed p) hterm2 hstall
  · have hvpos : 0 < v.length := List.length_pos.mpr hv
    have hbufL : (bufApp (chunkConsumed p) v).buffer = v := by
      show (chunkConsumed p).buffer ++ v = v
      rw [hfbuf]
      rfl
    have htR : chunk_to_copy (bufApp p v)
        = p.buffer.length + chunk_to_copy (bufApp (chunkConsumed p) v) := by
      unfold chunk_to_copy
      rw [show (bufApp p v).buffer = p.buffer ++ v from rfl, List.length_append,
        show (bufApp p v).current_chunk_size = p.current_chunk_size from rfl,
        show (bufApp p v).current_chunk_received = p.current_chunk_received from rfl,
        show (bufApp (chunkConsumed p) v).current_chunk_size
          = (chunkConsumed p).current_chunk_size from rfl,
        show (bufApp (chunkConsumed p) v).current_chunk_received
          = (chunkConsumed p).current_chunk_received from rfl,
        show (bufApp (chunkConsumed p) v).buffer = (chunkConsumed p).buffer ++ v from rfl,
        hfbuf, List.nil_append, hfcs, hfcr]
      omega
    have htRle : chunk_to_copy (bufApp p v) ≤ (bufApp p v).buffer.length := by
      unfold chunk_to_copy
      omega
    have htRlen : (bufApp p v).buffer.length = p.buffer.length + v.length := by
      show (p.buffer ++ v).length = _
      rw [List.length_append]
    have htakeR : ((bufApp p v).buffer.take (chunk_to_copy (bufApp p v))).length
        = chunk_to_copy (bufApp p v) := by
      rw [List.length_take]
      omega
    have htRpos : 0 < chunk_to_copy (bufApp p v) := by
      have : chunk_to_copy (bufApp p v) = min (p.buffer.length + v.length)
          (p.current_chunk_size - p.current_chunk_received) := by
        unfold chunk_to_copy
        rw [show (bufApp p v).buffer = p.buffer ++ v from rfl, List.length_append]
        rfl
      omega
    have hzR : ¬((bufApp p v).current_chunk_size
        - (bufApp p v).current_chunk_received = 0) := hz
    by_cases hcapR : MAX_BODY_BYTES < p.body_received + chunk_to_copy (bufApp p v)
    · exfalso
      have herrR : (append_body_data (bufApp p v)
          ((bufApp p v).buffer.take (chunk_to_copy (bufApp p v)))).state = PState.ERROR := by
        unfold append_body_data
        rw [if_pos (by
          rw [show (bufApp p v).body_received = p.body_received from rfl, htakeR]
          exact hcapR)]
        rfl
      have hstepR : step_once (bufApp p v) = (StepRes.error,
          append_body_data (bufApp p v)
            ((bufApp p v).buffer.take (chunk_to_copy (bufApp p v)))) := by
        unfold step_once
        rw [show (bufApp p v).state = p.state from rfl, hst]
        dsimp only
        unfold parse_chunk_data
        rw [if_neg hzR, if_neg (by omega : ¬(chunk_to_copy (bufApp p v) = 0)),
          if_pos herrR]
      obtain ⟨q2, hq2⟩ := step_once_error_append (bufApp p v) _ w hstepR
      rw [bufApp_bufApp] at hq2
      have hq2s := step_once_error_state _ _ hq2
      rw [exec_loop_err (bufApp p (v ++ w)) q2 (by
        rw [show (bufApp p (v ++ w)).state = p.state from rfl, hst]
        intro hx
        rcases hx with hx | hx <;> cases hx) hq2] at hC
      rw [hq2s] at hC
      cases hC
    · have htLle : chunk_to_copy (bufApp (chunkConsumed p) v)
          ≤ (bufApp (chunkConsumed p) v).buffer.length := by
        unfold chunk_to_copy
        omega
      have htLlen : (bufApp (chunkConsumed p) v).buffer.length = v.length := by
        rw [hbufL]
      have htakeL : ((bufApp (chunkConsumed p) v).buffer.take
          (chunk_to_copy (bufApp (chunkConsumed p) v))).length
          = chunk_to_copy (bufApp (chunkConsumed p) v) := by
        rw [List.length_take]
        omega
      have hcapR2 : ¬(MAX_BODY_BYTES < (bufApp p v).body_received +
          ((bufApp p v).buffer.take (chunk_to_copy (bufApp p v))).length) := by
        rw [show (bufApp p v).body_received = p.body_received from rfl, htakeR]
        exact hcapR
      have hcapL2 : ¬(MAX_BODY_BYTES < (bufApp (chunkConsumed p) v).body_received +
          ((bufApp (chunkConsumed p) v).buffer.take
            (chunk_to_copy (bufApp (chunkConsumed p) v))).length) := by
        rw [show (bufApp (chunkConsumed p) v).body_received = (chunkConsumed p).body_received
          from rfl, htakeL, hfbr]
        omega
      have hbceq : chunkConsumed (bufApp p v) = chunkConsumed (bufApp (chunkConsumed p) v) := by
        rw [chunkConsumed_eq _ hcapR2, chunkConsumed_eq _ hcapL2]
        apply parser_ext
        · show p.state = (chunkConsumed p).state
          rw [hfstate, hst]
        · apply request_ext
          · show p.req.method = (chunkConsumed p).req.method
            rw [hbcfields]
          · show p.req.path = (chunkConsumed p).req.path
            rw [hbcfields]
          · show p.req.query_string = (chunkConsumed p).req.query_string
            rw [hbcfields]
          · show p.req.headers = (chunkConsumed p).req.headers
            rw [hbcfields]
          · show p.req.body ++ (p.buffer ++ v).take (chunk_to_copy (bufApp p v))
              = (chunkConsumed p).req.body ++
                ((chunkConsumed p).buffer ++ v).take
                  (chunk_to_copy (bufApp (chunkConsumed p) v))
            rw [hfbody, hfbuf, List.nil_append, List.take_append_eq_append_take,
              List.take_of_length_le (by omega :
                p.buffer.length ≤ chunk_to_copy (bufApp p v)),
              show chunk_to_copy (bufApp p v) - p.buffer.length
                = chunk_to_copy (bufApp (chunkConsumed p) v) from by omega,
              List.append_assoc]
          · rw [htakeR, htakeL]
            show p.body_received + chunk_to_copy (bufApp p v)
              = (chunkConsumed p).body_received + chunk_to_copy (bufApp (chunkConsumed p) v)
            rw [hfbr, htR]
            omega
        · show (p.buffer ++ v).drop (chunk_to_copy (bufApp p v))
            = ((chunkConsumed p).buffer ++ v).drop (chunk_to_copy (bufApp (chunkConsumed p) v))
          rw [hfbuf, List.nil_append, List.drop_append_eq_append_drop,
            List.drop_eq_nil_of_le (by omega :
              p.buffer.length ≤ chunk_to_copy (bufApp p v)),
            show chunk_to_copy (bufApp p v) - p.buffer.length
              = chunk_to_copy (bufApp (chunkConsumed p) v) from by omega,
            List.nil_append]
        · show (bufApp p v).total_bytes = (bufApp (chunkConsumed p) v).total_bytes
          show p.total_bytes + v.length = (chunkConsumed p).total_bytes + v.length
          rw [hftb]
        · show p.header_count = (chunkConsumed p).header_count
          rw [hbcfields]
        · show p.content_length = (chunkConsumed p).content_length
          rw [hbcfields]
        · rw [htakeR, htakeL]
          show p.body_received + chunk_to_copy (bufApp p v)
            = (chunkConsumed p).body_received + chunk_to_copy (bufApp (chunkConsumed p) v)
          rw [hfbr, htR]
          omega
        · show p.chunked = (chunkConsumed p).chunked
          rw [hbcfields]
        · show p.current_chunk_size = (chunkConsumed p).current_chunk_size
          rw [hfcs]
        · show (bufApp p v).current_chunk_received + chunk_to_copy (bufApp p v)
            = (bufApp (chunkConsumed p) v).current_chunk_received +
              chunk_to_copy (bufApp (chunkConsumed p) v)
          rw [show (bufApp p v).current_chunk_received = p.current_chunk_received from rfl,
            show (bufApp (chunkConsumed p) v).current_chunk_received
              = (chunkConsumed p).current_chunk_received from rfl, hfcr, htR]
          omega
        · show p.keep_alive = (chunkConsumed p).keep_alive
          rw [hbcfields]
        · show p.seen_host = (chunkConsumed p).seen_host
          rw [hbcfields]
        · show p.error_status = (chunkConsumed p).error_status
          rw [hbcfields]
        · show p.error_message = (chunkConsumed p).error_message
          rw [hbcfields]
      have herrRok : ¬((append_body_data (bufApp p v)
          ((bufApp p v).buffer.take (chunk_to_copy (bufApp p v)))).state = PState.ERROR) := by
        rw [append_body_data_state_ok _ _ hcapR2,
          show (bufApp p v).state = p.state from rfl, hst]
        intro hx
        cases hx
      have herrLok : ¬((append_body_data (bufApp (chunkConsumed p) v)
          ((bufApp (chunkConsumed p) v).buffer.take
            (chunk_to_copy (bufApp (chunkConsumed p) v)))).state = PState.ERROR) := by
        rw [append_body_data_state_ok _ _ hcapL2,
          show (bufApp (chunkConsumed p) v).state = (chunkConsumed p).state from rfl, hfstate]
        intro hx
        cases hx
      have htLpos : 0 < chunk_to_copy (bufApp (chunkConsumed p) v) := by
        have : chunk_to_copy (bufApp (chunkConsumed p) v) = min v.length
            ((chunkConsumed p).current_chunk_size
              - (chunkConsumed p).current_chunk_received) := by
          unfold chunk_to_copy
          rw [show (bufApp (chunkConsumed p) v).buffer = (chunkConsumed p).buffer ++ v from rfl,
            hfbuf, List.nil_append]
          rfl
        rw [hfcs, hfcr] at this
        omega
      have hzL : ¬((bufApp (chunkConsumed p) v).current_chunk_size
          - (bufApp (chunkConsumed p) v).current_chunk_received = 0) := by
        show ¬((chunkConsumed p).current_chunk_size
          - (chunkConsumed p).current_chunk_received = 0)
        rw [hfcs, hfcr]
        omega
      have hL1 : ¬((bufApp p v).state = PState.ERROR ∨ (bufApp p v).state = PState.COMPLETE) := by
        rw [show (bufApp p v).state = p.state from rfl, hst]
        intro hx
        rcases hx with hx | hx <;> cases hx
      have hL2 : ¬((bufApp (chunkConsumed p) v).state = PState.ERROR ∨
          (bufApp (chunkConsumed p) v).state = PState.COMPLETE) := by
        rw [show (bufApp (chunkConsumed p) v).state = (chunkConsumed p).state from rfl, hfstate]
        intro hx
        rcases hx with hx | hx <;> cases hx
      by_cases hdoneR : (chunkConsumed (bufApp p v)).current_chunk_received
          = (chunkConsumed (bufApp p v)).current_chunk_size
      · have hdoneL : (chunkConsumed (bufApp (chunkConsumed p) v)).current_chunk_received
            = (chunkConsumed (bufApp (chunkConsumed p) v)).current_chunk_size := by
          rw [← hbceq]
          exact hdoneR
        have hsR : step_once (bufApp p v) = (StepRes.progress,
            { chunkConsumed (bufApp p v) with state := PState.CHUNK_CRLF }) := by
          unfold step_once
          rw [show (bufApp p v).state = p.state from rfl, hst]
          dsimp only
          unfold parse_chunk_data
          rw [if_neg hzR, if_neg (by omega : ¬(chunk_to_copy (bufApp p v) = 0)),
            if_neg herrRok, if_pos hdoneR]
        have hsL : step_once (bufApp (chunkConsumed p) v) = (StepRes.progress,
            { chunkConsumed (bufApp (chunkConsumed p) v) with state := PState.CHUNK_CRLF }) := by
          unfold step_once
          rw [show (bufApp (chunkConsumed p) v).state = (chunkConsumed p).state from rfl,
            hfstate]
          dsimp only
          unfold parse_chunk_data
          rw [if_neg hzL, if_neg (by omega : ¬(chunk_to_copy (bufApp (chunkConsumed p) v) = 0)),
            if_neg herrLok, if_pos hdoneL]
        rw [exec_loop_progress _ _ hL1 hsR, exec_loop_progress _ _ hL2 hsL, hbceq]
      · have hdoneL : ¬((chunkConsumed (bufApp (chunkConsumed p) v)).current_chunk_received
            = (chunkConsumed (bufApp (chunkConsumed p) v)).current_chunk_size) := by
          rw [← hbceq]
          exact hdoneR
        have hsR : step_once (bufApp p v)
            = (StepRes.progress, chunkConsumed (bufApp p v)) := by
          unfold step_once
          rw [show (bufApp p v).state = p.state from rfl, hst]
          dsimp only
          unfold parse_chunk_data
          rw [if_neg hzR, if_neg (by omega : ¬(chunk_to_copy (bufApp p v) = 0)),
            if_neg herrRok, if_neg hdoneR]
        have hsL : step_once (bufApp (chunkConsumed p) v)
            = (StepRes.progress, chunkConsumed (bufApp (chunkConsumed p) v)) := by
          unfold step_once
          rw [show (bufApp (chunkConsumed p) v).state = (chunkConsumed p).state from rfl,
            hfstate]
          dsimp only
          unfold parse_chunk_data
          rw [if_neg hzL, if_neg (by omega : ¬(chunk_to_copy (bufApp (chunkConsumed p) v) = 0)),
            if_neg herrLok, if_neg hdoneL]
        rw [exec_loop_progress _ _ hL1 hsR, exec_loop_progress _ _ hL2 hsL, hbceq]


theorem exec_append_aux (n : Nat) : ∀ p (v w : List Byte), pMeasure p < n →
    (exec_loop (bufApp p (v ++ w))).state = PState.COMPLETE →
    exec_loop (bufApp (exec_loop p) v) = exec_loop (bufApp p v) := by
  induction n with
  | zero =>
    intro p v w hn
    omega
  | succ n ih =>
    intro p v w hn hC
    by_cases hterm : p.state = PState.ERROR ∨ p.state = PState.COMPLETE
    · rcases hterm with hE | hCmp
      · exfalso
        rw [exec_loop_terminal (bufApp p (v ++ w))
          (Or.inl (show (bufApp p (v ++ w)).state = PState.ERROR from hE))] at hC
        have h2 : p.state = PState.COMPLETE := hC
        rw [hE] at h2
        cases h2
      · rw [exec_loop_terminal p (Or.inr hCmp)]
    · rcases hs : step_once p with ⟨r, p1⟩
      cases r with
      | incomplete =>
        obtain ⟨hst1, heqv⟩ := step_once_incomplete p p1 hs
        rw [exec_loop_stall p p1 hterm hs]
        by_cases hH : p.state = PState.HEADERS
        · have hph : parse_headers p = (StepRes.incomplete, p1) := by
            unfold step_once at hs
            rw [hH] at hs
            exact hs
          have hQ := parse_headers_append_aux (p.buffer.length + 1) p (by omega) v
          rw [hph] at hQ
          dsimp only at hQ
          have hstep_eq : step_once (bufApp p v) = step_once (bufApp p1 v) := by
            unfold step_once
            rw [show (bufApp p v).state = p.state from rfl, hH,
              show (bufApp p1 v).state = p1.state from rfl, hst1, hH]
            dsimp only
            exact hQ
          rw [exec_loop_eq (bufApp p v), exec_loop_eq (bufApp p1 v)]
          rw [if_neg (show ¬((bufApp p v).state = PState.ERROR ∨
              (bufApp p v).state = PState.COMPLETE) from by
            rw [show (bufApp p v).state = p.state from rfl, hH]
            intro hx
            rcases hx with hx | hx <;> cases hx)]
          rw [if_neg (show ¬((bufApp p1 v).state = PState.ERROR ∨
              (bufApp p1 v).state = PState.COMPLETE) from by
            rw [show (bufApp p1 v).state = p1.state from rfl, hst1, hH]
            intro hx
            rcases hx with hx | hx <;> cases hx)]
          rw [hstep_eq]
        · rw [heqv hH]
      | error =>
        exfalso
        obtain ⟨q2, hq2⟩ := step_once_error_append p p1 (v ++ w) hs
        have hq2s := step_once_error_state _ _ hq2
        rw [exec_loop_err (bufApp p (v ++ w)) q2 (by
          rw [show (bufApp p (v ++ w)).state = p.state from rfl]
          exact hterm) hq2] at hC
        rw [hq2s] at hC
        cases hC
      | progress =>
        have hm := step_once_progress_measure p p1 hs
        rcases hst : p.state with _ | _ | _ | _ | _ | _ | _ | _ | _
        · have hcv := step_once_progress_append p p1 v hs (by exact Or.inl hst)
          have hcw := step_once_progress_append p p1 (v ++ w) hs (by exact Or.inl hst)
          rw [exec_loop_progress p p1 hterm hs,
            exec_loop_progress (bufApp p v) (bufApp p1 v) (by
              rw [show (bufApp p v).state = p.state from rfl]
              exact hterm) hcv]
          apply ih p1 v w (by omega)
          rw [← exec_loop_progress (bufApp p (v ++ w)) (bufApp p1 (v ++ w)) (by
            rw [show (bufApp p (v ++ w)).state = p.state from rfl]
            exact hterm) hcw]
          exact hC
        · have hcv := step_once_progress_append p p1 v hs (by exact Or.inr (Or.inl hst))
          have hcw := step_once_progress_append p p1 (v ++ w) hs (by exact Or.inr (Or.inl hst))
          rw [exec_loop_progress p p1 hterm hs,
            exec_loop_progress (bufApp p v) (bufApp p1 v) (by
              rw [show (bufApp p v).state = p.state from rfl]
              exact hterm) hcv]
          apply ih p1 v w (by omega)
          rw [← exec_loop_progress (bufApp p (v ++ w)) (bufApp p1 (v ++ w)) (by
            rw [show (bufApp p (v ++ w)).state = p.state from rfl]
            exact hterm) hcw]
          exact hC
        · by_cases hfull : p.content_length - p.body_received ≤ p.buffer.length
          · have hbody : parse_body_step p = (StepRes.progress, p1) := by
              unfold step_once at hs
              rw [hst] at hs
              exact hs
            have hcv : step_once (bufApp p v) = (StepRes.progress, bufApp p1 v) := by
              unfold step_once
              rw [show (bufApp p v).state = p.state from rfl, hst]
              dsimp only
              exact parse_body_step_append_exact p p1 v hfull hbody
            have hcw : step_once (bufApp p (v ++ w))
                = (StepRes.progress, bufApp p1 (v ++ w)) := by
              unfold step_once
              rw [show (bufApp p (v ++ w)).state = p.state from rfl, hst]
              dsimp only
              exact parse_body_step_append_exact p p1 (v ++ w) hfull hbody
            rw [exec_loop_progress p p1 hterm hs,
              exec_loop_progress (bufApp p v) (bufApp p1 v) (by
                rw [show (bufApp p v).state = p.state from rfl]
                exact hterm) hcv]
            apply ih p1 v w (by omega)
            rw [← exec_loop_progress (bufApp p (v ++ w)) (bufApp p1 (v ++ w)) (by
              rw [show (bufApp p (v ++ w)).state = p.state from rfl]
              exact hterm) hcw]
            exact hC
          · obtain ⟨he1, he2⟩ := exec_body_stall_append p p1 v w hst hs hfull hC
            rw [he1]
            exact he2
        · have hcv := step_once_progress_append p p1 v hs (by exact Or.inr (Or.inr (Or.inl hst)))
          have hcw := step_once_progress_append p p1 (v ++ w) hs (by exact Or.inr (Or.inr (Or.inl hst)))
          rw [exec_loop_progress p p1 hterm hs,
            exec_loop_progress (bufApp p v) (bufApp p1 v) (by
              rw [show (bufApp p v).state = p.state from rfl]
              exact hterm) hcv]
          apply ih p1 v w (by omega)
          rw [← exec_loop_progress (bufApp p (v ++ w)) (bufApp p1 (v ++ w)) (by
            rw [show (bufApp p (v ++ w)).state = p.state from rfl]
            exact hterm) hcw]
          exact hC
        · by_cases hfull : p.current_chunk_size - p.current_chunk_received ≤ p.buffer.length
          · have hbody : parse_chunk_data p = (StepRes.progress, p1) := by
              unfold step_once at hs
              rw [hst] at hs
              exact hs
            have hcv : step_once (bufApp p v) = (StepRes.progress, bufApp p1 v) := by
              unfold step_once
              rw [show (bufApp p v).state = p.state from rfl, hst]
              dsimp only
              exact parse_chunk_data_append_exact p p1 v hfull hbody
            have hcw : step_once (bufApp p (v ++ w))
                = (StepRes.progress, bufApp p1 (v ++ w)) := by
              unfold step_once
              rw [show (bufApp p (v ++ w)).state = p.state from rfl, hst]
              dsimp only
              exact parse_chunk_data_append_exact p p1 (v ++ w) hfull hbody
            rw [exec_loop_progress p p1 hterm hs,
              exec_loop_progress (bufApp p v) (bufApp p1 v) (by
                rw [show (bufApp p v).state = p.state from rfl]
                exact hterm) hcv]
            apply ih p1 v w (by omega)
            rw [← exec_loop_progress (bufApp p (v ++ w)) (bufApp p1 (v ++ w)) (by
              rw [show (bufApp p (v ++ w)).state = p.state from rfl]
              exact hterm) hcw]
            exact hC
          · obtain ⟨he1, he2⟩ := exec_chunk_stall_append p p1 v w hst hs hfull hC
            rw [he1]
            exact he2
        · have hcv := step_once_progress_append p p1 v hs (by exact Or.inr (Or.inr (Or.inr (Or.inl hst))))
          have hcw := step_once_progress_append p p1 (v ++ w) hs (by exact Or.inr (Or.inr (Or.inr (Or.inl hst))))
          rw [exec_loop_progress p p1 hterm hs,
            exec_loop_progress (bufApp p v) (bufApp p1 v) (by
              rw [show (bufApp p v).state = p.state from rfl]
              exact hterm) hcv]
          apply ih p1 v w (by omega)
          rw [← exec_loop_progress (bufApp p (v ++ w)) (bufApp p1 (v ++ w)) (by
            rw [show (bufApp p (v ++ w)).state = p.state from rfl]
            exact hterm) hcw]
          exact hC
        · have hcv := step_once_progress_append p p1 v hs (by exact Or.inr (Or.inr (Or.inr (Or.inr hst))))
          have hcw := step_once_progress_append p p1 (v ++ w) hs (by exact Or.inr (Or.inr (Or.inr (Or.inr hst))))
          rw [exec_loop_progress p p1 hterm hs,
            exec_loop_progress (bufApp p v) (bufApp p1 v) (by
              rw [show (bufApp p v).state = p.state from rfl]
              exact hterm) hcv]
          apply ih p1 v w (by omega)
          rw [← exec_loop_progress (bufApp p (v ++ w)) (bufApp p1 (v ++ w)) (by
            rw [show (bufApp p (v ++ w)).state = p.state from rfl]
            exact hterm) hcw]
          exact hC
        · exact absurd (Or.inr hst) hterm
        · exact absurd (Or.inl hst) hterm

theorem exec_append (p : Parser) (v w : List Byte)
    (hC : (exec_loop (bufApp p (v ++ w))).state = PState.COMPLETE) :
    exec_loop (bufApp (exec_loop p) v) = exec_loop (bufApp p v) :=
  exec_append_aux (pMeasure p + 1) p v w (by omega) hC


theorem feed_snoc (p : Parser) (u : List Byte) (b : Byte) :
    feed_bytes p (u ++ [b]) = http_parser_execute (feed_bytes p u) [b] := by
  unfold feed_bytes
  rw [List.foldl_append]
  rfl

theorem exec_loop_init : exec_loop http_parser_init = http_parser_init := rfl

theorem feed_prefix (bs : List Byte) (hlen : bs.length ≤ MAX_REQUEST_BUFFER)
    (hC : (exec_loop (bufApp http_parser_init bs)).state = PState.COMPLETE) :
    ∀ u w, bs = u ++ w →
      feed_bytes http_parser_init u = exec_loop (bufApp http_parser_init u) := by
  intro u
  induction u using List.reverseRecOn with
  | nil =>
    intro w hw
    show http_parser_init = exec_loop (bufApp http_parser_init [])
    rw [bufApp_nil, exec_loop_init]
  | append_singleton u b ihu =>
    intro w hw
    have hw2 : bs = u ++ ([b] ++ w) := by
      rw [hw, List.append_assoc]
    have hu := ihu ([b] ++ w) hw2
    rw [feed_snoc, hu]
    have hCu : (exec_loop (bufApp (bufApp http_parser_init u) ([b] ++ w))).state
        = PState.COMPLETE := by
      rw [bufApp_bufApp, ← hw2]
      exact hC
    have hnoterr : ¬((exec_loop (bufApp http_parser_init u)).state = PState.ERROR) := by
      intro hE
      have hx := exec_append (bufApp http_parser_init u) ([b] ++ w) []
        (by rw [List.append_nil]; exact hCu)
      rw [exec_loop_terminal (bufApp (exec_loop (bufApp http_parser_init u)) ([b] ++ w))
        (Or.inl (show (bufApp (exec_loop (bufApp http_parser_init u)) ([b] ++ w)).state
          = PState.ERROR from hE))] at hx
      have hstates := congrArg Parser.state hx
      rw [hCu] at hstates
      have h3 : (exec_loop (bufApp http_parser_init u)).state = PState.COMPLETE := hstates
      rw [hE] at h3
      cases h3
    have hbuf_le : (exec_loop (bufApp http_parser_init u)).buffer.length ≤ u.length := by
      have h1 := exec_loop_buffer_le (bufApp http_parser_init u)
      have h2 : (bufApp http_parser_init u).buffer.length = u.length := by
        show (http_parser_init.buffer ++ u).length = u.length
        rw [show http_parser_init.buffer = ([] : List Byte) from rfl, List.nil_append]
      omega
    have hlen2 : u.length + 1 ≤ MAX_REQUEST_BUFFER := by
      have h4 : (u ++ [b] ++ w).length = bs.length := by
        rw [hw]
      rw [List.length_append, List.length_append, List.length_cons, List.length_nil] at h4
      omega
    unfold http_parser_execute
    rw [if_neg hnoterr]
    rw [if_pos (show ([b] : List Byte).length > 0 from by simp)]
    rw [if_neg (show ¬((exec_loop (bufApp http_parser_init u)).buffer.length +
        ([b] : List Byte).length > MAX_REQUEST_BUFFER) from by
      rw [List.length_cons, List.length_nil]
      omega)]
    have hmain := exec_append (bufApp http_parser_init u) [b] w (by
      exact hCu)
    rw [hmain, bufApp_bufApp]

/-- C3: for every byte sequence that a single `http_parser_execute`
call on a fresh parser parses to `COMPLETE`, feeding the same bytes to
a fresh parser one byte per `http_parser_execute` call yields exactly
the same parser — the same `COMPLETE` state and the same parsed
request (method, path, query string, header list, body, keep-alive
flag), byte for byte. -/
theorem c3_incremental_parse (bs : List Byte)
    (h : (http_parser_execute http_parser_init bs).state = PState.COMPLETE) :
    feed_bytes http_parser_init bs = http_parser_execute http_parser_init bs := by
  unfold http_parser_execute at h ⊢
  rw [if_neg (show ¬(http_parser_init.state = PState.ERROR) from by
    intro hx
    cases hx)] at h ⊢
  by_cases hpos : bs.length > 0
  · rw [if_pos hpos] at h ⊢
    by_cases hcap : http_parser_init.buffer.length + bs.length > MAX_REQUEST_BUFFER
    · rw [if_pos hcap] at h
      exact absurd h (by decide)
    · rw [if_neg hcap] at h ⊢
      have hlen : bs.length ≤ MAX_REQUEST_BUFFER := by
        rw [show http_parser_init.buffer = ([] : List Byte) from rfl, List.length_nil] at hcap
        omega
      exact feed_prefix bs hlen h bs [] (by rw [List.append_nil])
  · have hbs : bs = [] := List.length_eq_zero.mp (by omega)
    subst hbs
    rw [if_neg hpos] at h ⊢
    rw [exec_loop_init] at h
    exact absurd h (by decide)

/-- Witness for `c3_incremental_parse` at a concrete complete request.
`feed_bytes` feeds it one byte per call. -/
theorem c3_incremental_parse_witness :
    (http_parser_execute http_parser_init
      (bytes ("GET / HTTP/1.1\r\nHost: x\r\n\r\n"))).state = PState.COMPLETE ∧
    feed_bytes http_parser_init (bytes ("GET / HTTP/1.1\r\nHost: x\r\n\r\n")) =
      http_parser_execute http_parser_init
        (bytes ("GET / HTTP/1.1\r\nHost: x\r\n\r\n")) :=
  ⟨by decide, c3_incremental_parse _ (by decide)⟩

end WebLib
